import Mathlib

/-! # Polyhedral gravity (Werner and Scheeres): embedding of `gravity-werner.cpp`

The development follows `support-libraries/altwg/gravity/gravity-werner.cpp`
and the vector helpers of `support-libraries/altwg/common/mathutil.h`.

Modelling choices.

* `double` is an arbitrary linearly ordered field `K` (exact arithmetic); the
  functions of `<math.h>` that the sources call (`sqrt`, `log`, `atan2`) and
  the constant `M_PI` are parameters, collected in `LibM`.
* `double[3]` is `Fin 3 → K`, `double[3][3]` is `Fin 3 → Fin 3 → K`.
* The file-level variables `edgeData`, `faceData`, `polyData`, `pointData`
  are the fields of an explicit `State` that every entry point receives and
  returns.
* `std::vector` is a `List`; an element access outside the vector and a
  dereference of the null `polyData` are faults, modelled by `none`.
* `Platemodel` is declared in `platemodel.h`, which is not part of the
  sources at hand; its accessors are the fields of a structure.
* Statements about concrete values (a point inside a tetrahedron, a field
  point on the line of an edge) are made for `K = ℝ`, under hypotheses that
  identify the parameters with `Real.sqrt`, with `atan2 (y, x) = arg (x + i y)`
  and with `π`.
* Where the rounding of `sqrt` decides the outcome, `sqrt` is instantiated
  with the binary64 values at the arguments that occur, on an input whose
  other operations are exact in binary64.
* `std::unordered_map` is a list of nodes.  A lookup inspects the nodes whose
  hash code equals the hash code of the searched key and compares keys with
  `operator==`.  The order in which the map is traversed is a parameter
  `iterate`, about which the theorems only assume that it permutes the nodes.
-/

namespace GravityWerner

/-! ## Scalars and `mathutil.h` -/

/-- Functions and constants of `<math.h>` used by the sources.  A field has a
single zero while `double` has two, and `atan2` tells them apart: the value of
`atan2(-0.0, x)`, the only call the sources make with a zero of known sign, is
the separate parameter `atan2NegZero`. -/
structure LibM (K : Type) where
  sqrt : K → K
  log : K → K
  atan2 : K → K → K
  atan2NegZero : K → K
  M_PI : K

abbrev Vec3 (K : Type) := Fin 3 → K

abbrev Mat3 (K : Type) := Fin 3 → Fin 3 → K

section Defs

variable {K : Type} [LinearOrderedField K]

/-- `Subtract(a, b, c)`: `c[i] = a[i] - b[i]`. -/
def Subtract (a b : Vec3 K) : Vec3 K := fun i => a i - b i

/-- `Norm(x)`. -/
def Norm (lm : LibM K) (x : Vec3 K) : K :=
  lm.sqrt (x 0 * x 0 + x 1 * x 1 + x 2 * x 2)

/-- `Normalize(x)`: the vector is divided by its norm in place unless the norm
is zero; the norm is returned.  The pair is (new content of `x`, returned
value). -/
def Normalize (lm : LibM K) (x : Vec3 K) : Vec3 K × K :=
  let den := Norm lm x
  if den ≠ 0 then (fun i => x i / den, den) else (x, den)

/-- `Cross(x, y, z)`. -/
def Cross (x y : Vec3 K) : Vec3 K :=
  ![x 1 * y 2 - x 2 * y 1, x 2 * y 0 - x 0 * y 2, x 0 * y 1 - x 1 * y 0]

/-- `Dot(x, y)`. -/
def Dot (x y : Vec3 K) : K := x 0 * y 0 + x 1 * y 1 + x 2 * y 2

/-- `Outer(x, y, A)`: `A[i][j] = x[i] * y[j]`. -/
def Outer (x y : Vec3 K) : Mat3 K := fun i j => x i * y j

/-! ## Helpers local to `gravity-werner.cpp` -/

/-- `addMatrices(a, b, c)`: `c[i][j] = a[i][j] + b[i][j]`. -/
def addMatrices (a b : Mat3 K) : Mat3 K := fun i j => a i j + b i j

/-- `Multiply3x3(A, v, u)`. -/
def Multiply3x3 (A : Mat3 K) (v : Vec3 K) : Vec3 K :=
  ![A 0 0 * v 0 + A 0 1 * v 1 + A 0 2 * v 2,
    A 1 0 * v 0 + A 1 1 * v 1 + A 1 2 * v 2,
    A 2 0 * v 0 + A 2 1 * v 1 + A 2 2 * v 2]

/-- `Abs(a)`: `(a <= 0.0) ? 0.0 - a : a`. -/
def Abs (a : K) : K := if a ≤ 0 then 0 - a else a

end Defs

/-! ## Data -/

/-- `struct EdgeKey`. -/
structure EdgeKey where
  p1 : Int
  p2 : Int
deriving DecidableEq, Repr

/-- `EdgeHash::operator()`: returns `key.p1`, converted to `size_t`. -/
def EdgeHash (key : EdgeKey) : Nat := (key.p1 % 2 ^ 64).toNat

/-- `operator==(const EdgeKey&, const EdgeKey&)`. -/
def EdgeKey.operatorEq (key1 key2 : EdgeKey) : Bool :=
  key1.p1 == key2.p1 && key1.p2 == key2.p2

/-- `struct EdgeData`. -/
structure EdgeData (K : Type) where
  E : Mat3 K
  edgeLength : K
  p1 : Int
  p2 : Int

/-- `struct FaceData`. -/
structure FaceData (K : Type) where
  F : Mat3 K
  p1 : Int
  p2 : Int
  p3 : Int

/-- `struct PointData`. -/
structure PointData (K : Type) where
  r : Vec3 K
  r_mag : K

/-- The interface of `Platemodel` that `gravity-werner.cpp` calls. -/
structure Platemodel (K : Type) where
  getNumberOfPoints : Nat
  getNumberOfPlates : Nat
  getPoint : Int → Vec3 K
  getPlatePoints : Nat → Fin 3 → Int
  getNormal : Nat → Vec3 K

/-- The file-level variables of `gravity-werner.cpp`. -/
structure State (K : Type) where
  edgeData : List (EdgeData K)
  faceData : List (FaceData K)
  polyData : Option (Platemodel K)
  pointData : List (PointData K)

/-- Nodes of `EdgeDataMap`. -/
abbrev EdgeDataMap (K : Type) := List (EdgeKey × EdgeData K)

section Containers

variable {α : Type}

/-- `std::vector::resize(n)`: keeps the first `n` elements and pads with
value-initialised elements. -/
def resize (l : List α) (n : Nat) (dflt : α) : List α :=
  l.take n ++ List.replicate (n - l.length) dflt

/-- `v[i] = x`, a fault when `i` is not below `v.size()`. -/
def writeAt (l : List α) (i : Nat) (x : α) : Option (List α) :=
  if i < l.length then some (l.set i x) else none

/-- `v[i]` for an `int` index, a fault when `i` is not in `[0, v.size())`. -/
def readAt (l : List α) (i : Int) : Option α :=
  if 0 ≤ i then l[i.toNat]? else none

end Containers

section Map

variable {K : Type}

/-- `edgeDataMap.find(key)`: position of the node with an equal key, searched
among the nodes with the same hash code. -/
def EdgeDataMap.find (m : EdgeDataMap K) (key : EdgeKey) : Option Nat :=
  List.findIdx? (fun nd => EdgeHash nd.1 == EdgeHash key && nd.1.operatorEq key) m

/-- `edgeDataMap.insert(pair).first`: the map with a new node and the
position of that node. -/
def EdgeDataMap.insert (m : EdgeDataMap K) (nd : EdgeKey × EdgeData K) :
    EdgeDataMap K × Nat :=
  (m ++ [nd], m.length)

end Map

/-! ## `initializeGravityWerner` -/

section Builder

variable {K : Type} [LinearOrderedField K]

/-- Value-initialised `EdgeData` (what `resize` pads with). -/
def EdgeData.zero : EdgeData K := ⟨fun _ _ => 0, 0, 0, 0⟩

/-- Value-initialised `FaceData`. -/
def FaceData.zero : FaceData K := ⟨fun _ _ => 0, 0, 0, 0⟩

/-- Value-initialised `PointData`. -/
def PointData.zero : PointData K := ⟨fun _ => 0, 0⟩

/-- The directed side `j` of a plate: `(pointIds[j], pointIds[j+1])` for
`j < 2` and `(pointIds[2], pointIds[0])` otherwise. -/
def sideEnds (pointIds : Fin 3 → Int) (j : Fin 3) : Int × Int :=
  if j < 2 then (pointIds j, pointIds (j + 1)) else (pointIds 2, pointIds 0)

/-- The key of a directed side: the point with the lowest id first. -/
def makeKey (p1 p2 : Int) : EdgeKey :=
  if p1 < p2 then ⟨p1, p2⟩ else ⟨p2, p1⟩

/-- The `EdgeData` inserted when the key is not found. -/
def freshEdge (key : EdgeKey) : EdgeData K := ⟨fun _ _ => 0, 0, key.p1, key.p2⟩

/-- Lookup of the key, with insertion of a fresh node when it is not found:
the map afterwards and the position `it` of the node of the key. -/
def findOrInsert (m : EdgeDataMap K) (key : EdgeKey) : EdgeDataMap K × Nat :=
  match EdgeDataMap.find m key with
  | some it => (m, it)
  | none => EdgeDataMap.insert m (key, freshEdge key)

/-- The half dyad of a directed side of plate `i` from `p1` to `p2`:
`Outer(cellNormal, Cross(edgeUnitVector, cellNormal))`. -/
def halfDyad (lm : LibM K) (mesh : Platemodel K) (i : Nat) (p1 p2 : Int) : Mat3 K :=
  let cellNormal := mesh.getNormal i
  let edgeUnitVector := (Normalize lm (Subtract (mesh.getPoint p2) (mesh.getPoint p1))).1
  let edgeNormal := Cross edgeUnitVector cellNormal
  Outer cellNormal edgeNormal

/-- The value `Normalize` returns for the side from `p1` to `p2`. -/
def sideLength (lm : LibM K) (mesh : Platemodel K) (p1 p2 : Int) : K :=
  (Normalize lm (Subtract (mesh.getPoint p2) (mesh.getPoint p1))).2

/-- The writes through the reference `ed` for the side of plate `i` from `p1`
to `p2`: `ed.edgeLength = Normalize(edgeUnitVector)` and
`addMatrices(ed.E, E, ed.E)`. -/
def touch (lm : LibM K) (mesh : Platemodel K) (i : Nat) (p1 p2 : Int) (ed : EdgeData K) :
    EdgeData K :=
  { ed with
    edgeLength := sideLength lm mesh p1 p2
    E := addMatrices ed.E (halfDyad lm mesh i p1 p2) }

/-- Body of the inner loop of the edge pass once `p1` and `p2` are chosen:
key, lookup or insertion, update of the node. -/
def accumulate (lm : LibM K) (mesh : Platemodel K) (i : Nat) (p1 p2 : Int)
    (m : EdgeDataMap K) : EdgeDataMap K :=
  let key := makeKey p1 p2
  let found := findOrInsert m key
  List.modify (fun nd => (nd.1, touch lm mesh i p1 p2 nd.2)) found.2 found.1

/-- Body of the inner loop (one `j`) of the edge pass. -/
def processSide (lm : LibM K) (mesh : Platemodel K) (i : Nat) (j : Fin 3)
    (m : EdgeDataMap K) : EdgeDataMap K :=
  let pointIds := mesh.getPlatePoints i
  accumulate lm mesh i (sideEnds pointIds j).1 (sideEnds pointIds j).2 m

/-- The inner loop `for (int j=0; j<3; ++j)` for plate `i`. -/
def processFace (lm : LibM K) (mesh : Platemodel K) (m : EdgeDataMap K) (i : Nat) :
    EdgeDataMap K :=
  (List.finRange 3).foldl (fun m j => processSide lm mesh i j m) m

/-- The edge pass: `for (int i=0; i<numFaces; ++i)` from the empty map. -/
def buildEdgeMap (lm : LibM K) (mesh : Platemodel K) : EdgeDataMap K :=
  (List.range mesh.getNumberOfPlates).foldl (processFace lm mesh) []

/-- The copy of the map into the vector: `edgeData[i] = it->second; ++i` for
the nodes in traversal order. -/
def copyEdges (nodes : List (EdgeKey × EdgeData K)) (edgeData : List (EdgeData K)) :
    Option (List (EdgeData K) × Nat) :=
  nodes.foldlM (fun s nd => (writeAt s.1 s.2 nd.2).map (fun v => (v, s.2 + 1))) (edgeData, 0)

/-- The `FaceData` built for plate `i`. -/
def makeFace (mesh : Platemodel K) (i : Nat) : FaceData K :=
  let pointIds := mesh.getPlatePoints i
  let normal := mesh.getNormal i
  { F := Outer normal normal, p1 := pointIds 0, p2 := pointIds 1, p3 := pointIds 2 }

/-- The face pass: `faceData[i] = fd` for `i < numFaces`. -/
def buildFaces (mesh : Platemodel K) (faceData : List (FaceData K)) :
    Option (List (FaceData K)) :=
  (List.range mesh.getNumberOfPlates).foldlM (fun v i => writeAt v i (makeFace mesh i)) faceData

/-- `initializeGravityWerner`.  `loaded` is the plate model read from the
file; `iterate` is the traversal order of the map. -/
def initializeGravityWerner (lm : LibM K)
    (iterate : EdgeDataMap K → EdgeDataMap K) (loaded : Platemodel K) (st : State K) :
    Option (State K) := do
  let edgeDataMap := buildEdgeMap lm loaded
  let numFaces := loaded.getNumberOfPlates
  let edgeData ← copyEdges (iterate edgeDataMap) (resize st.edgeData (numFaces * 3 / 2) EdgeData.zero)
  let faceData ← buildFaces loaded (resize st.faceData numFaces FaceData.zero)
  pure { edgeData := edgeData.1, faceData := faceData, polyData := some loaded,
         pointData := st.pointData }

end Builder

/-! ## Evaluation -/

section Evaluator

variable {K : Type} [LinearOrderedField K]

/-- `compute_wf`.  When the numerator is replaced by `-0.0` the call is
`atan2(-0.0, denominator)`, which is `lm.atan2NegZero denominator`. -/
def compute_wf (lm : LibM K) (pointData : List (PointData K)) (fd : FaceData K) : Option K := do
  let pd1 ← readAt pointData fd.p1
  let pd2 ← readAt pointData fd.p2
  let pd3 ← readAt pointData fd.p3
  let cross := Cross pd2.r pd3.r
  let numerator := Dot pd1.r cross
  let denominator := pd1.r_mag * pd2.r_mag * pd3.r_mag +
    pd1.r_mag * Dot pd2.r pd3.r +
    pd2.r_mag * Dot pd3.r pd1.r +
    pd3.r_mag * Dot pd1.r pd2.r
  if Abs numerator < 1e-9 then
    pure (2 * lm.atan2NegZero denominator)
  else
    pure (2 * lm.atan2 numerator denominator)

/-- `compute_Le`. -/
def compute_Le (lm : LibM K) (pointData : List (PointData K)) (ed : EdgeData K) : Option K := do
  let pd1 ← readAt pointData ed.p1
  let pd2 ← readAt pointData ed.p2
  if Abs (pd1.r_mag + pd2.r_mag - ed.edgeLength) < 1e-9 then
    pure 0
  else
    pure (lm.log ((pd1.r_mag + pd2.r_mag + ed.edgeLength) /
      (pd1.r_mag + pd2.r_mag - ed.edgeLength)))

/-- The cache loop shared by both entry points: `pointData.resize(numPoints)`
and, for every `i < numPoints`, the vector from the field point to vertex `i`
and its magnitude. -/
def cachePoints (lm : LibM K) (mesh : Platemodel K) (fieldPoint : Vec3 K)
    (pointData : List (PointData K)) : Option (List (PointData K)) :=
  (List.range mesh.getNumberOfPoints).foldlM
    (fun v (i : Nat) =>
      let r := Subtract (mesh.getPoint (i : Int)) fieldPoint
      writeAt v i ⟨r, Norm lm r⟩)
    (resize pointData mesh.getNumberOfPoints PointData.zero)

/-- Body of the edge loop of `getGravityWerner` for the element
`ed = edgeData[i]`; the accumulator is `(potential, acc)`. -/
def edgeBody (lm : LibM K) (pointData : List (PointData K))
    (s : K × Option (Vec3 K)) (ed : EdgeData K) : Option (K × Option (Vec3 K)) := do
  let pd ← readAt pointData ed.p1
  let Le ← compute_Le lm pointData ed
  let Er := Multiply3x3 ed.E pd.r
  let rEr := Dot pd.r Er
  pure (s.1 - rEr * Le,
    s.2.map (fun acc => ![acc 0 - Er 0 * Le, acc 1 - Er 1 * Le, acc 2 - Er 2 * Le]))

/-- One iteration `i` of the edge loop. -/
def edgeStep (lm : LibM K) (edgeData : List (EdgeData K)) (pointData : List (PointData K))
    (s : K × Option (Vec3 K)) (i : Nat) : Option (K × Option (Vec3 K)) :=
  (edgeData[i]?).bind (edgeBody lm pointData s)

/-- Body of the face loop of `getGravityWerner` for the element
`fd = faceData[i]`. -/
def faceBody (lm : LibM K) (pointData : List (PointData K))
    (s : K × Option (Vec3 K)) (fd : FaceData K) : Option (K × Option (Vec3 K)) := do
  let pd ← readAt pointData fd.p1
  let wf ← compute_wf lm pointData fd
  let Fr := Multiply3x3 fd.F pd.r
  let rFr := Dot pd.r Fr
  pure (s.1 + rFr * wf,
    s.2.map (fun acc => ![acc 0 + Fr 0 * wf, acc 1 + Fr 1 * wf, acc 2 + Fr 2 * wf]))

/-- One iteration `i` of the face loop. -/
def faceStep (lm : LibM K) (faceData : List (FaceData K)) (pointData : List (PointData K))
    (s : K × Option (Vec3 K)) (i : Nat) : Option (K × Option (Vec3 K)) :=
  (faceData[i]?).bind (faceBody lm pointData s)

/-- What `getGravityWerner` produces: the returned potential, the content
of the `acc` buffer when one was passed, and the file-level variables. -/
structure GravityResult (K : Type) where
  potential : K
  acc : Option (Vec3 K)
  state : State K

/-- `getGravityWerner(fieldPoint, acc)`.  `acc` is `none` for a null pointer
and otherwise the previous content of the buffer. -/
def getGravityWerner (lm : LibM K) (fieldPoint : Vec3 K) (acc : Option (Vec3 K))
    (st : State K) : Option (GravityResult K) := do
  let potential : K := 0
  let acc := acc.map (fun _ => ![0, 0, 0])
  let polyData ← st.polyData
  let pointData ← cachePoints lm polyData fieldPoint st.pointData
  let numEdges := st.edgeData.length
  let s ← (List.range numEdges).foldlM (edgeStep lm st.edgeData pointData) (potential, acc)
  let numFaces := polyData.getNumberOfPlates
  let s ← (List.range numFaces).foldlM (faceStep lm st.faceData pointData) s
  pure { potential := 0.5 * s.1, acc := s.2, state := { st with pointData := pointData } }

/-- Body of the loop of `isInsidePolyhedron` for the element
`fd = faceData[i]`: `sum += compute_wf(fd)`. -/
def insideBody (lm : LibM K) (pointData : List (PointData K)) (sum : K) (fd : FaceData K) :
    Option K := do
  let wf ← compute_wf lm pointData fd
  pure (sum + wf)

/-- One iteration `i` of the loop of `isInsidePolyhedron`. -/
def insideStep (lm : LibM K) (faceData : List (FaceData K)) (pointData : List (PointData K))
    (sum : K) (i : Nat) : Option K :=
  (faceData[i]?).bind (insideBody lm pointData sum)

/-- `isInsidePolyhedron(fieldPoint)`: the returned boolean and the file-level
variables. -/
def isInsidePolyhedron (lm : LibM K) (fieldPoint : Vec3 K) (st : State K) :
    Option (Bool × State K) := do
  let polyData ← st.polyData
  let pointData ← cachePoints lm polyData fieldPoint st.pointData
  let sum : K := 0
  let numFaces := polyData.getNumberOfPlates
  let sum ← (List.range numFaces).foldlM (insideStep lm st.faceData pointData) sum
  pure (decide (sum ≥ 2 * lm.M_PI), { st with pointData := pointData })

end Evaluator

/-! ## Reference quantities used in the statements -/

section Reference

variable {K : Type} [LinearOrderedField K]

/-- The per-query cache as the specification describes it: for every vertex
id below the vertex count, the displacement `position - fieldPoint` and its
magnitude. -/
def displacements (lm : LibM K) (mesh : Platemodel K) (fieldPoint : Vec3 K) :
    List (PointData K) :=
  (List.range mesh.getNumberOfPoints).map fun (i : Nat) =>
    ⟨fun c => mesh.getPoint (i : Int) c - fieldPoint c,
     lm.sqrt ((mesh.getPoint (i : Int) 0 - fieldPoint 0) * (mesh.getPoint (i : Int) 0 - fieldPoint 0)
       + (mesh.getPoint (i : Int) 1 - fieldPoint 1) * (mesh.getPoint (i : Int) 1 - fieldPoint 1)
       + (mesh.getPoint (i : Int) 2 - fieldPoint 2) * (mesh.getPoint (i : Int) 2 - fieldPoint 2))⟩

/-- The directed sides of a plate in winding order: `(v0,v1)`, `(v1,v2)`,
`(v2,v0)`. -/
def windingSides (pointIds : Fin 3 → Int) : List (Int × Int) :=
  [(pointIds 0, pointIds 1), (pointIds 1, pointIds 2), (pointIds 2, pointIds 0)]

/-- All directed sides `(plate, a, b)` of the plate model, plate by plate, each
plate in winding order. -/
def directedSides (mesh : Platemodel K) : List (Nat × Int × Int) :=
  (List.range mesh.getNumberOfPlates).flatMap fun i =>
    (windingSides (mesh.getPlatePoints i)).map fun ab => (i, ab.1, ab.2)

/-- The canonical pair `(min, max)` of a directed side. -/
def canonical (s : Nat × Int × Int) : EdgeKey := ⟨min s.2.1 s.2.2, max s.2.1 s.2.2⟩

/-- The canonical pairs of the three sides of plate `f`. -/
def plateKeys (mesh : Platemodel K) (f : Nat) : List EdgeKey :=
  (windingSides (mesh.getPlatePoints f)).map fun ab => ⟨min ab.1 ab.2, max ab.1 ab.2⟩

/-- The position, in the edge map, of the node into which the `n`-th directed
side (in processing order) is accumulated: the iterator `it` at that step. -/
def entryOf (lm : LibM K) (mesh : Platemodel K) (n : Nat) : Option Nat :=
  ((directedSides mesh)[n]?).map fun s =>
    (findOrInsert
      (((directedSides mesh).take n).foldl
        (fun m t => accumulate lm mesh t.1 t.2.1 t.2.2 m) [])
      (makeKey s.2.1 s.2.2)).2

/-- The unit vector from `position(a)` to `position(b)`: the difference
divided by its length (the difference itself when the length is zero). -/
def unitVector (lm : LibM K) (mesh : Platemodel K) (a b : Int) : Vec3 K :=
  if lm.sqrt (Matrix.dotProduct (fun c => mesh.getPoint b c - mesh.getPoint a c)
      (fun c => mesh.getPoint b c - mesh.getPoint a c)) = 0 then
    fun c => mesh.getPoint b c - mesh.getPoint a c
  else
    fun c => (mesh.getPoint b c - mesh.getPoint a c) /
      lm.sqrt (Matrix.dotProduct (fun c => mesh.getPoint b c - mesh.getPoint a c)
        (fun c => mesh.getPoint b c - mesh.getPoint a c))

/-- The displacement `position(p) - fieldPoint` of vertex `p`. -/
def displacement (mesh : Platemodel K) (fieldPoint : Vec3 K) (p : Int) : Vec3 K :=
  fun c => mesh.getPoint p c - fieldPoint c

/-- The term `(r . E r) * Le` of an edge, `r` the displacement of its first
endpoint. -/
def edgeTerm (mesh : Platemodel K) (fieldPoint : Vec3 K) (ed : EdgeData K) (Le : K) : K :=
  Matrix.dotProduct (displacement mesh fieldPoint ed.p1)
    (Matrix.mulVec (Matrix.of ed.E) (displacement mesh fieldPoint ed.p1)) * Le

/-- The vector `(E r) * Le` of an edge. -/
def edgeAccTerm (mesh : Platemodel K) (fieldPoint : Vec3 K) (ed : EdgeData K) (Le : K) :
    Vec3 K :=
  fun c => Matrix.mulVec (Matrix.of ed.E) (displacement mesh fieldPoint ed.p1) c * Le

/-- The term `(r . F r) * wf` of a face, `r` the displacement of its first
vertex. -/
def faceTerm (mesh : Platemodel K) (fieldPoint : Vec3 K) (fd : FaceData K) (wf : K) : K :=
  Matrix.dotProduct (displacement mesh fieldPoint fd.p1)
    (Matrix.mulVec (Matrix.of fd.F) (displacement mesh fieldPoint fd.p1)) * wf

/-- The vector `(F r) * wf` of a face. -/
def faceAccTerm (mesh : Platemodel K) (fieldPoint : Vec3 K) (fd : FaceData K) (wf : K) :
    Vec3 K :=
  fun c => Matrix.mulVec (Matrix.of fd.F) (displacement mesh fieldPoint fd.p1) c * wf

/-- The plate model with every vertex position shifted by `t`; the plates and
their normals are unchanged. -/
def translate (mesh : Platemodel K) (t : Vec3 K) : Platemodel K :=
  { mesh with getPoint := fun p c => mesh.getPoint p c + t c }

end Reference

/-! ## Concrete inputs -/

section Inputs

/-- Stand-ins for the `<math.h>` functions on the rationals. -/
def lmQ : LibM ℚ :=
  ⟨fun x => x, fun x => x, fun y x => y + x, fun x => if x < 0 then -3 else 0, 3⟩

/-- A cache with three entries. -/
def ptsQ : List (PointData ℚ) := [⟨![3, 0, 0], 3⟩, ⟨![0, 4, 0], 4⟩, ⟨![0, 0, 2], 2⟩]

/-- An edge between the first two entries of `ptsQ`. -/
def edQ : EdgeData ℚ := ⟨fun _ _ => 0, 5, 0, 1⟩

/-- A face on the three entries of `ptsQ`. -/
def fdQ : FaceData ℚ := ⟨fun _ _ => 0, 0, 1, 2⟩

/-- A plate model with one plate on three points. -/
def triQ : Platemodel ℚ where
  getNumberOfPoints := 3
  getNumberOfPlates := 1
  getPoint := fun i => ([![1, 0, 0], ![0, 1, 0], ![0, 0, 1]] : List (Vec3 ℚ)).getD i.toNat ![0, 0, 0]
  getPlatePoints := fun _ => ![0, 1, 2]
  getNormal := fun _ => ![1, 1, 1]

/-- File-level variables holding `triQ`, one edge and one face. -/
def stQ : State ℚ where
  edgeData := [⟨fun _ _ => 1, 1, 0, 1⟩]
  faceData := [⟨Outer ![1, 1, 1] ![1, 1, 1], 0, 1, 2⟩]
  polyData := some triQ
  pointData := []

/-- The tetrahedron on `(0,0,0)`, `(1,0,0)`, `(0,1,0)`, `(0,0,1)` with outward
winding; the normal of the slanted face is left unnormalised. -/
def tetraQ : Platemodel ℚ where
  getNumberOfPoints := 4
  getNumberOfPlates := 4
  getPoint := fun i =>
    ([![0, 0, 0], ![1, 0, 0], ![0, 1, 0], ![0, 0, 1]] : List (Vec3 ℚ)).getD i.toNat ![0, 0, 0]
  getPlatePoints := fun i =>
    ([![0, 2, 1], ![0, 1, 3], ![0, 3, 2], ![1, 2, 3]] : List (Fin 3 → Int)).getD i ![0, 0, 0]
  getNormal := fun i =>
    ([![0, 0, -1], ![0, -1, 0], ![-1, 0, 0], ![1, 1, 1]] : List (Vec3 ℚ)).getD i ![0, 0, 0]

/-- The file-level variables before the first call. -/
def st0 : State ℚ := ⟨[], [], none, []⟩

/-- The file-level variables after `initializeGravityWerner` on `tetraQ`. -/
def tetraBuilt : State ℚ where
  edgeData := (buildEdgeMap lmQ tetraQ).map Prod.snd
  faceData := (List.range 4).map (makeFace tetraQ)
  polyData := some tetraQ
  pointData := []

/-- The tetrahedron on `(0,0,0)`, `(a,0,0)`, `(0,a,0)`, `(0,0,a)` with outward
winding, over any field; `slant` is the normal given to the slanted face. -/
def tetra (K : Type) [LinearOrderedField K] (a : K) (slant : Vec3 K) : Platemodel K where
  getNumberOfPoints := 4
  getNumberOfPlates := 4
  getPoint := fun i =>
    ([![0, 0, 0], ![a, 0, 0], ![0, a, 0], ![0, 0, a]] : List (Vec3 K)).getD i.toNat ![0, 0, 0]
  getPlatePoints := fun i =>
    ([![0, 2, 1], ![0, 1, 3], ![0, 3, 2], ![1, 2, 3]] : List (Fin 3 → Int)).getD i ![0, 0, 0]
  getNormal := fun i =>
    ([![0, 0, -1], ![0, -1, 0], ![-1, 0, 0], slant] : List (Vec3 K)).getD i ![0, 0, 0]

/-- The edge between the vertices `0` and `1` of a plate model, with the
distance between them as its length. -/
def edge01 {K : Type} [LinearOrderedField K] (lm : LibM K) (mesh : Platemodel K) :
    EdgeData K :=
  ⟨fun _ _ => 0, Norm lm (Subtract (mesh.getPoint 1) (mesh.getPoint 0)), 0, 1⟩

/-- A degenerate face on `ptsQ`: its first two vertices coincide. -/
def fdFlatQ : FaceData ℚ := ⟨fun _ _ => 0, 0, 0, 1⟩

/-- A plate model of three plates on the same three points: every side is a
side of all three plates, so the edge map has three nodes for an edge list of
`3*3/2 = 4` entries. -/
def tripleQ : Platemodel ℚ where
  getNumberOfPoints := 3
  getNumberOfPlates := 3
  getPoint := fun i => ([![1, 0, 0], ![0, 1, 0], ![0, 0, 1]] : List (Vec3 ℚ)).getD i.toNat ![0, 0, 0]
  getPlatePoints := fun _ => ![0, 1, 2]
  getNormal := fun _ => ![1, 1, 1]

/-- The unit tetrahedron on the vertices `3`, `4`, `5`, `6` of a plate model
with seven points. -/
def tetraHighQ : Platemodel ℚ where
  getNumberOfPoints := 7
  getNumberOfPlates := 4
  getPoint := fun i =>
    ([![0, 0, 0], ![0, 0, 0], ![0, 0, 0], ![0, 0, 0], ![1, 0, 0], ![0, 1, 0], ![0, 0, 1]] :
      List (Vec3 ℚ)).getD i.toNat ![0, 0, 0]
  getPlatePoints := fun i =>
    ([![3, 5, 4], ![3, 4, 6], ![3, 6, 5], ![4, 5, 6]] : List (Fin 3 → Int)).getD i ![0, 0, 0]
  getNormal := fun i =>
    ([![0, 0, -1], ![0, -1, 0], ![-1, 0, 0], ![1, 1, 1]] : List (Vec3 ℚ)).getD i ![0, 0, 0]

/-- A plate model without plates whose two points are the origin and `p`. -/
def segment (K : Type) [LinearOrderedField K] (p : Vec3 K) : Platemodel K where
  getNumberOfPoints := 2
  getNumberOfPlates := 0
  getPoint := fun i => ([![0, 0, 0], p] : List (Vec3 K)).getD i.toNat ![0, 0, 0]
  getPlatePoints := fun _ => ![0, 0, 0]
  getNormal := fun _ => ![0, 0, 0]

end Inputs

/-! # Theorems -/

/-! ## General lemmas on loops over vectors -/

section Loops

variable {α β σ : Type}

theorem length_resize (l : List α) (n : Nat) (d : α) : (resize l n d).length = n := by
  simp [resize]; omega

theorem foldlM_congr_mem (l : List β) (f g : σ → β → Option σ) (s : σ)
    (h : ∀ s, ∀ x ∈ l, f s x = g s x) : l.foldlM f s = l.foldlM g s := by
  induction l generalizing s with
  | nil => rfl
  | cons a t ih =>
    simp only [List.foldlM_cons]
    rw [h s a (List.mem_cons_self a t)]
    cases g s a with
    | none => rfl
    | some s1 =>
      simp only [Option.some_bind, Option.bind_eq_bind]
      exact ih s1 (fun s x hx => h s x (List.mem_cons_of_mem a hx))

/-- A loop `for i < v.size()` that reads `v[i]` is a fold over the elements. -/
theorem foldlM_range_index (l : List β) (g : σ → β → Option σ) (s : σ) :
    (List.range l.length).foldlM (fun s i => (l[i]?).bind (g s)) s = l.foldlM g s := by
  induction l using List.reverseRecOn generalizing s with
  | nil => rfl
  | append_singleton t a ih =>
    rw [List.length_append, List.length_singleton, List.range_succ, List.foldlM_append,
      List.foldlM_append]
    have h1 : (List.range t.length).foldlM (fun s i => ((t ++ [a])[i]?).bind (g s)) s
        = t.foldlM g s := by
      rw [← ih s]
      apply foldlM_congr_mem
      intro s i hi
      rw [List.getElem?_append_left (List.mem_range.mp hi)]
    rw [h1]
    cases t.foldlM g s with
    | none => rfl
    | some s1 => simp

theorem foldlM_writeAt_upto (f : Nat → α) (l : List α) (k : Nat) (hk : k ≤ l.length) :
    (List.range k).foldlM (fun v i => writeAt v i (f i)) l
      = some ((List.range k).map f ++ l.drop k) := by
  induction k with
  | zero => simp
  | succ k ih =>
    rw [List.range_succ, List.foldlM_append, ih (by omega)]
    have hlen : k < ((List.range k).map f ++ l.drop k).length := by
      simp; omega
    simp only [Option.bind_eq_bind, Option.some_bind, List.foldlM_cons, List.foldlM_nil, writeAt,
      if_pos hlen, List.map_append, List.map_cons, List.map_nil]
    have hd : l.drop k = l[k] :: l.drop (k + 1) := by
      exact List.drop_eq_getElem_cons (by omega)
    rw [List.set_append_right _ _ (by simp)]
    simp only [List.length_map, List.length_range, Nat.sub_self, List.append_assoc,
      List.singleton_append]
    rw [hd, List.set_cons_zero]
    rfl

/-- A loop that overwrites every slot of a vector leaves exactly the written
values, whatever the vector held before. -/
theorem foldlM_writeAt_all (f : Nat → α) (l : List α) (n : Nat) (hn : l.length = n) :
    (List.range n).foldlM (fun v i => writeAt v i (f i)) l = some ((List.range n).map f) := by
  rw [foldlM_writeAt_upto f l n (by omega)]
  simp [← hn]

end Loops

/-! ## Scalar and vector helpers -/

section Helpers

variable {K : Type} [LinearOrderedField K]

theorem Abs_eq_abs (a : K) : Abs a = |a| := by
  unfold Abs
  split_ifs with h
  · rw [abs_of_nonpos h, zero_sub]
  · rw [abs_of_pos (not_le.mp h)]

theorem tol_eq : (1e-9 : K) = 1 / 1000000000 := by norm_num

theorem Dot_eq_dotProduct (x y : Vec3 K) : Dot x y = Matrix.dotProduct x y := by
  simp [Dot, Matrix.dotProduct, Fin.sum_univ_three]

theorem Cross_eq_crossProduct (x y : Vec3 K) : Cross x y = crossProduct x y := by
  simp [Cross, cross_apply]

/-- The cache loop produces the displacement cache, whatever the cache held
before. -/
theorem cachePoints_eq (lm : LibM K) (mesh : Platemodel K) (fieldPoint : Vec3 K)
    (old : List (PointData K)) :
    cachePoints lm mesh fieldPoint old = some (displacements lm mesh fieldPoint) := by
  unfold cachePoints
  rw [foldlM_writeAt_all _ _ _ (length_resize _ _ _)]
  rfl

theorem readAt_displacements (lm : LibM K) (mesh : Platemodel K) (fieldPoint : Vec3 K)
    (p : Int) (pd : PointData K) (h : readAt (displacements lm mesh fieldPoint) p = some pd) :
    pd.r = fun c => mesh.getPoint p c - fieldPoint c := by
  unfold readAt at h
  split_ifs at h with hp
  unfold displacements at h
  rw [List.getElem?_map] at h
  cases hr : (List.range mesh.getNumberOfPoints)[p.toNat]? with
  | none => rw [hr] at h; simp at h
  | some i =>
    rw [hr] at h
    have hi : i = p.toNat := by
      have := List.getElem?_eq_some_iff.mp hr
      obtain ⟨hlt, heq⟩ := this
      simp at heq
      exact heq.symm
    simp only [Option.map_some', Option.some.injEq] at h
    rw [← h, hi, Int.toNat_of_nonneg hp]

end Helpers

/-! ## Evaluation: the loops of `getGravityWerner` and `isInsidePolyhedron` -/

section Evaluation

variable {K : Type} [LinearOrderedField K]

theorem Multiply3x3_eq_mulVec (A : Mat3 K) (v : Vec3 K) :
    Multiply3x3 A v = Matrix.mulVec (Matrix.of A) v := by
  funext i
  fin_cases i <;> simp [Multiply3x3, Matrix.mulVec, Matrix.dotProduct, Fin.sum_univ_three]

theorem compute_Le_reads (lm : LibM K) (pointData : List (PointData K)) (ed : EdgeData K) (Le : K)
    (h : compute_Le lm pointData ed = some Le) : ∃ pd, readAt pointData ed.p1 = some pd := by
  cases hr : readAt pointData ed.p1 with
  | none => simp [compute_Le, hr] at h
  | some pd => exact ⟨pd, rfl⟩

theorem compute_wf_reads (lm : LibM K) (pointData : List (PointData K)) (fd : FaceData K) (wf : K)
    (h : compute_wf lm pointData fd = some wf) : ∃ pd, readAt pointData fd.p1 = some pd := by
  cases hr : readAt pointData fd.p1 with
  | none => simp [compute_wf, hr] at h
  | some pd => exact ⟨pd, rfl⟩

/-- The edge loop subtracts the edge terms from both accumulators. -/
theorem edge_fold (lm : LibM K) (mesh : Platemodel K) (fieldPoint : Vec3 K) :
    ∀ (eds : List (EdgeData K)) (Les : List K) (s : K × Option (Vec3 K)),
      eds.map (compute_Le lm (displacements lm mesh fieldPoint)) = Les.map some →
      eds.foldlM (edgeBody lm (displacements lm mesh fieldPoint)) s =
        some (s.1 - (List.zipWith (edgeTerm mesh fieldPoint) eds Les).sum,
          s.2.map (fun acc c => acc c -
            (List.zipWith (fun ed Le => edgeAccTerm mesh fieldPoint ed Le c) eds Les).sum)) := by
  intro eds
  induction eds with
  | nil =>
    intro Les s h
    cases Les with
    | nil => cases s with | mk p a => cases a <;> simp
    | cons a t => simp at h
  | cons ed eds ih =>
    intro Les s h
    cases Les with
    | nil => simp at h
    | cons Le Les =>
      simp only [List.map_cons, List.cons.injEq] at h
      obtain ⟨pd, hpd⟩ := compute_Le_reads lm _ ed Le h.1
      have hr : pd.r = displacement mesh fieldPoint _ := readAt_displacements lm mesh fieldPoint _ _ hpd
      simp only [List.foldlM_cons, edgeBody, hpd, h.1, Option.pure_def, Option.some_bind, Option.bind_eq_bind]
      rw [ih Les _ h.2]
      simp only [List.zipWith_cons_cons, List.sum_cons, Option.map_map, hr, Dot_eq_dotProduct,
        Multiply3x3_eq_mulVec, edgeTerm, edgeAccTerm]
      congr 2
      · ring
      · cases s.2 with
        | none => rfl
        | some a =>
          simp only [Option.map_some', Function.comp]
          congr 1
          funext c
          fin_cases c <;> simp <;> ring

/-- The face loop adds the face terms to both accumulators. -/
theorem face_fold (lm : LibM K) (mesh : Platemodel K) (fieldPoint : Vec3 K) :
    ∀ (fds : List (FaceData K)) (wfs : List K) (s : K × Option (Vec3 K)),
      fds.map (compute_wf lm (displacements lm mesh fieldPoint)) = wfs.map some →
      fds.foldlM (faceBody lm (displacements lm mesh fieldPoint)) s =
        some (s.1 + (List.zipWith (faceTerm mesh fieldPoint) fds wfs).sum,
          s.2.map (fun acc c => acc c +
            (List.zipWith (fun fd wf => faceAccTerm mesh fieldPoint fd wf c) fds wfs).sum)) := by
  intro fds
  induction fds with
  | nil =>
    intro wfs s h
    cases wfs with
    | nil => cases s with | mk p a => cases a <;> simp
    | cons a t => simp at h
  | cons fd fds ih =>
    intro wfs s h
    cases wfs with
    | nil => simp at h
    | cons wf wfs =>
      simp only [List.map_cons, List.cons.injEq] at h
      obtain ⟨pd, hpd⟩ := compute_wf_reads lm _ fd wf h.1
      have hr : pd.r = displacement mesh fieldPoint _ := readAt_displacements lm mesh fieldPoint _ _ hpd
      simp only [List.foldlM_cons, faceBody, hpd, h.1, Option.pure_def, Option.some_bind, Option.bind_eq_bind]
      rw [ih wfs _ h.2]
      simp only [List.zipWith_cons_cons, List.sum_cons, Option.map_map, hr, Dot_eq_dotProduct,
        Multiply3x3_eq_mulVec, faceTerm, faceAccTerm]
      congr 2
      · ring
      · cases s.2 with
        | none => rfl
        | some a =>
          simp only [Option.map_some', Function.comp]
          congr 1
          funext c
          fin_cases c <;> simp <;> ring

/-- The loop of `isInsidePolyhedron` adds the solid angles. -/
theorem inside_fold (lm : LibM K) (pointData : List (PointData K)) :
    ∀ (fds : List (FaceData K)) (wfs : List K) (s : K),
      fds.map (compute_wf lm pointData) = wfs.map some →
      fds.foldlM (insideBody lm pointData) s = some (s + wfs.sum) := by
  intro fds
  induction fds with
  | nil =>
    intro wfs s h
    cases wfs with
    | nil => simp
    | cons a t => simp at h
  | cons fd fds ih =>
    intro wfs s h
    cases wfs with
    | nil => simp at h
    | cons wf wfs =>
      simp only [List.map_cons, List.cons.injEq] at h
      simp only [List.foldlM_cons, insideBody, h.1, Option.pure_def, Option.some_bind, Option.bind_eq_bind]
      rw [ih wfs _ h.2, List.sum_cons, add_assoc]

/-- The whole result of `getGravityWerner` on a state whose lists refer to
cached vertices. -/
theorem getGravityWerner_eq (lm : LibM K) (fieldPoint : Vec3 K) (acc : Option (Vec3 K))
    (st : State K) (mesh : Platemodel K) (Les wfs : List K)
    (hpoly : st.polyData = some mesh)
    (hlen : st.faceData.length = mesh.getNumberOfPlates)
    (hLe : st.edgeData.map (compute_Le lm (displacements lm mesh fieldPoint)) = Les.map some)
    (hwf : st.faceData.map (compute_wf lm (displacements lm mesh fieldPoint)) = wfs.map some) :
    getGravityWerner lm fieldPoint acc st = some
      { potential := 0.5 * ((List.zipWith (faceTerm mesh fieldPoint) st.faceData wfs).sum
          - (List.zipWith (edgeTerm mesh fieldPoint) st.edgeData Les).sum)
        acc := acc.map fun _ c =>
          (List.zipWith (fun fd wf => faceAccTerm mesh fieldPoint fd wf c) st.faceData wfs).sum
          - (List.zipWith (fun ed Le => edgeAccTerm mesh fieldPoint ed Le c) st.edgeData Les).sum
        state := { st with pointData := displacements lm mesh fieldPoint } } := by
  unfold getGravityWerner
  simp only [hpoly, cachePoints_eq, Option.bind_eq_bind, Option.some_bind]
  have he : List.foldlM (edgeStep lm st.edgeData (displacements lm mesh fieldPoint))
      ((0 : K), acc.map fun _ => ![0, 0, 0]) (List.range st.edgeData.length) = _ :=
    (foldlM_range_index st.edgeData (edgeBody lm (displacements lm mesh fieldPoint)) _).trans
      (edge_fold lm mesh fieldPoint st.edgeData Les _ hLe)
  rw [he, Option.some_bind, ← hlen]
  have hf := fun s => (foldlM_range_index st.faceData
      (faceBody lm (displacements lm mesh fieldPoint)) s).trans
      (face_fold lm mesh fieldPoint st.faceData wfs s hwf)
  have hf2 : ∀ s, List.foldlM (faceStep lm st.faceData (displacements lm mesh fieldPoint)) s
      (List.range st.faceData.length) = _ := hf
  rw [hf2, Option.some_bind]
  simp only [pure, Option.some.injEq, Option.map_map]
  congr 1
  · ring
  · cases acc with
    | none => rfl
    | some a =>
      simp only [Option.map_some', Function.comp, Option.some.injEq]
      funext c
      fin_cases c <;> simp <;> ring

/-- The value of `compute_wf` on three cached vertices. -/
theorem compute_wf_eq (lm : LibM K) (pointData : List (PointData K)) (fd : FaceData K)
    (pd1 pd2 pd3 : PointData K)
    (h1 : readAt pointData fd.p1 = some pd1) (h2 : readAt pointData fd.p2 = some pd2)
    (h3 : readAt pointData fd.p3 = some pd3) :
    compute_wf lm pointData fd =
      some (if |Matrix.dotProduct pd1.r (crossProduct pd2.r pd3.r)| < 1 / 1000000000 then
        2 * lm.atan2NegZero
          (pd1.r_mag * pd2.r_mag * pd3.r_mag + pd1.r_mag * Matrix.dotProduct pd2.r pd3.r
            + pd2.r_mag * Matrix.dotProduct pd3.r pd1.r
            + pd3.r_mag * Matrix.dotProduct pd1.r pd2.r)
        else 2 * lm.atan2 (Matrix.dotProduct pd1.r (crossProduct pd2.r pd3.r))
          (pd1.r_mag * pd2.r_mag * pd3.r_mag + pd1.r_mag * Matrix.dotProduct pd2.r pd3.r
            + pd2.r_mag * Matrix.dotProduct pd3.r pd1.r
            + pd3.r_mag * Matrix.dotProduct pd1.r pd2.r)) := by
  simp only [compute_wf, h1, h2, h3, Abs_eq_abs, tol_eq, Option.bind_eq_bind,
    Option.some_bind, Dot_eq_dotProduct, Cross_eq_crossProduct]
  split_ifs <;> rfl

theorem displacements_triQ : displacements lmQ triQ ![0, 0, 0] =
    [⟨![1, 0, 0], 1⟩, ⟨![0, 1, 0], 1⟩, ⟨![0, 0, 1], 1⟩] := by
  simp [displacements, triQ, lmQ, List.range_succ]
  refine ⟨?_, ?_, ?_⟩ <;> (funext c; fin_cases c <;> simp)

theorem compute_Le_stQ :
    stQ.edgeData.map (compute_Le lmQ (displacements lmQ triQ ![0, 0, 0])) = [(3 : ℚ)].map some := by
  rw [displacements_triQ]
  simp [stQ, compute_Le, readAt, lmQ, Abs]
  norm_num

theorem compute_wf_stQ :
    stQ.faceData.map (compute_wf lmQ (displacements lmQ triQ ![0, 0, 0])) = [(4 : ℚ)].map some := by
  rw [displacements_triQ]
  simp [stQ, compute_wf, readAt, lmQ, Abs, Dot, Cross]
  norm_num

/-- C9: for an edge whose endpoints are cached with magnitudes `r1`, `r2` and
whose length is `L`, `compute_Le` returns `0` when `|r1 + r2 - L| < 1e-9` and
`log ((r1 + r2 + L) / (r1 + r2 - L))` otherwise. -/
theorem compute_Le_value (lm : LibM K) (pointData : List (PointData K)) (ed : EdgeData K)
    (pd1 pd2 : PointData K)
    (h1 : readAt pointData ed.p1 = some pd1) (h2 : readAt pointData ed.p2 = some pd2) :
    compute_Le lm pointData ed =
      some (if |pd1.r_mag + pd2.r_mag - ed.edgeLength| < 1 / 1000000000 then 0
        else lm.log ((pd1.r_mag + pd2.r_mag + ed.edgeLength) /
          (pd1.r_mag + pd2.r_mag - ed.edgeLength))) := by
  simp only [compute_Le, h1, h2, Abs_eq_abs, tol_eq, Option.bind_eq_bind, Option.some_bind]
  split_ifs <;> rfl

theorem compute_Le_value_witness :
    readAt ptsQ edQ.p1 = some ⟨![3, 0, 0], 3⟩ ∧ readAt ptsQ edQ.p2 = some ⟨![0, 4, 0], 4⟩ ∧
    compute_Le lmQ ptsQ edQ =
      some (if |(3 : ℚ) + 4 - 5| < 1 / 1000000000 then 0
        else lmQ.log (((3 : ℚ) + 4 + 5) / ((3 : ℚ) + 4 - 5))) :=
  ⟨rfl, rfl, compute_Le_value lmQ ptsQ edQ ⟨![3, 0, 0], 3⟩ ⟨![0, 4, 0], 4⟩ rfl rfl⟩

/-- C10: for a face whose vertices are cached with displacements `r1`, `r2`,
`r3`, `compute_wf` returns `2 * atan2 (numerator, denominator)` with
`numerator = r1 . (r2 x r3)`, used unchanged when its absolute value is at
least `1e-9` and replaced by `-0.0` otherwise, and
`denominator = |r1||r2||r3| + |r1| (r2 . r3) + |r2| (r3 . r1) + |r3| (r1 . r2)`. -/
theorem compute_wf_value (lm : LibM K) (pointData : List (PointData K)) (fd : FaceData K)
    (pd1 pd2 pd3 : PointData K)
    (h1 : readAt pointData fd.p1 = some pd1) (h2 : readAt pointData fd.p2 = some pd2)
    (h3 : readAt pointData fd.p3 = some pd3) :
    compute_wf lm pointData fd =
      some (if |Matrix.dotProduct pd1.r (crossProduct pd2.r pd3.r)| < 1 / 1000000000 then
        2 * lm.atan2NegZero
          (pd1.r_mag * pd2.r_mag * pd3.r_mag + pd1.r_mag * Matrix.dotProduct pd2.r pd3.r
            + pd2.r_mag * Matrix.dotProduct pd3.r pd1.r
            + pd3.r_mag * Matrix.dotProduct pd1.r pd2.r)
        else 2 * lm.atan2 (Matrix.dotProduct pd1.r (crossProduct pd2.r pd3.r))
          (pd1.r_mag * pd2.r_mag * pd3.r_mag + pd1.r_mag * Matrix.dotProduct pd2.r pd3.r
            + pd2.r_mag * Matrix.dotProduct pd3.r pd1.r
            + pd3.r_mag * Matrix.dotProduct pd1.r pd2.r)) ∧
    (1 / 1000000000 ≤ |Matrix.dotProduct pd1.r (crossProduct pd2.r pd3.r)| →
      compute_wf lm pointData fd =
        some (2 * lm.atan2 (Matrix.dotProduct pd1.r (crossProduct pd2.r pd3.r))
          (pd1.r_mag * pd2.r_mag * pd3.r_mag + pd1.r_mag * Matrix.dotProduct pd2.r pd3.r
            + pd2.r_mag * Matrix.dotProduct pd3.r pd1.r
            + pd3.r_mag * Matrix.dotProduct pd1.r pd2.r))) := by
  have h := compute_wf_eq lm pointData fd pd1 pd2 pd3 h1 h2 h3
  refine ⟨h, fun hge => ?_⟩
  rw [h, if_neg (not_lt.mpr hge)]

theorem compute_wf_value_witness :
    readAt ptsQ fdQ.p1 = some ⟨![3, 0, 0], 3⟩ ∧ readAt ptsQ fdQ.p2 = some ⟨![0, 4, 0], 4⟩ ∧
    readAt ptsQ fdQ.p3 = some ⟨![0, 0, 2], 2⟩ ∧
    (1 : ℚ) / 1000000000 ≤ |Matrix.dotProduct ![(3 : ℚ), 0, 0] (crossProduct ![0, 4, 0] ![0, 0, 2])| ∧
    compute_wf lmQ ptsQ fdQ = some (2 * lmQ.atan2 24 24) := by
  have hge : (1 : ℚ) / 1000000000 ≤
      |Matrix.dotProduct ![(3 : ℚ), 0, 0] (crossProduct ![0, 4, 0] ![0, 0, 2])| := by
    norm_num [cross_apply, Matrix.dotProduct, Fin.sum_univ_three]
  refine ⟨rfl, rfl, rfl, hge, ?_⟩
  rw [(compute_wf_value lmQ ptsQ fdQ ⟨![3, 0, 0], 3⟩ ⟨![0, 4, 0], 4⟩ ⟨![0, 0, 2], 2⟩
    rfl rfl rfl).2 hge]
  norm_num [cross_apply, Matrix.dotProduct, Fin.sum_univ_three]

/-- C1: on a state holding the plate model `mesh`, with `Les` and `wfs` the
values `compute_Le` and `compute_wf` return for the stored edges and faces on
the displacement cache of the field point, `getGravityWerner` returns
`0.5 * (sum over faces of (r_f . F_f r_f) * wf_f - sum over edges of
(r_e . E_e r_e) * Le_e)`, `r` being the displacement of the first vertex. -/
theorem getGravityWerner_potential (lm : LibM K) (fieldPoint : Vec3 K)
    (acc : Option (Vec3 K)) (st : State K) (mesh : Platemodel K) (Les wfs : List K)
    (hpoly : st.polyData = some mesh)
    (hlen : st.faceData.length = mesh.getNumberOfPlates)
    (hLe : st.edgeData.map (compute_Le lm (displacements lm mesh fieldPoint)) = Les.map some)
    (hwf : st.faceData.map (compute_wf lm (displacements lm mesh fieldPoint)) = wfs.map some) :
    (getGravityWerner lm fieldPoint acc st).map GravityResult.potential =
      some (0.5 * ((List.zipWith (faceTerm mesh fieldPoint) st.faceData wfs).sum
        - (List.zipWith (edgeTerm mesh fieldPoint) st.edgeData Les).sum)) := by
  rw [getGravityWerner_eq lm fieldPoint acc st mesh Les wfs hpoly hlen hLe hwf]
  rfl

theorem getGravityWerner_potential_witness :
    stQ.polyData = some triQ ∧ stQ.faceData.length = triQ.getNumberOfPlates ∧
    (getGravityWerner lmQ ![0, 0, 0] none stQ).map GravityResult.potential =
      some (0.5 * ((List.zipWith (faceTerm triQ ![0, 0, 0]) stQ.faceData [4]).sum
        - (List.zipWith (edgeTerm triQ ![0, 0, 0]) stQ.edgeData [3]).sum)) :=
  ⟨rfl, rfl, getGravityWerner_potential lmQ ![0, 0, 0] none stQ triQ [3] [4] rfl rfl
    compute_Le_stQ compute_wf_stQ⟩

/-- C2: when a buffer is passed, whatever it held, `getGravityWerner` leaves
in it, component by component, `sum over faces of (F_f r_f) * wf_f - sum over
edges of (E_e r_e) * Le_e` with no factor `0.5`, while the returned potential
carries the factor `0.5`. -/
theorem getGravityWerner_acceleration (lm : LibM K) (fieldPoint : Vec3 K)
    (buffer : Vec3 K) (st : State K) (mesh : Platemodel K) (Les wfs : List K)
    (hpoly : st.polyData = some mesh)
    (hlen : st.faceData.length = mesh.getNumberOfPlates)
    (hLe : st.edgeData.map (compute_Le lm (displacements lm mesh fieldPoint)) = Les.map some)
    (hwf : st.faceData.map (compute_wf lm (displacements lm mesh fieldPoint)) = wfs.map some) :
    (getGravityWerner lm fieldPoint (some buffer) st).map (fun res => (res.potential, res.acc)) =
      some (0.5 * ((List.zipWith (faceTerm mesh fieldPoint) st.faceData wfs).sum
          - (List.zipWith (edgeTerm mesh fieldPoint) st.edgeData Les).sum),
        some fun c =>
          (List.zipWith (fun fd wf => faceAccTerm mesh fieldPoint fd wf c) st.faceData wfs).sum
          - (List.zipWith (fun ed Le => edgeAccTerm mesh fieldPoint ed Le c) st.edgeData Les).sum) := by
  rw [getGravityWerner_eq lm fieldPoint (some buffer) st mesh Les wfs hpoly hlen hLe hwf]
  rfl

theorem getGravityWerner_acceleration_witness :
    stQ.polyData = some triQ ∧ stQ.faceData.length = triQ.getNumberOfPlates ∧
    (getGravityWerner lmQ ![0, 0, 0] (some ![7, 7, 7]) stQ).map
        (fun res => (res.potential, res.acc)) =
      some (0.5 * ((List.zipWith (faceTerm triQ ![0, 0, 0]) stQ.faceData [4]).sum
          - (List.zipWith (edgeTerm triQ ![0, 0, 0]) stQ.edgeData [3]).sum),
        some fun c =>
          (List.zipWith (fun fd wf => faceAccTerm triQ ![0, 0, 0] fd wf c) stQ.faceData [4]).sum
          - (List.zipWith (fun ed Le => edgeAccTerm triQ ![0, 0, 0] ed Le c) stQ.edgeData [3]).sum) :=
  ⟨rfl, rfl, getGravityWerner_acceleration lmQ ![0, 0, 0] ![7, 7, 7] stQ triQ [3] [4] rfl rfl
    compute_Le_stQ compute_wf_stQ⟩

/-- C3: on a state holding the plate model `mesh`, with `wfs` the values
`compute_wf` returns for the stored faces on the displacement cache of the
field point, `isInsidePolyhedron` returns true exactly when the sum of `wfs`
is at least `2 * M_PI`. -/
theorem isInsidePolyhedron_value (lm : LibM K) (fieldPoint : Vec3 K)
    (st : State K) (mesh : Platemodel K) (wfs : List K)
    (hpoly : st.polyData = some mesh)
    (hlen : st.faceData.length = mesh.getNumberOfPlates)
    (hwf : st.faceData.map (compute_wf lm (displacements lm mesh fieldPoint)) = wfs.map some) :
    (isInsidePolyhedron lm fieldPoint st).map Prod.fst = some (decide (wfs.sum ≥ 2 * lm.M_PI)) := by
  unfold isInsidePolyhedron
  simp only [hpoly, cachePoints_eq, Option.bind_eq_bind, Option.some_bind]
  have hf : List.foldlM (insideStep lm st.faceData (displacements lm mesh fieldPoint)) (0 : K)
      (List.range st.faceData.length) = _ :=
    (foldlM_range_index st.faceData (insideBody lm (displacements lm mesh fieldPoint)) 0).trans
      (inside_fold lm _ st.faceData wfs 0 hwf)
  rw [← hlen, hf]
  simp

theorem isInsidePolyhedron_value_witness :
    stQ.polyData = some triQ ∧ stQ.faceData.length = triQ.getNumberOfPlates ∧
    (isInsidePolyhedron lmQ ![0, 0, 0] stQ).map Prod.fst =
      some (decide (([4] : List ℚ).sum ≥ 2 * lmQ.M_PI)) :=
  ⟨rfl, rfl, isInsidePolyhedron_value lmQ ![0, 0, 0] stQ triQ [4] rfl rfl compute_wf_stQ⟩

end Evaluation

/-! ## The edge pass -/

section EdgePass

variable {K : Type}

theorem operatorEq_iff (k1 k2 : EdgeKey) : k1.operatorEq k2 = true ↔ k1 = k2 := by
  cases k1; cases k2
  simp [EdgeKey.operatorEq]

/-- The lookup predicate (same hash code and equal under `operator==`) holds
exactly for the nodes carrying the searched key. -/
theorem lookup_pred_iff (k key : EdgeKey) :
    (EdgeHash k == EdgeHash key && k.operatorEq key) = true ↔ k = key := by
  constructor
  · intro h
    simp only [Bool.and_eq_true] at h
    exact (operatorEq_iff k key).mp h.2
  · rintro rfl
    simp [(operatorEq_iff k k).mpr rfl]

theorem makeKey_eq (a b : Int) : makeKey a b = ⟨min a b, max a b⟩ := by
  unfold makeKey
  split_ifs with h
  · rw [min_eq_left h.le, max_eq_right h.le]
  · rw [min_eq_right (not_lt.mp h), max_eq_left (not_lt.mp h)]

theorem find_none (m : EdgeDataMap K) (key : EdgeKey) (h : key ∉ m.map Prod.fst) :
    EdgeDataMap.find m key = none := by
  unfold EdgeDataMap.find
  rw [List.findIdx?_eq_none_iff]
  intro nd hnd
  by_contra hp
  rw [Bool.not_eq_false, lookup_pred_iff] at hp
  exact h (List.mem_map.mpr ⟨nd, hnd, hp⟩)

theorem find_first (A B : EdgeDataMap K) (key : EdgeKey) (ed : EdgeData K)
    (h : key ∉ A.map Prod.fst) :
    EdgeDataMap.find (A ++ (key, ed) :: B) key = some A.length := by
  have hA : List.findIdx? (fun nd : EdgeKey × EdgeData K =>
      EdgeHash nd.1 == EdgeHash key && nd.1.operatorEq key) A = none := find_none A key h
  unfold EdgeDataMap.find
  rw [List.findIdx?_append, hA, List.findIdx?_cons,
    if_pos ((lookup_pred_iff key key).mpr rfl)]
  simp

theorem modify_append_cons {α : Type} (f : α → α) (A B : List α) (x : α) :
    List.modify f A.length (A ++ x :: B) = A ++ f x :: B := by
  induction A with
  | nil => rfl
  | cons a A ih => simpa [List.modify_succ_cons] using ih

theorem split_first (m : EdgeDataMap K) (key : EdgeKey) (h : key ∈ m.map Prod.fst) :
    ∃ A ed B, m = A ++ (key, ed) :: B ∧ key ∉ A.map Prod.fst := by
  induction m with
  | nil => simp at h
  | cons nd m ih =>
    by_cases hk : nd.1 = key
    · exact ⟨[], nd.2, m, by simp [← hk], by simp⟩
    · have h2 : key ∈ m.map Prod.fst := by
        simp only [List.map_cons, List.mem_cons] at h
        rcases h with h | h
        · exact absurd h.symm hk
        · exact h
      obtain ⟨A, ed, B, hm, hA⟩ := ih h2
      refine ⟨nd :: A, ed, B, by simp [hm], ?_⟩
      simp only [List.map_cons, List.mem_cons, not_or]
      exact ⟨fun h => hk h.symm, hA⟩

variable [LinearOrderedField K]

/-- A side whose key is not yet in the map appends a node. -/
theorem accumulate_new (lm : LibM K) (mesh : Platemodel K) (i : Nat) (p1 p2 : Int)
    (m : EdgeDataMap K) (h : makeKey p1 p2 ∉ m.map Prod.fst) :
    (findOrInsert m (makeKey p1 p2)).2 = m.length ∧
    accumulate lm mesh i p1 p2 m =
      m ++ [(makeKey p1 p2, touch lm mesh i p1 p2 (freshEdge (makeKey p1 p2)))] := by
  have hf : findOrInsert m (makeKey p1 p2)
      = (m ++ [(makeKey p1 p2, freshEdge (makeKey p1 p2))], m.length) := by
    unfold findOrInsert
    rw [find_none m _ h]
    rfl
  refine ⟨by rw [hf], ?_⟩
  unfold accumulate
  simp only [hf]
  exact modify_append_cons _ m [] _

/-- A side whose key is in the map updates the node of that key in place. -/
theorem accumulate_old (lm : LibM K) (mesh : Platemodel K) (i : Nat) (p1 p2 : Int)
    (A B : EdgeDataMap K) (ed : EdgeData K) (h : makeKey p1 p2 ∉ A.map Prod.fst) :
    (findOrInsert (A ++ (makeKey p1 p2, ed) :: B) (makeKey p1 p2)).2 = A.length ∧
    accumulate lm mesh i p1 p2 (A ++ (makeKey p1 p2, ed) :: B) =
      A ++ (makeKey p1 p2, touch lm mesh i p1 p2 ed) :: B := by
  have hf : findOrInsert (A ++ (makeKey p1 p2, ed) :: B) (makeKey p1 p2)
      = (A ++ (makeKey p1 p2, ed) :: B, A.length) := by
    unfold findOrInsert
    rw [find_first A B _ ed h]
  refine ⟨by rw [hf], ?_⟩
  unfold accumulate
  simp only [hf]
  exact modify_append_cons _ A B _

theorem foldl_flatMap {α β σ : Type} (f : σ → β → σ) (g : α → List β) (l : List α) (s : σ) :
    (l.flatMap g).foldl f s = l.foldl (fun s a => (g a).foldl f s) s := by
  induction l generalizing s with
  | nil => rfl
  | cons a l ih => simp [List.flatMap_cons, List.foldl_append, ih]

/-- The two nested loops of the edge pass visit the directed sides in order. -/
theorem buildEdgeMap_eq (lm : LibM K) (mesh : Platemodel K) :
    buildEdgeMap lm mesh =
      (directedSides mesh).foldl (fun m t => accumulate lm mesh t.1 t.2.1 t.2.2 m) [] := by
  unfold buildEdgeMap directedSides
  rw [foldl_flatMap]
  rfl

end EdgePass
section EdgePass2
variable {K : Type} [LinearOrderedField K]

theorem canonical_eq_makeKey (s : Nat × Int × Int) : makeKey s.2.1 s.2.2 = canonical s :=
  makeKey_eq _ _

theorem addMatrices_eq_add (a b : Mat3 K) : addMatrices a b = a + b := rfl

/-- The value `Normalize` returns for a side is the norm of the difference of
the positions of the endpoints of its key, in either direction. -/
theorem sideLength_eq (lm : LibM K) (mesh : Platemodel K) (a b : Int) :
    sideLength lm mesh a b =
      Norm lm (Subtract (mesh.getPoint (max a b)) (mesh.getPoint (min a b))) := by
  have h1 : sideLength lm mesh a b = Norm lm (Subtract (mesh.getPoint b) (mesh.getPoint a)) := by
    simp only [sideLength, Normalize]
    split_ifs <;> rfl
  rw [h1]
  rcases le_total a b with h | h
  · rw [max_eq_right h, min_eq_left h]
  · rw [max_eq_left h, min_eq_right h]
    unfold Norm Subtract
    congr 1
    ring

/-- The state of the edge map after any sequence of directed sides. -/
theorem edgePass_inv (lm : LibM K) (mesh : Platemodel K) (ps : List (Nat × Int × Int)) :
    ((ps.foldl (fun m t => accumulate lm mesh t.1 t.2.1 t.2.2 m) []).map Prod.fst).Nodup ∧
    (∀ k, k ∈ (ps.foldl (fun m t => accumulate lm mesh t.1 t.2.1 t.2.2 m) []).map Prod.fst
      ↔ k ∈ ps.map canonical) ∧
    ∀ nd ∈ ps.foldl (fun m t => accumulate lm mesh t.1 t.2.1 t.2.2 m) [],
      nd.2.p1 = nd.1.p1 ∧ nd.2.p2 = nd.1.p2 ∧
      nd.2.E = ((ps.filter (fun s => canonical s = nd.1)).map
        (fun s => halfDyad lm mesh s.1 s.2.1 s.2.2)).sum ∧
      nd.2.edgeLength = Norm lm (Subtract (mesh.getPoint nd.1.p2) (mesh.getPoint nd.1.p1)) := by
  induction ps using List.reverseRecOn with
  | nil => simp
  | append_singleton ps s ih =>
    rw [List.foldl_append, List.foldl_cons, List.foldl_nil]
    generalize ps.foldl (fun m t => accumulate lm mesh t.1 t.2.1 t.2.2 m) [] = m at ih ⊢
    obtain ⟨hnd, hmem, hdata⟩ := ih
    have hlen : (touch lm mesh s.1 s.2.1 s.2.2 (freshEdge (canonical s))).edgeLength
        = Norm lm (Subtract (mesh.getPoint (canonical s).p2) (mesh.getPoint (canonical s).p1)) :=
      sideLength_eq lm mesh s.2.1 s.2.2
    by_cases hk : makeKey s.2.1 s.2.2 ∈ m.map Prod.fst
    · obtain ⟨A, ed, B, hm, hA⟩ := split_first m _ hk
      rw [hm, (accumulate_old lm mesh s.1 s.2.1 s.2.2 A B ed hA).2]
      rw [canonical_eq_makeKey] at hA hk hm ⊢
      subst hm
      have hB : canonical s ∉ B.map Prod.fst := by
        intro hb
        simp only [List.map_append, List.map_cons] at hnd
        have := (List.nodup_append.mp hnd).2.1
        exact (List.nodup_cons.mp this).1 hb
      refine ⟨by simpa using hnd, ?_, ?_⟩
      · intro k
        have := hmem k
        simp only [List.map_append, List.map_cons, List.mem_append, List.mem_cons,
          List.map_nil, List.not_mem_nil, or_false] at this ⊢
        rw [this]
        constructor
        · intro h; exact Or.inl h
        · rintro (h | h)
          · exact h
          · exact this.mp (Or.inr (Or.inl h))
      · intro nd hnd'
        have hold : ∀ nd ∈ A ++ (canonical s, ed) :: B, nd.1 ≠ canonical s →
            nd.2.p1 = nd.1.p1 ∧ nd.2.p2 = nd.1.p2 ∧
            nd.2.E = (((ps ++ [s]).filter (fun s => canonical s = nd.1)).map
              (fun s => halfDyad lm mesh s.1 s.2.1 s.2.2)).sum ∧
            nd.2.edgeLength =
              Norm lm (Subtract (mesh.getPoint nd.1.p2) (mesh.getPoint nd.1.p1)) := by
          intro nd h1 h2
          obtain ⟨e1, e2, e3, e4⟩ := hdata nd h1
          refine ⟨e1, e2, ?_, e4⟩
          rw [e3, List.filter_append]
          have : [s].filter (fun s => decide (canonical s = nd.1)) = [] := by
            simp [List.filter_cons, Ne.symm h2]
          rw [this, List.append_nil]
        simp only [List.mem_append, List.mem_cons] at hnd'
        rcases hnd' with h | h | h
        · refine hold nd (by simp [h]) ?_
          intro hc
          exact hA (List.mem_map.mpr ⟨nd, h, hc⟩)
        · subst h
          obtain ⟨e1, e2, e3, e4⟩ := hdata (canonical s, ed) (by simp)
          refine ⟨e1, e2, ?_, sideLength_eq lm mesh s.2.1 s.2.2⟩
          simp only [touch, addMatrices_eq_add, List.filter_append, List.map_append,
            List.sum_append]
          rw [e3]
          simp [List.filter_cons]
        · refine hold nd (by simp [h]) ?_
          intro hc
          exact hB (List.mem_map.mpr ⟨nd, h, hc⟩)
    · rw [(accumulate_new lm mesh s.1 s.2.1 s.2.2 m hk).2]
      rw [canonical_eq_makeKey] at hk ⊢
      refine ⟨?_, ?_, ?_⟩
      · simp only [List.map_append, List.map_cons, List.map_nil]
        rw [List.nodup_append]
        refine ⟨hnd, by simp, ?_⟩
        intro a ha hb
        simp only [List.mem_singleton] at hb
        exact hk (hb ▸ ha)
      · intro k
        simp only [List.map_append, List.map_cons, List.map_nil, List.mem_append,
          List.mem_singleton, hmem k]
      · intro nd hnd'
        simp only [List.mem_append, List.mem_singleton] at hnd'
        rcases hnd' with h | h
        · obtain ⟨e1, e2, e3, e4⟩ := hdata nd h
          refine ⟨e1, e2, ?_, e4⟩
          have hne : canonical s ≠ nd.1 := by
            intro hc
            exact hk (List.mem_map.mpr ⟨nd, h, hc.symm⟩)
          rw [e3, List.filter_append]
          have : [s].filter (fun s => decide (canonical s = nd.1)) = [] := by
            simp [List.filter_cons, hne]
          rw [this, List.append_nil]
        · subst h
          refine ⟨rfl, rfl, ?_, hlen⟩
          have hnone : ps.filter (fun t => decide (canonical t = canonical s)) = [] := by
            rw [List.filter_eq_nil_iff]
            intro t ht
            simp only [decide_eq_true_eq]
            intro hc
            exact hk ((hmem _).mpr (List.mem_map.mpr ⟨t, ht, hc⟩))
          simp only [touch, addMatrices_eq_add, List.filter_append, hnone, List.nil_append]
          simp [List.filter_cons, freshEdge]
          rfl

end EdgePass2
section Copy

variable {K : Type}

/-- The copy loop writes the values of the nodes, in traversal order, over the
first slots of the vector; it faults exactly when there are more nodes than
slots. -/
theorem copyEdges_eq (nodes : List (EdgeKey × EdgeData K)) (v : List (EdgeData K)) :
    copyEdges nodes v =
      if nodes.length ≤ v.length then
        some (nodes.map Prod.snd ++ v.drop nodes.length, nodes.length)
      else none := by
  unfold copyEdges
  induction nodes using List.reverseRecOn with
  | nil => simp
  | append_singleton t a ih =>
    rw [List.foldlM_append, ih]
    by_cases h : t.length ≤ v.length
    · rw [if_pos h]
      simp only [Option.bind_eq_bind, Option.some_bind, List.foldlM_cons, List.foldlM_nil,
        writeAt, List.length_append, List.length_map, List.length_drop, List.length_singleton]
      by_cases h2 : t.length + 1 ≤ v.length
      · have hlt : t.length < t.length + (v.length - t.length) := by omega
        rw [if_pos hlt, if_pos h2]
        have hd : v.drop t.length = v[t.length] :: v.drop (t.length + 1) :=
          List.drop_eq_getElem_cons (by omega)
        rw [List.set_append_right _ _ (by simp)]
        simp only [List.length_map, Nat.sub_self, Option.map_some', Option.bind_some,
          List.map_append, List.map_cons, List.map_nil, List.append_assoc, List.singleton_append]
        rw [hd, List.set_cons_zero]
        rfl
      · have hlt : ¬ t.length < t.length + (v.length - t.length) := by omega
        rw [if_neg hlt, if_neg h2]
        rfl
    · rw [if_neg h, if_neg (by rw [List.length_append, List.length_singleton]; omega)]
      rfl

variable [LinearOrderedField K]

/-- The face pass fills the face list with the `FaceData` of every plate. -/
theorem buildFaces_eq (mesh : Platemodel K) (old : List (FaceData K)) :
    buildFaces mesh (resize old mesh.getNumberOfPlates FaceData.zero) =
      some ((List.range mesh.getNumberOfPlates).map (makeFace mesh)) :=
  foldlM_writeAt_all (makeFace mesh) _ _ (length_resize _ _ _)

/-- The result of `initializeGravityWerner`. -/
theorem initializeGravityWerner_eq (lm : LibM K) (iterate : EdgeDataMap K → EdgeDataMap K)
    (mesh : Platemodel K) (st : State K) :
    initializeGravityWerner lm iterate mesh st =
      if (iterate (buildEdgeMap lm mesh)).length ≤ mesh.getNumberOfPlates * 3 / 2 then
        some
          { edgeData := (iterate (buildEdgeMap lm mesh)).map Prod.snd ++
              (resize st.edgeData (mesh.getNumberOfPlates * 3 / 2) EdgeData.zero).drop
                (iterate (buildEdgeMap lm mesh)).length
            faceData := (List.range mesh.getNumberOfPlates).map (makeFace mesh)
            polyData := some mesh
            pointData := st.pointData }
      else none := by
  unfold initializeGravityWerner
  simp only [copyEdges_eq, length_resize, buildFaces_eq]
  split_ifs <;> rfl

theorem initializeGravityWerner_some (lm : LibM K) (iterate : EdgeDataMap K → EdgeDataMap K)
    (mesh : Platemodel K) (st st' : State K)
    (h : initializeGravityWerner lm iterate mesh st = some st') :
    (iterate (buildEdgeMap lm mesh)).length ≤ mesh.getNumberOfPlates * 3 / 2 ∧
    st' =
      { edgeData := (iterate (buildEdgeMap lm mesh)).map Prod.snd ++
          (resize st.edgeData (mesh.getNumberOfPlates * 3 / 2) EdgeData.zero).drop
            (iterate (buildEdgeMap lm mesh)).length
        faceData := (List.range mesh.getNumberOfPlates).map (makeFace mesh)
        polyData := some mesh
        pointData := st.pointData } := by
  rw [initializeGravityWerner_eq] at h
  split_ifs at h with hc
  exact ⟨hc, (Option.some.inj h).symm⟩

end Copy

section Built
variable {K : Type} [LinearOrderedField K]

/-- The entries written by the copy loop are the values of the nodes of the
edge map. -/
theorem built_entry (lm : LibM K) (iterate : EdgeDataMap K → EdgeDataMap K)
    (mesh : Platemodel K) (st st' : State K)
    (hperm : ∀ m, (iterate m).Perm m)
    (h : initializeGravityWerner lm iterate mesh st = some st')
    (i : Nat) (hi : i < (buildEdgeMap lm mesh).length) :
    ∃ nd ∈ buildEdgeMap lm mesh, st'.edgeData[i]? = some nd.2 := by
  obtain ⟨_, hst⟩ := initializeGravityWerner_some lm iterate mesh st st' h
  have hlen : (iterate (buildEdgeMap lm mesh)).length = (buildEdgeMap lm mesh).length :=
    (hperm _).length_eq
  have hi2 : i < (iterate (buildEdgeMap lm mesh)).length := by omega
  refine ⟨(iterate (buildEdgeMap lm mesh))[i], (hperm _).mem_iff.mp (List.getElem_mem hi2), ?_⟩
  rw [hst]
  simp only
  rw [List.getElem?_append_left (by simpa using hi2), List.getElem?_map,
    List.getElem?_eq_getElem hi2]
  rfl

theorem Normalize_fst (lm : LibM K) (mesh : Platemodel K) (a b : Int) :
    (Normalize lm (Subtract (mesh.getPoint b) (mesh.getPoint a))).1 = unitVector lm mesh a b := by
  have hn : Norm lm (Subtract (mesh.getPoint b) (mesh.getPoint a)) =
      lm.sqrt (Matrix.dotProduct (fun c => mesh.getPoint b c - mesh.getPoint a c)
        (fun c => mesh.getPoint b c - mesh.getPoint a c)) := by
    simp [Norm, Subtract, Matrix.dotProduct, Fin.sum_univ_three]
  by_cases h0 : lm.sqrt (Matrix.dotProduct (fun c => mesh.getPoint b c - mesh.getPoint a c)
      (fun c => mesh.getPoint b c - mesh.getPoint a c)) = 0
  · simp only [Normalize, unitVector, hn, h0, ne_eq, not_true_eq_false, if_false, if_true]
    rfl
  · simp only [Normalize, unitVector, hn, h0, ne_eq, not_false_eq_true, if_true, if_false]
    rfl

theorem halfDyad_eq (lm : LibM K) (mesh : Platemodel K) (i : Nat) (a b : Int) :
    halfDyad lm mesh i a b =
      Matrix.vecMulVec (mesh.getNormal i)
        (crossProduct (unitVector lm mesh a b) (mesh.getNormal i)) := by
  simp only [halfDyad, Normalize_fst, Cross_eq_crossProduct]
  rfl

/-- C7: for every plate model the face pass of `initializeGravityWerner`
completes and leaves a face list with `numFaces` entries, entry `i` holding the
three vertex ids of plate `i` in the winding order of the plate model together
with `F[j][k] = normal_i[j] * normal_i[k]`; this list, a function of the plate
model alone, is the face list of every state the builder returns. -/
theorem initializeGravityWerner_faceData (lm : LibM K)
    (iterate : EdgeDataMap K → EdgeDataMap K) (mesh : Platemodel K) (st : State K) :
    buildFaces mesh (resize st.faceData mesh.getNumberOfPlates FaceData.zero) =
      some ((List.range mesh.getNumberOfPlates).map fun i =>
        { F := fun j k => mesh.getNormal i j * mesh.getNormal i k
          p1 := mesh.getPlatePoints i 0
          p2 := mesh.getPlatePoints i 1
          p3 := mesh.getPlatePoints i 2 }) ∧
    ∀ st', initializeGravityWerner lm iterate mesh st = some st' →
      st'.faceData.length = mesh.getNumberOfPlates ∧
      ∀ i < mesh.getNumberOfPlates, st'.faceData[i]? = some
        { F := fun j k => mesh.getNormal i j * mesh.getNormal i k
          p1 := mesh.getPlatePoints i 0
          p2 := mesh.getPlatePoints i 1
          p3 := mesh.getPlatePoints i 2 } := by
  refine ⟨buildFaces_eq mesh st.faceData, fun st' h => ?_⟩
  obtain ⟨_, hst⟩ := initializeGravityWerner_some lm iterate mesh st st' h
  rw [hst]
  refine ⟨by simp, fun i hi => ?_⟩
  simp only [List.getElem?_map, List.getElem?_range hi, Option.map_some']
  rfl

end Built

section Keys
variable {K : Type} [LinearOrderedField K]

theorem pair_eq_iff (a b c d : Int) :
    ((⟨min a b, max a b⟩ : EdgeKey) = ⟨min c d, max c d⟩) ↔
      (a = c ∧ b = d) ∨ (a = d ∧ b = c) := by
  rw [EdgeKey.mk.injEq]
  constructor
  · rintro ⟨h1, h2⟩
    omega
  · rintro (⟨rfl, rfl⟩ | ⟨rfl, rfl⟩)
    · exact ⟨rfl, rfl⟩
    · exact ⟨min_comm _ _, max_comm _ _⟩

/-- One step of the edge pass: the key of the side is among the keys
afterwards, at the position of the node the step updates; earlier keys keep
their positions. -/
theorem accumulate_keys (lm : LibM K) (mesh : Platemodel K) (i : Nat) (a b : Int)
    (m : EdgeDataMap K) :
    makeKey a b ∈ (accumulate lm mesh i a b m).map Prod.fst ∧
    (findOrInsert m (makeKey a b)).2 =
      List.indexOf (makeKey a b) ((accumulate lm mesh i a b m).map Prod.fst) ∧
    ∃ X, (accumulate lm mesh i a b m).map Prod.fst = m.map Prod.fst ++ X := by
  by_cases hk : makeKey a b ∈ m.map Prod.fst
  · obtain ⟨A, ed, B, hm, hA⟩ := split_first m _ hk
    obtain ⟨h1, h2⟩ := accumulate_old lm mesh i a b A B ed hA
    rw [hm, h1, h2]
    refine ⟨by simp, ?_, ⟨[], by simp⟩⟩
    simp only [List.map_append, List.map_cons]
    rw [List.indexOf_append_of_not_mem hA, List.indexOf_cons_self, Nat.add_zero,
      List.length_map]
  · obtain ⟨h1, h2⟩ := accumulate_new lm mesh i a b m hk
    rw [h1, h2]
    refine ⟨by simp, ?_, ⟨[makeKey a b], by simp⟩⟩
    simp only [List.map_append, List.map_cons, List.map_nil]
    rw [List.indexOf_append_of_not_mem hk, List.indexOf_cons_self, Nat.add_zero,
      List.length_map]

theorem foldl_accumulate_keys (lm : LibM K) (mesh : Platemodel K)
    (ps : List (Nat × Int × Int)) (m : EdgeDataMap K) :
    ∃ X, (ps.foldl (fun m t => accumulate lm mesh t.1 t.2.1 t.2.2 m) m).map Prod.fst
      = m.map Prod.fst ++ X := by
  induction ps generalizing m with
  | nil => exact ⟨[], by simp⟩
  | cons s ps ih =>
    obtain ⟨X, hX⟩ := ih (accumulate lm mesh s.1 s.2.1 s.2.2 m)
    obtain ⟨_, _, Y, hY⟩ := accumulate_keys lm mesh s.1 s.2.1 s.2.2 m
    exact ⟨Y ++ X, by rw [List.foldl_cons, hX, hY, List.append_assoc]⟩

/-- The node a directed side is accumulated into sits, in the final map, at
the position of the key of the side. -/
theorem entryOf_eq (lm : LibM K) (mesh : Platemodel K) (n : Nat) (s : Nat × Int × Int)
    (h : (directedSides mesh)[n]? = some s) :
    canonical s ∈ (buildEdgeMap lm mesh).map Prod.fst ∧
    entryOf lm mesh n =
      some (List.indexOf (canonical s) ((buildEdgeMap lm mesh).map Prod.fst)) := by
  have hn : n < (directedSides mesh).length := (List.getElem?_eq_some_iff.mp h).1
  have hs : (directedSides mesh)[n] = s := (List.getElem?_eq_some_iff.mp h).2
  have hsplit : directedSides mesh
      = (directedSides mesh).take n ++ s :: (directedSides mesh).drop (n + 1) := by
    rw [← hs, List.getElem_cons_drop, List.take_append_drop]
  obtain ⟨hmem, hidx, _⟩ := accumulate_keys lm mesh s.1 s.2.1 s.2.2
    (((directedSides mesh).take n).foldl (fun m t => accumulate lm mesh t.1 t.2.1 t.2.2 m) [])
  obtain ⟨X, hX⟩ := foldl_accumulate_keys lm mesh ((directedSides mesh).drop (n + 1))
    (accumulate lm mesh s.1 s.2.1 s.2.2
      (((directedSides mesh).take n).foldl (fun m t => accumulate lm mesh t.1 t.2.1 t.2.2 m) []))
  have hfinal : (buildEdgeMap lm mesh).map Prod.fst =
      (accumulate lm mesh s.1 s.2.1 s.2.2
        (((directedSides mesh).take n).foldl
          (fun m t => accumulate lm mesh t.1 t.2.1 t.2.2 m) [])).map Prod.fst ++ X := by
    rw [← hX, buildEdgeMap_eq]
    conv_lhs => rw [hsplit]
    rw [List.foldl_append, List.foldl_cons]
  rw [canonical_eq_makeKey] at hmem hidx
  refine ⟨by rw [hfinal]; exact List.mem_append_left _ hmem, ?_⟩
  unfold entryOf
  rw [h, Option.map_some', hfinal, List.indexOf_append_of_mem hmem, canonical_eq_makeKey, hidx]

end Keys

section Count

variable {K : Type}

/-- A list in which every element occurs exactly twice is twice as long as
any duplicate-free list with the same elements. -/
theorem length_eq_two_mul {α : Type} [DecidableEq α] (L D : List α) (hD : D.Nodup)
    (hmem : ∀ a, a ∈ D ↔ a ∈ L) (hcount : ∀ a ∈ L, L.count a = 2) :
    L.length = 2 * D.length := by
  have hperm : D.Perm L.dedup :=
    (List.perm_ext_iff_of_nodup hD (List.nodup_dedup L)).mpr
      (fun a => by rw [hmem a, List.mem_dedup])
  have hcard : L.toFinset.card = D.length := by
    rw [List.card_toFinset, hperm.length_eq]
  have hsum := Multiset.toFinset_sum_count_eq (L : Multiset α)
  rw [List.toFinset_coe, Multiset.coe_card] at hsum
  rw [← hsum, ← hcard]
  have h2 : ∀ a ∈ L.toFinset, Multiset.count a (L : Multiset α) = 2 := fun a ha => by
    rw [Multiset.coe_count]
    exact hcount a (List.mem_toFinset.mp ha)
  rw [Finset.sum_congr rfl h2, Finset.sum_const, smul_eq_mul, Nat.mul_comm]

theorem directedSides_keys (mesh : Platemodel K) :
    (directedSides mesh).map canonical
      = (List.range mesh.getNumberOfPlates).flatMap (plateKeys mesh) := by
  unfold directedSides plateKeys
  rw [List.map_flatMap]
  rfl

theorem length_directedSides (mesh : Platemodel K) :
    (directedSides mesh).length = 3 * mesh.getNumberOfPlates := by
  unfold directedSides
  have : ∀ l : List Nat, (l.flatMap fun i =>
      (windingSides (mesh.getPlatePoints i)).map fun ab => (i, ab.1, ab.2)).length
        = 3 * l.length := by
    intro l
    induction l with
    | nil => rfl
    | cons a l ih =>
      rw [List.flatMap_cons, List.length_append, ih]
      simp [windingSides]
      omega
  rw [this]
  simp

theorem plateKeys_nodup (mesh : Platemodel K) (f : Nat)
    (h : mesh.getPlatePoints f 0 ≠ mesh.getPlatePoints f 1 ∧
      mesh.getPlatePoints f 1 ≠ mesh.getPlatePoints f 2 ∧
      mesh.getPlatePoints f 2 ≠ mesh.getPlatePoints f 0) :
    (plateKeys mesh f).Nodup := by
  obtain ⟨h01, h12, h20⟩ := h
  simp only [plateKeys, windingSides, List.map_cons, List.map_nil, List.nodup_cons,
    List.mem_cons, List.mem_singleton, List.not_mem_nil, not_false_eq_true, List.nodup_nil,
    and_true, not_or, pair_eq_iff]
  omega

/-- With three distinct vertices on every plate, a key occurs among the
directed sides once for every plate it is a side of. -/
theorem count_keys (mesh : Platemodel K) (k : EdgeKey) (l : List Nat)
    (h : ∀ f ∈ l, mesh.getPlatePoints f 0 ≠ mesh.getPlatePoints f 1 ∧
      mesh.getPlatePoints f 1 ≠ mesh.getPlatePoints f 2 ∧
      mesh.getPlatePoints f 2 ≠ mesh.getPlatePoints f 0) :
    (l.flatMap (plateKeys mesh)).count k
      = (l.filter fun f => decide (k ∈ plateKeys mesh f)).length := by
  induction l with
  | nil => rfl
  | cons f l ih =>
    rw [List.flatMap_cons, List.count_append, ih (fun g hg => h g (List.mem_cons_of_mem f hg))]
    have hn := plateKeys_nodup mesh f (h f (List.mem_cons_self f l))
    by_cases hk : k ∈ plateKeys mesh f
    · rw [List.count_eq_one_of_mem hn hk, List.filter_cons_of_pos (by simpa using hk),
        List.length_cons]
      omega
    · rw [List.count_eq_zero_of_not_mem hk, List.filter_cons_of_neg (by simpa using hk)]
      omega

end Count

section Topology
variable {K : Type} [LinearOrderedField K]

/-- Every node of the edge map is copied into the edge list. -/
theorem node_copied (lm : LibM K) (iterate : EdgeDataMap K → EdgeDataMap K)
    (mesh : Platemodel K) (st st' : State K)
    (hperm : ∀ m, (iterate m).Perm m)
    (h : initializeGravityWerner lm iterate mesh st = some st')
    (nd : EdgeKey × EdgeData K) (hnd : nd ∈ buildEdgeMap lm mesh) :
    ∃ i : Nat, st'.edgeData[i]? = some nd.2 := by
  obtain ⟨_, hst⟩ := initializeGravityWerner_some lm iterate mesh st st' h
  obtain ⟨i, hi, hget⟩ := List.getElem_of_mem ((hperm _).mem_iff.mpr hnd)
  refine ⟨i, ?_⟩
  rw [hst]
  simp only
  rw [List.getElem?_append_left (by simpa using hi), List.getElem?_map,
    List.getElem?_eq_getElem hi, hget]
  rfl

/-- C6: the node into which a directed side `(a, b)` is accumulated stores
`p1 = min a b` and `p2 = max a b`, it is copied into the edge list, and two
directed sides are accumulated into the same node exactly when they join the
same unordered pair of vertices; sides with the same smaller endpoint and
different larger endpoints have equal hash codes and different nodes. -/
theorem initializeGravityWerner_edgeKeys (lm : LibM K)
    (iterate : EdgeDataMap K → EdgeDataMap K) (mesh : Platemodel K) (st st' : State K)
    (n1 n2 : Nat) (s1 s2 : Nat × Int × Int)
    (hperm : ∀ m, (iterate m).Perm m)
    (h : initializeGravityWerner lm iterate mesh st = some st')
    (h1 : (directedSides mesh)[n1]? = some s1) (h2 : (directedSides mesh)[n2]? = some s2) :
    ∃ (e1 e2 : Nat) (nd : EdgeKey × EdgeData K) (i : Nat),
      entryOf lm mesh n1 = some e1 ∧ entryOf lm mesh n2 = some e2 ∧
      (buildEdgeMap lm mesh)[e1]? = some nd ∧ st'.edgeData[i]? = some nd.2 ∧
      nd.2.p1 = min s1.2.1 s1.2.2 ∧ nd.2.p2 = max s1.2.1 s1.2.2 ∧ nd.2.p1 ≤ nd.2.p2 ∧
      (e1 = e2 ↔
        (s1.2.1 = s2.2.1 ∧ s1.2.2 = s2.2.2) ∨ (s1.2.1 = s2.2.2 ∧ s1.2.2 = s2.2.1)) ∧
      (min s1.2.1 s1.2.2 = min s2.2.1 s2.2.2 → max s1.2.1 s1.2.2 ≠ max s2.2.1 s2.2.2 →
        EdgeHash (makeKey s1.2.1 s1.2.2) = EdgeHash (makeKey s2.2.1 s2.2.2) ∧ e1 ≠ e2) := by
  obtain ⟨hm1, he1⟩ := entryOf_eq lm mesh n1 s1 h1
  obtain ⟨hm2, he2⟩ := entryOf_eq lm mesh n2 s2 h2
  have hget := List.getElem?_indexOf hm1
  rw [List.getElem?_map] at hget
  obtain ⟨nd, hnd, hk⟩ := Option.map_eq_some'.mp hget
  have hmem : nd ∈ buildEdgeMap lm mesh := List.getElem?_mem hnd
  obtain ⟨i, hi⟩ := node_copied lm iterate mesh st st' hperm h nd hmem
  have hinv := hmem
  rw [buildEdgeMap_eq] at hinv
  obtain ⟨e1, e2, _, _⟩ := (edgePass_inv lm mesh (directedSides mesh)).2.2 nd hinv
  have hp1 : nd.2.p1 = min s1.2.1 s1.2.2 := by rw [e1, hk]; rfl
  have hp2 : nd.2.p2 = max s1.2.1 s1.2.2 := by rw [e2, hk]; rfl
  have hiff : List.indexOf (canonical s1) ((buildEdgeMap lm mesh).map Prod.fst)
      = List.indexOf (canonical s2) ((buildEdgeMap lm mesh).map Prod.fst) ↔
      (s1.2.1 = s2.2.1 ∧ s1.2.2 = s2.2.2) ∨ (s1.2.1 = s2.2.2 ∧ s1.2.2 = s2.2.1) := by
    rw [List.indexOf_inj hm1 hm2]
    exact pair_eq_iff _ _ _ _
  refine ⟨_, _, nd, i, he1, he2, hnd, hi, hp1, hp2, ?_, hiff, ?_⟩
  · rw [hp1, hp2]
    exact min_le_max
  · intro hmin hmax
    refine ⟨?_, ?_⟩
    · rw [makeKey_eq, makeKey_eq]
      simp only [EdgeHash, hmin]
    · intro heq
      have := (pair_eq_iff _ _ _ _).mpr (hiff.mp heq)
      rw [EdgeKey.mk.injEq] at this
      exact hmax this.2

/-- C4: on a closed 2-manifold triangular mesh (three distinct vertices on
every plate, every pair that is a side of a plate is a side of exactly two
plates) `initializeGravityWerner` completes, the edge list has exactly
`numFaces*3/2` entries, the division is exact (`numFaces` is even), and the
pairs `(p1, p2)` of the entries are, without repetition, the canonical pairs of
the sides of the plates, for every traversal order of the edge map. -/
theorem initializeGravityWerner_edgeCount (lm : LibM K)
    (iterate : EdgeDataMap K → EdgeDataMap K) (mesh : Platemodel K) (st : State K)
    (hperm : ∀ m, (iterate m).Perm m)
    (hdistinct : ∀ f < mesh.getNumberOfPlates,
      mesh.getPlatePoints f 0 ≠ mesh.getPlatePoints f 1 ∧
      mesh.getPlatePoints f 1 ≠ mesh.getPlatePoints f 2 ∧
      mesh.getPlatePoints f 2 ≠ mesh.getPlatePoints f 0)
    (hmanifold : ∀ f < mesh.getNumberOfPlates, ∀ k ∈ plateKeys mesh f,
      ((List.range mesh.getNumberOfPlates).filter
        fun g => decide (k ∈ plateKeys mesh g)).length = 2) :
    ∃ st', initializeGravityWerner lm iterate mesh st = some st' ∧
      st'.edgeData.length = mesh.getNumberOfPlates * 3 / 2 ∧
      2 * (mesh.getNumberOfPlates * 3 / 2) = mesh.getNumberOfPlates * 3 ∧
      mesh.getNumberOfPlates % 2 = 0 ∧
      (st'.edgeData.map fun ed => (⟨ed.p1, ed.p2⟩ : EdgeKey)).Nodup ∧
      ∀ k, k ∈ (st'.edgeData.map fun ed => (⟨ed.p1, ed.p2⟩ : EdgeKey)) ↔
        ∃ f < mesh.getNumberOfPlates, k ∈ plateKeys mesh f := by
  obtain ⟨hnd, hmem, hdata⟩ := edgePass_inv lm mesh (directedSides mesh)
  rw [← buildEdgeMap_eq] at hnd hmem hdata
  have hcount : ∀ k ∈ (directedSides mesh).map canonical,
      ((directedSides mesh).map canonical).count k = 2 := by
    intro k hk
    rw [directedSides_keys] at hk ⊢
    rw [count_keys mesh k _ (fun f hf => hdistinct f (List.mem_range.mp hf))]
    obtain ⟨f, hf, hkf⟩ := List.mem_flatMap.mp hk
    exact hmanifold f (List.mem_range.mp hf) k hkf
  have hlen := length_eq_two_mul _ _ hnd hmem hcount
  rw [List.length_map, length_directedSides, List.length_map] at hlen
  have hcap : (iterate (buildEdgeMap lm mesh)).length = mesh.getNumberOfPlates * 3 / 2 := by
    rw [(hperm _).length_eq]
    omega
  have hkeys : ∀ l : EdgeDataMap K, (∀ nd ∈ l, nd.2.p1 = nd.1.p1 ∧ nd.2.p2 = nd.1.p2) →
      (l.map Prod.snd).map (fun ed => (⟨ed.p1, ed.p2⟩ : EdgeKey)) = l.map Prod.fst := by
    intro l hl
    rw [List.map_map]
    apply List.map_congr_left
    intro nd hn
    obtain ⟨e1, e2⟩ := hl nd hn
    simp only [Function.comp, e1, e2]
  have hst := initializeGravityWerner_eq lm iterate mesh st
  rw [if_pos (le_of_eq hcap)] at hst
  refine ⟨_, hst, ?_, by omega, by omega, ?_, ?_⟩
  · simp only [List.length_append, List.length_map, List.length_drop, length_resize]
    omega
  · have hdrop : (resize st.edgeData (mesh.getNumberOfPlates * 3 / 2) EdgeData.zero).drop
        (iterate (buildEdgeMap lm mesh)).length = [] := by
      rw [List.drop_eq_nil_iff, length_resize, hcap]
    simp only [hdrop, List.append_nil]
    rw [hkeys _ (fun nd hn => let ⟨a, b, _⟩ := hdata nd ((hperm _).mem_iff.mp hn); ⟨a, b⟩)]
    exact ((hperm _).map Prod.fst).nodup_iff.mpr hnd
  · intro k
    have hdrop : (resize st.edgeData (mesh.getNumberOfPlates * 3 / 2) EdgeData.zero).drop
        (iterate (buildEdgeMap lm mesh)).length = [] := by
      rw [List.drop_eq_nil_iff, length_resize, hcap]
    simp only [hdrop, List.append_nil]
    rw [hkeys _ (fun nd hn => let ⟨a, b, _⟩ := hdata nd ((hperm _).mem_iff.mp hn); ⟨a, b⟩),
      ((hperm _).map Prod.fst).mem_iff, hmem k, directedSides_keys, List.mem_flatMap]
    simp only [List.mem_range]

end Topology

section Tetra

set_option maxRecDepth 100000 in
theorem length_buildEdgeMap_tetraQ : (buildEdgeMap lmQ tetraQ).length = 6 := by decide

theorem initialize_tetraQ : initializeGravityWerner lmQ id tetraQ st0 = some tetraBuilt := by
  rw [initializeGravityWerner_eq, if_pos (by rw [id, length_buildEdgeMap_tetraQ]; decide)]
  have hdrop : (resize st0.edgeData (tetraQ.getNumberOfPlates * 3 / 2) EdgeData.zero).drop
      (id (buildEdgeMap lmQ tetraQ)).length = [] := by
    rw [List.drop_eq_nil_iff, length_resize, id, length_buildEdgeMap_tetraQ]
    decide
  rw [hdrop, List.append_nil]
  rfl

set_option maxRecDepth 100000 in
theorem directedSides_tetraQ :
    (directedSides tetraQ)[0]? = some (0, 0, 2) ∧ (directedSides tetraQ)[2]? = some (0, 1, 0) := by
  decide

set_option maxRecDepth 100000 in
theorem distinct_tetraQ : ∀ f < tetraQ.getNumberOfPlates,
    tetraQ.getPlatePoints f 0 ≠ tetraQ.getPlatePoints f 1 ∧
    tetraQ.getPlatePoints f 1 ≠ tetraQ.getPlatePoints f 2 ∧
    tetraQ.getPlatePoints f 2 ≠ tetraQ.getPlatePoints f 0 := by
  decide

set_option maxRecDepth 100000 in
theorem manifold_tetraQ : ∀ f < tetraQ.getNumberOfPlates, ∀ k ∈ plateKeys tetraQ f,
    ((List.range tetraQ.getNumberOfPlates).filter
      fun g => decide (k ∈ plateKeys tetraQ g)).length = 2 := by
  decide

end Tetra

section Witnesses

theorem initializeGravityWerner_faceData_witness :
    initializeGravityWerner lmQ id tetraQ st0 = some tetraBuilt ∧
    tetraBuilt.faceData.length = tetraQ.getNumberOfPlates ∧
    ∀ i < tetraQ.getNumberOfPlates, tetraBuilt.faceData[i]? = some
      { F := fun j k => tetraQ.getNormal i j * tetraQ.getNormal i k
        p1 := tetraQ.getPlatePoints i 0
        p2 := tetraQ.getPlatePoints i 1
        p3 := tetraQ.getPlatePoints i 2 } :=
  ⟨initialize_tetraQ,
    (initializeGravityWerner_faceData lmQ id tetraQ st0).2 tetraBuilt initialize_tetraQ⟩

theorem initializeGravityWerner_edgeKeys_witness :
    initializeGravityWerner lmQ id tetraQ st0 = some tetraBuilt ∧
    (directedSides tetraQ)[0]? = some (0, 0, 2) ∧ (directedSides tetraQ)[2]? = some (0, 1, 0) ∧
    ∃ (e1 e2 : Nat) (nd : EdgeKey × EdgeData ℚ) (i : Nat),
      entryOf lmQ tetraQ 0 = some e1 ∧ entryOf lmQ tetraQ 2 = some e2 ∧
      (buildEdgeMap lmQ tetraQ)[e1]? = some nd ∧ tetraBuilt.edgeData[i]? = some nd.2 ∧
      nd.2.p1 = min (0 : Int) 2 ∧ nd.2.p2 = max (0 : Int) 2 ∧ nd.2.p1 ≤ nd.2.p2 ∧
      (e1 = e2 ↔
        ((0 : Int) = 1 ∧ (2 : Int) = 0) ∨ ((0 : Int) = 0 ∧ (2 : Int) = 1)) ∧
      (min (0 : Int) 2 = min (1 : Int) 0 → max (0 : Int) 2 ≠ max (1 : Int) 0 →
        EdgeHash (makeKey 0 2) = EdgeHash (makeKey 1 0) ∧ e1 ≠ e2) :=
  ⟨initialize_tetraQ, directedSides_tetraQ.1, directedSides_tetraQ.2,
    initializeGravityWerner_edgeKeys lmQ id tetraQ st0 tetraBuilt 0 2 (0, 0, 2) (0, 1, 0)
      (fun m => List.Perm.refl m) initialize_tetraQ directedSides_tetraQ.1
      directedSides_tetraQ.2⟩

theorem initializeGravityWerner_edgeCount_witness :
    ∃ st', initializeGravityWerner lmQ id tetraQ st0 = some st' ∧
      st'.edgeData.length = tetraQ.getNumberOfPlates * 3 / 2 ∧
      2 * (tetraQ.getNumberOfPlates * 3 / 2) = tetraQ.getNumberOfPlates * 3 ∧
      tetraQ.getNumberOfPlates % 2 = 0 ∧
      (st'.edgeData.map fun ed => (⟨ed.p1, ed.p2⟩ : EdgeKey)).Nodup ∧
      ∀ k, k ∈ (st'.edgeData.map fun ed => (⟨ed.p1, ed.p2⟩ : EdgeKey)) ↔
        ∃ f < tetraQ.getNumberOfPlates, k ∈ plateKeys tetraQ f :=
  initializeGravityWerner_edgeCount lmQ id tetraQ st0 (fun m => List.Perm.refl m)
    distinct_tetraQ manifold_tetraQ

end Witnesses

section Idempotence
variable {K : Type} [LinearOrderedField K]

/-- The outputs of `getGravityWerner` are determined by the edge list, the
face list and the plate model: the content of the cache plays no part. -/
theorem getGravityWerner_congr (lm : LibM K) (fieldPoint : Vec3 K) (acc : Option (Vec3 K))
    (st1 st2 : State K) (he : st1.edgeData = st2.edgeData) (hf : st1.faceData = st2.faceData)
    (hp : st1.polyData = st2.polyData) :
    (getGravityWerner lm fieldPoint acc st1).map (fun res => (res.potential, res.acc)) =
      (getGravityWerner lm fieldPoint acc st2).map (fun res => (res.potential, res.acc)) := by
  unfold getGravityWerner
  rw [he, hf, hp]
  cases st2.polyData with
  | none => rfl
  | some mesh =>
    simp only [cachePoints_eq, Option.bind_eq_bind, Option.some_bind, Option.map_bind]

theorem isInsidePolyhedron_congr (lm : LibM K) (fieldPoint : Vec3 K)
    (st1 st2 : State K) (hf : st1.faceData = st2.faceData)
    (hp : st1.polyData = st2.polyData) :
    (isInsidePolyhedron lm fieldPoint st1).map Prod.fst =
      (isInsidePolyhedron lm fieldPoint st2).map Prod.fst := by
  unfold isInsidePolyhedron
  rw [hf, hp]
  cases st2.polyData with
  | none => rfl
  | some mesh =>
    simp only [cachePoints_eq, Option.bind_eq_bind, Option.some_bind]
    cases List.foldlM (insideStep lm st2.faceData (displacements lm mesh fieldPoint)) (0 : K)
        (List.range mesh.getNumberOfPlates) with
    | none => rfl
    | some s => rfl

/-- A call of `getGravityWerner` changes nothing but the cache. -/
theorem getGravityWerner_state (lm : LibM K) (fieldPoint : Vec3 K) (acc : Option (Vec3 K))
    (st : State K) (res : GravityResult K)
    (h : getGravityWerner lm fieldPoint acc st = some res) :
    res.state.edgeData = st.edgeData ∧ res.state.faceData = st.faceData ∧
      res.state.polyData = st.polyData := by
  unfold getGravityWerner at h
  cases hp : st.polyData with
  | none => rw [hp] at h; simp at h
  | some mesh =>
    rw [hp] at h
    simp only [cachePoints_eq, Option.bind_eq_bind, Option.some_bind] at h
    cases h1 : List.foldlM (edgeStep lm st.edgeData (displacements lm mesh fieldPoint))
        ((0 : K), acc.map fun _ => ![0, 0, 0]) (List.range st.edgeData.length) with
    | none => rw [h1] at h; simp at h
    | some s =>
      rw [h1] at h
      simp only [Option.some_bind] at h
      cases h2 : List.foldlM (faceStep lm st.faceData (displacements lm mesh fieldPoint)) s
          (List.range mesh.getNumberOfPlates) with
      | none => rw [h2] at h; simp at h
      | some s2 =>
        rw [h2] at h
        simp only [Option.some_bind, Option.pure_def, Option.some.injEq] at h
        rw [← h]
        exact ⟨rfl, rfl, rfl⟩

/-- A call of `isInsidePolyhedron` changes nothing but the cache. -/
theorem isInsidePolyhedron_state (lm : LibM K) (fieldPoint : Vec3 K)
    (st st1 : State K) (b : Bool)
    (h : isInsidePolyhedron lm fieldPoint st = some (b, st1)) :
    st1.edgeData = st.edgeData ∧ st1.faceData = st.faceData ∧ st1.polyData = st.polyData := by
  unfold isInsidePolyhedron at h
  cases hp : st.polyData with
  | none => rw [hp] at h; simp at h
  | some mesh =>
    rw [hp] at h
    simp only [cachePoints_eq, Option.bind_eq_bind, Option.some_bind] at h
    cases h1 : List.foldlM (insideStep lm st.faceData (displacements lm mesh fieldPoint)) (0 : K)
        (List.range mesh.getNumberOfPlates) with
    | none => rw [h1] at h; simp at h
    | some s =>
      rw [h1] at h
      simp only [Option.some_bind, Option.pure_def, Option.some.injEq, Prod.mk.injEq] at h
      rw [← h.2]
      exact ⟨rfl, rfl, rfl⟩

/-- C11: the potential and acceleration returned by `getGravityWerner`, and
the boolean returned by `isInsidePolyhedron`, at a field point are the same
after any earlier call of `getGravityWerner` or of `isInsidePolyhedron`, at
the same or another field point, as without that call: what the earlier call
left in the cache has no influence. -/
theorem evaluation_independent_of_cache (lm : LibM K) (fieldPoint fieldPoint' : Vec3 K)
    (acc acc' : Option (Vec3 K)) (st : State K) :
    (∀ res, getGravityWerner lm fieldPoint' acc' st = some res →
      (getGravityWerner lm fieldPoint acc res.state).map (fun r => (r.potential, r.acc)) =
        (getGravityWerner lm fieldPoint acc st).map (fun r => (r.potential, r.acc)) ∧
      (isInsidePolyhedron lm fieldPoint res.state).map Prod.fst =
        (isInsidePolyhedron lm fieldPoint st).map Prod.fst) ∧
    (∀ b st1, isInsidePolyhedron lm fieldPoint' st = some (b, st1) →
      (getGravityWerner lm fieldPoint acc st1).map (fun r => (r.potential, r.acc)) =
        (getGravityWerner lm fieldPoint acc st).map (fun r => (r.potential, r.acc)) ∧
      (isInsidePolyhedron lm fieldPoint st1).map Prod.fst =
        (isInsidePolyhedron lm fieldPoint st).map Prod.fst) ∧
    ∀ cache,
      (getGravityWerner lm fieldPoint acc { st with pointData := cache }).map
          (fun r => (r.potential, r.acc)) =
        (getGravityWerner lm fieldPoint acc st).map (fun r => (r.potential, r.acc)) ∧
      (isInsidePolyhedron lm fieldPoint { st with pointData := cache }).map Prod.fst =
        (isInsidePolyhedron lm fieldPoint st).map Prod.fst := by
  refine ⟨fun res h => ?_, fun b st1 h => ?_, fun cache => ?_⟩
  · obtain ⟨he, hf, hp⟩ := getGravityWerner_state lm fieldPoint' acc' st res h
    exact ⟨getGravityWerner_congr lm fieldPoint acc _ _ he hf hp,
      isInsidePolyhedron_congr lm fieldPoint _ _ hf hp⟩
  · obtain ⟨he, hf, hp⟩ := isInsidePolyhedron_state lm fieldPoint' st st1 b h
    exact ⟨getGravityWerner_congr lm fieldPoint acc _ _ he hf hp,
      isInsidePolyhedron_congr lm fieldPoint _ _ hf hp⟩
  · exact ⟨getGravityWerner_congr lm fieldPoint acc _ _ rfl rfl rfl,
      isInsidePolyhedron_congr lm fieldPoint _ _ rfl rfl⟩

theorem evaluation_independent_of_cache_witness :
    getGravityWerner lmQ ![0, 0, 0] none stQ ≠ none ∧
    ∀ res, getGravityWerner lmQ ![0, 0, 0] none stQ = some res →
      (getGravityWerner lmQ ![0, 0, 0] (some ![7, 7, 7]) res.state).map
          (fun r => (r.potential, r.acc)) =
        (getGravityWerner lmQ ![0, 0, 0] (some ![7, 7, 7]) stQ).map
          (fun r => (r.potential, r.acc)) ∧
      (isInsidePolyhedron lmQ ![0, 0, 0] res.state).map Prod.fst =
        (isInsidePolyhedron lmQ ![0, 0, 0] stQ).map Prod.fst :=
  ⟨by
    rw [getGravityWerner_eq lmQ ![0, 0, 0] none stQ triQ [3] [4] rfl rfl compute_Le_stQ
      compute_wf_stQ]
    exact Option.some_ne_none _,
    (evaluation_independent_of_cache lmQ ![0, 0, 0] ![0, 0, 0] (some ![7, 7, 7]) none stQ).1⟩

end Idempotence


/-! ## Accesses within bounds -/

section InRange

variable {K : Type} [LinearOrderedField K]

theorem length_displacements (lm : LibM K) (mesh : Platemodel K) (fieldPoint : Vec3 K) :
    (displacements lm mesh fieldPoint).length = mesh.getNumberOfPoints := by
  simp [displacements]

/-- A vertex id in `[0, numPoints)` is found in the displacement cache. -/
theorem readAt_displacements_some (lm : LibM K) (mesh : Platemodel K) (fieldPoint : Vec3 K)
    (p : Int) (h0 : 0 ≤ p) (h1 : p < (mesh.getNumberOfPoints : Int)) :
    ∃ pd, readAt (displacements lm mesh fieldPoint) p = some pd := by
  have hlt : p.toNat < (displacements lm mesh fieldPoint).length := by
    rw [length_displacements]
    omega
  exact ⟨(displacements lm mesh fieldPoint)[p.toNat], by
    rw [readAt, if_pos h0, List.getElem?_eq_getElem hlt]⟩

theorem compute_Le_some (lm : LibM K) (pointData : List (PointData K)) (ed : EdgeData K)
    (h1 : ∃ pd, readAt pointData ed.p1 = some pd) (h2 : ∃ pd, readAt pointData ed.p2 = some pd) :
    ∃ Le, compute_Le lm pointData ed = some Le := by
  obtain ⟨pd1, h1⟩ := h1
  obtain ⟨pd2, h2⟩ := h2
  simp only [compute_Le, h1, h2, Option.bind_eq_bind, Option.some_bind, Option.pure_def]
  split_ifs
  · exact ⟨_, rfl⟩
  · exact ⟨_, rfl⟩

theorem compute_wf_some (lm : LibM K) (pointData : List (PointData K)) (fd : FaceData K)
    (h1 : ∃ pd, readAt pointData fd.p1 = some pd) (h2 : ∃ pd, readAt pointData fd.p2 = some pd)
    (h3 : ∃ pd, readAt pointData fd.p3 = some pd) :
    ∃ wf, compute_wf lm pointData fd = some wf := by
  obtain ⟨pd1, h1⟩ := h1
  obtain ⟨pd2, h2⟩ := h2
  obtain ⟨pd3, h3⟩ := h3
  simp only [compute_wf, h1, h2, h3, Option.bind_eq_bind, Option.some_bind, Option.pure_def]
  split_ifs
  · exact ⟨_, rfl⟩
  · exact ⟨_, rfl⟩

theorem exists_map_some {α β : Type} (f : α → Option β) (l : List α)
    (h : ∀ a ∈ l, ∃ b, f a = some b) : ∃ bs : List β, l.map f = bs.map some := by
  induction l with
  | nil => exact ⟨[], rfl⟩
  | cons a l ih =>
    obtain ⟨b, hb⟩ := h a (List.mem_cons_self a l)
    obtain ⟨bs, hbs⟩ := ih (fun x hx => h x (List.mem_cons_of_mem a hx))
    exact ⟨b :: bs, by simp [hb, hbs]⟩

/-- The whole result of `isInsidePolyhedron` on a state whose faces refer to
cached vertices. -/
theorem isInsidePolyhedron_eq (lm : LibM K) (fieldPoint : Vec3 K)
    (st : State K) (mesh : Platemodel K) (wfs : List K)
    (hpoly : st.polyData = some mesh)
    (hlen : st.faceData.length = mesh.getNumberOfPlates)
    (hwf : st.faceData.map (compute_wf lm (displacements lm mesh fieldPoint)) = wfs.map some) :
    isInsidePolyhedron lm fieldPoint st =
      some (decide (wfs.sum ≥ 2 * lm.M_PI),
        { st with pointData := displacements lm mesh fieldPoint }) := by
  unfold isInsidePolyhedron
  simp only [hpoly, cachePoints_eq, Option.bind_eq_bind, Option.some_bind]
  have hf : List.foldlM (insideStep lm st.faceData (displacements lm mesh fieldPoint)) (0 : K)
      (List.range st.faceData.length) = _ :=
    (foldlM_range_index st.faceData (insideBody lm (displacements lm mesh fieldPoint)) 0).trans
      (inside_fold lm _ st.faceData wfs 0 hwf)
  rw [← hlen, hf]
  simp

/-- On a state holding the plate model whose edge and face lists only carry
vertex ids in `[0, numPoints)`, both evaluations return a result. -/
theorem evaluation_isSome (lm : LibM K) (fieldPoint : Vec3 K) (acc : Option (Vec3 K))
    (st : State K) (mesh : Platemodel K)
    (hpoly : st.polyData = some mesh)
    (hlen : st.faceData.length = mesh.getNumberOfPlates)
    (hE : ∀ ed ∈ st.edgeData, (0 ≤ ed.p1 ∧ ed.p1 < (mesh.getNumberOfPoints : Int)) ∧
      (0 ≤ ed.p2 ∧ ed.p2 < (mesh.getNumberOfPoints : Int)))
    (hF : ∀ fd ∈ st.faceData, (0 ≤ fd.p1 ∧ fd.p1 < (mesh.getNumberOfPoints : Int)) ∧
      (0 ≤ fd.p2 ∧ fd.p2 < (mesh.getNumberOfPoints : Int)) ∧
      (0 ≤ fd.p3 ∧ fd.p3 < (mesh.getNumberOfPoints : Int))) :
    (getGravityWerner lm fieldPoint acc st).isSome = true ∧
      (isInsidePolyhedron lm fieldPoint st).isSome = true := by
  obtain ⟨Les, hLe⟩ := exists_map_some (compute_Le lm (displacements lm mesh fieldPoint))
    st.edgeData (fun ed hed => compute_Le_some lm _ ed
      (readAt_displacements_some lm mesh fieldPoint _ (hE ed hed).1.1 (hE ed hed).1.2)
      (readAt_displacements_some lm mesh fieldPoint _ (hE ed hed).2.1 (hE ed hed).2.2))
  obtain ⟨wfs, hwf⟩ := exists_map_some (compute_wf lm (displacements lm mesh fieldPoint))
    st.faceData (fun fd hfd => compute_wf_some lm _ fd
      (readAt_displacements_some lm mesh fieldPoint _ (hF fd hfd).1.1 (hF fd hfd).1.2)
      (readAt_displacements_some lm mesh fieldPoint _ (hF fd hfd).2.1.1 (hF fd hfd).2.1.2)
      (readAt_displacements_some lm mesh fieldPoint _ (hF fd hfd).2.2.1 (hF fd hfd).2.2.2))
  rw [getGravityWerner_eq lm fieldPoint acc st mesh Les wfs hpoly hlen hLe hwf,
    isInsidePolyhedron_eq lm fieldPoint st mesh wfs hpoly hlen hwf]
  exact ⟨rfl, rfl⟩

omit [LinearOrderedField K] in
/-- The endpoints of every directed side are vertex ids of a plate. -/
theorem directedSides_mem {mesh : Platemodel K} {s : Nat × Int × Int}
    (h : s ∈ directedSides mesh) :
    ∃ f < mesh.getNumberOfPlates, ∃ j j' : Fin 3,
      s.2.1 = mesh.getPlatePoints f j ∧ s.2.2 = mesh.getPlatePoints f j' := by
  unfold directedSides at h
  obtain ⟨f, hf, hs⟩ := List.mem_flatMap.mp h
  refine ⟨f, List.mem_range.mp hf, ?_⟩
  simp only [windingSides, List.map_cons, List.map_nil, List.mem_cons, List.mem_singleton,
    List.not_mem_nil, or_false] at hs
  rcases hs with rfl | rfl | rfl
  · exact ⟨0, 1, rfl, rfl⟩
  · exact ⟨1, 2, rfl, rfl⟩
  · exact ⟨2, 0, rfl, rfl⟩

/-- The nodes of the edge map carry vertex ids of plates. -/
theorem buildEdgeMap_ids (lm : LibM K) (mesh : Platemodel K) (n : Nat)
    (hids : ∀ f < mesh.getNumberOfPlates, ∀ j : Fin 3,
      0 ≤ mesh.getPlatePoints f j ∧ mesh.getPlatePoints f j < (n : Int))
    (nd : EdgeKey × EdgeData K) (hnd : nd ∈ buildEdgeMap lm mesh) :
    (0 ≤ nd.2.p1 ∧ nd.2.p1 < (n : Int)) ∧ (0 ≤ nd.2.p2 ∧ nd.2.p2 < (n : Int)) := by
  obtain ⟨_, hmem, hdata⟩ := edgePass_inv lm mesh (directedSides mesh)
  rw [← buildEdgeMap_eq] at hmem hdata
  obtain ⟨e1, e2, _, _⟩ := hdata nd hnd
  have hk : nd.1 ∈ (directedSides mesh).map canonical :=
    (hmem nd.1).mp (List.mem_map.mpr ⟨nd, hnd, rfl⟩)
  obtain ⟨s, hs, hsk⟩ := List.mem_map.mp hk
  obtain ⟨f, hf, j, j', ha, hb⟩ := directedSides_mem hs
  have h1 := hids f hf j
  have h2 := hids f hf j'
  rw [← ha] at h1
  rw [← hb] at h2
  have hp1 : nd.1.p1 = min s.2.1 s.2.2 := by rw [← hsk]; rfl
  have hp2 : nd.1.p2 = max s.2.1 s.2.2 := by rw [← hsk]; rfl
  rw [e1, e2, hp1, hp2]
  omega

end InRange

section OpenMesh
variable {K : Type} [LinearOrderedField K]

set_option maxRecDepth 100000 in
theorem length_buildEdgeMap_triQ : (buildEdgeMap lmQ triQ).length = 3 := by decide

/-- Counterexample to C12: the plate model `triQ` is a single triangle, an
open mesh.  Its edge map has three nodes and its edge list one slot
(`1*3/2 = 1`), so the copy loop writes at the indices `1` and `2` of a list
of length `1` and `initializeGravityWerner` faults. -/
theorem initializeGravityWerner_open_mesh_fault :
    (buildEdgeMap lmQ triQ).length = 3 ∧ triQ.getNumberOfPlates * 3 / 2 = 1 ∧
    copyEdges (id (buildEdgeMap lmQ triQ))
      (resize st0.edgeData (triQ.getNumberOfPlates * 3 / 2) EdgeData.zero) = none ∧
    initializeGravityWerner lmQ id triQ st0 = none := by
  have hlen : ¬ (id (buildEdgeMap lmQ triQ)).length ≤ triQ.getNumberOfPlates * 3 / 2 := by
    rw [id, length_buildEdgeMap_triQ]
    decide
  refine ⟨length_buildEdgeMap_triQ, rfl, ?_, ?_⟩
  · rw [copyEdges_eq, length_resize, if_neg hlen]
  · rw [initializeGravityWerner_eq, if_neg hlen]

/-- C12 as amended: `initializeGravityWerner` completes, every write of the
copy loop being below the length `numFaces*3/2` of the edge list, exactly when
the edge map has at most `numFaces*3/2` nodes; when it has exactly that many
and every vertex id of every plate is in `[0, numPoints)`, both evaluations
return a result at every field point. -/
theorem initializeGravityWerner_inRange (lm : LibM K)
    (iterate : EdgeDataMap K → EdgeDataMap K) (mesh : Platemodel K) (st : State K)
    (hperm : ∀ m, (iterate m).Perm m) :
    ((initializeGravityWerner lm iterate mesh st).isSome = true ↔
      (buildEdgeMap lm mesh).length ≤ mesh.getNumberOfPlates * 3 / 2) ∧
    (copyEdges (iterate (buildEdgeMap lm mesh))
        (resize st.edgeData (mesh.getNumberOfPlates * 3 / 2) EdgeData.zero) = none ↔
      mesh.getNumberOfPlates * 3 / 2 < (buildEdgeMap lm mesh).length) ∧
    ∀ st', initializeGravityWerner lm iterate mesh st = some st' →
      (buildEdgeMap lm mesh).length = mesh.getNumberOfPlates * 3 / 2 →
      (∀ f < mesh.getNumberOfPlates, ∀ j : Fin 3,
        0 ≤ mesh.getPlatePoints f j ∧
          mesh.getPlatePoints f j < (mesh.getNumberOfPoints : Int)) →
      ∀ (fieldPoint : Vec3 K) (acc : Option (Vec3 K)),
        (getGravityWerner lm fieldPoint acc st').isSome = true ∧
          (isInsidePolyhedron lm fieldPoint st').isSome = true := by
  have hl : (iterate (buildEdgeMap lm mesh)).length = (buildEdgeMap lm mesh).length :=
    (hperm _).length_eq
  refine ⟨?_, ?_, ?_⟩
  · rw [initializeGravityWerner_eq, hl]
    split_ifs with hc
    · simp [hc]
    · simp [hc]
  · rw [copyEdges_eq, length_resize, hl]
    split_ifs with hc
    · simp only [reduceCtorEq, false_iff, not_lt]
      exact hc
    · simp only [true_iff]
      omega
  · intro st' h hcap hids fieldPoint acc
    obtain ⟨_, hst⟩ := initializeGravityWerner_some lm iterate mesh st st' h
    have hdrop : (resize st.edgeData (mesh.getNumberOfPlates * 3 / 2) EdgeData.zero).drop
        (iterate (buildEdgeMap lm mesh)).length = [] := by
      rw [List.drop_eq_nil_iff, length_resize, hl, hcap]
    rw [hdrop, List.append_nil] at hst
    apply evaluation_isSome lm fieldPoint acc st' mesh
    · rw [hst]
    · rw [hst]; simp
    · intro ed hed
      rw [hst] at hed
      obtain ⟨nd, hnd, rfl⟩ := List.mem_map.mp hed
      exact buildEdgeMap_ids lm mesh _ hids nd ((hperm _).mem_iff.mp hnd)
    · intro fd hfd
      rw [hst] at hfd
      obtain ⟨i, hi, rfl⟩ := List.mem_map.mp hfd
      have hi' := List.mem_range.mp hi
      exact ⟨hids i hi' 0, hids i hi' 1, hids i hi' 2⟩

set_option maxRecDepth 100000 in
theorem ids_tetraQ : ∀ f < tetraQ.getNumberOfPlates, ∀ j : Fin 3,
    0 ≤ tetraQ.getPlatePoints f j ∧
      tetraQ.getPlatePoints f j < (tetraQ.getNumberOfPoints : Int) := by
  decide

theorem initializeGravityWerner_inRange_witness :
    initializeGravityWerner lmQ id tetraQ st0 = some tetraBuilt ∧
    (buildEdgeMap lmQ tetraQ).length = tetraQ.getNumberOfPlates * 3 / 2 ∧
    (getGravityWerner lmQ ![10, 10, 10] none tetraBuilt).isSome = true ∧
    (isInsidePolyhedron lmQ ![10, 10, 10] tetraBuilt).isSome = true :=
  ⟨initialize_tetraQ, length_buildEdgeMap_tetraQ,
    (initializeGravityWerner_inRange lmQ id tetraQ st0 (fun m => List.Perm.refl m)).2.2
      tetraBuilt initialize_tetraQ length_buildEdgeMap_tetraQ ids_tetraQ ![10, 10, 10] none⟩

end OpenMesh


/-! ## Independence from the chosen vertex -/

section Vertex

variable {K : Type} [LinearOrderedField K]

theorem Multiply3x3_add_left (A B : Mat3 K) (v : Vec3 K) :
    Multiply3x3 (A + B) v = Multiply3x3 A v + Multiply3x3 B v := by
  funext i
  fin_cases i <;> simp [Multiply3x3] <;> ring

theorem Multiply3x3_add_right (A : Mat3 K) (v w : Vec3 K) :
    Multiply3x3 A (v + w) = Multiply3x3 A v + Multiply3x3 A w := by
  funext i
  fin_cases i <;> simp [Multiply3x3] <;> ring

theorem Dot_add_left (u v w : Vec3 K) : Dot (u + v) w = Dot u w + Dot v w := by
  simp [Dot]; ring

/-- The half dyad of a side annihilates every multiple of the difference of
the positions of its endpoints. -/
theorem halfDyad_direction (lm : LibM K) (mesh : Platemodel K) (i : Nat) (a b : Int) (c : K) :
    Multiply3x3 (halfDyad lm mesh i a b)
      (fun k => c * (mesh.getPoint b k - mesh.getPoint a k)) = 0 := by
  have hu : ∃ t : K, (Normalize lm (Subtract (mesh.getPoint b) (mesh.getPoint a))).1
      = fun k => t * (mesh.getPoint b k - mesh.getPoint a k) := by
    simp only [Normalize]
    split_ifs
    · exact ⟨(Norm lm (Subtract (mesh.getPoint b) (mesh.getPoint a)))⁻¹, by
        funext k; simp only [Subtract]; rw [div_eq_inv_mul]⟩
    · exact ⟨1, by funext k; simp only [Subtract, one_mul]⟩
  obtain ⟨t, ht⟩ := hu
  simp only [halfDyad, ht]
  funext k
  fin_cases k <;> simp [Multiply3x3, Outer, Cross] <;> ring

/-- What a half dyad contributes to `d . E r`. -/
theorem Dot_halfDyad (lm : LibM K) (mesh : Platemodel K) (i : Nat) (a b : Int) (d r : Vec3 K) :
    Dot d (Multiply3x3 (halfDyad lm mesh i a b) r) =
      Dot (mesh.getNormal i) d *
        Dot (Cross (Normalize lm (Subtract (mesh.getPoint b) (mesh.getPoint a))).1
          (mesh.getNormal i)) r := by
  simp [halfDyad, Dot, Multiply3x3, Outer]
  ring

theorem Multiply3x3_sum_eq_zero (l : List (Mat3 K)) (v : Vec3 K)
    (h : ∀ M ∈ l, Multiply3x3 M v = 0) : Multiply3x3 l.sum v = 0 := by
  induction l with
  | nil => funext i; fin_cases i <;> simp [Multiply3x3]
  | cons M l ih =>
    rw [List.sum_cons, Multiply3x3_add_left, h M (List.mem_cons_self M l),
      ih (fun N hN => h N (List.mem_cons_of_mem M hN)), add_zero]

theorem Dot_sum_eq_zero (l : List (Mat3 K)) (d r : Vec3 K)
    (h : ∀ M ∈ l, Dot d (Multiply3x3 M r) = 0) : Dot d (Multiply3x3 l.sum r) = 0 := by
  induction l with
  | nil => simp [Dot, Multiply3x3]
  | cons M l ih =>
    have hadd : Dot d (Multiply3x3 M r + Multiply3x3 l.sum r)
        = Dot d (Multiply3x3 M r) + Dot d (Multiply3x3 l.sum r) := by
      simp [Dot]; ring
    rw [List.sum_cons, Multiply3x3_add_left, hadd, h M (List.mem_cons_self M l),
      ih (fun N hN => h N (List.mem_cons_of_mem M hN)), add_zero]

/-- C17: for every entry that `initializeGravityWerner` copies into the edge
list and every field point, `E r` is the same vector for the displacement of
the first and of the second endpoint, and `r . E r` is the same for both when
the normals of the plates along the edge are perpendicular to the edge. -/
theorem edge_endpoint_independent (lm : LibM K)
    (iterate : EdgeDataMap K → EdgeDataMap K) (mesh : Platemodel K) (st st' : State K)
    (hperm : ∀ m, (iterate m).Perm m)
    (h : initializeGravityWerner lm iterate mesh st = some st')
    (i : Nat) (hi : i < (buildEdgeMap lm mesh).length) (fieldPoint : Vec3 K) :
    ∃ ed, st'.edgeData[i]? = some ed ∧
      Multiply3x3 ed.E (displacement mesh fieldPoint ed.p1) =
        Multiply3x3 ed.E (displacement mesh fieldPoint ed.p2) ∧
      ((∀ s ∈ directedSides mesh, canonical s = ⟨ed.p1, ed.p2⟩ →
          Dot (mesh.getNormal s.1)
            (fun k => mesh.getPoint ed.p2 k - mesh.getPoint ed.p1 k) = 0) →
        Dot (displacement mesh fieldPoint ed.p1)
            (Multiply3x3 ed.E (displacement mesh fieldPoint ed.p1)) =
          Dot (displacement mesh fieldPoint ed.p2)
            (Multiply3x3 ed.E (displacement mesh fieldPoint ed.p2))) := by
  obtain ⟨nd, hnd, hget⟩ := built_entry lm iterate mesh st st' hperm h i hi
  refine ⟨nd.2, hget, ?_⟩
  rw [buildEdgeMap_eq] at hnd
  obtain ⟨e1, e2, e3, _⟩ := (edgePass_inv lm mesh (directedSides mesh)).2.2 nd hnd
  have hk : (⟨nd.2.p1, nd.2.p2⟩ : EdgeKey) = nd.1 := by rw [e1, e2]
  have hr2 : displacement mesh fieldPoint nd.2.p2 = displacement mesh fieldPoint nd.2.p1
      + fun k => mesh.getPoint nd.2.p2 k - mesh.getPoint nd.2.p1 k := by
    funext k
    simp only [displacement, Pi.add_apply]
    ring
  -- the dyad annihilates the edge direction
  have hdir : Multiply3x3 nd.2.E
      (fun k => mesh.getPoint nd.2.p2 k - mesh.getPoint nd.2.p1 k) = 0 := by
    rw [e3]
    apply Multiply3x3_sum_eq_zero
    intro M hM
    obtain ⟨s, hs, rfl⟩ := List.mem_map.mp hM
    have hsk : canonical s = nd.1 := by simpa using (List.mem_filter.mp hs).2
    have hp1 : nd.2.p1 = min s.2.1 s.2.2 := by rw [e1, ← hsk]; rfl
    have hp2 : nd.2.p2 = max s.2.1 s.2.2 := by rw [e2, ← hsk]; rfl
    rw [hp1, hp2]
    rcases le_total s.2.1 s.2.2 with hle | hle
    · rw [min_eq_left hle, max_eq_right hle]
      have := halfDyad_direction lm mesh s.1 s.2.1 s.2.2 1
      simpa using this
    · rw [min_eq_right hle, max_eq_left hle]
      have := halfDyad_direction lm mesh s.1 s.2.1 s.2.2 (-1)
      have he : (fun k => mesh.getPoint s.2.1 k - mesh.getPoint s.2.2 k)
          = fun k => -1 * (mesh.getPoint s.2.2 k - mesh.getPoint s.2.1 k) := by
        funext k; ring
      rw [he]
      exact this
  have hE : Multiply3x3 nd.2.E (displacement mesh fieldPoint nd.2.p2)
      = Multiply3x3 nd.2.E (displacement mesh fieldPoint nd.2.p1) := by
    rw [hr2, Multiply3x3_add_right, hdir, add_zero]
  refine ⟨hE.symm, fun hperp => ?_⟩
  rw [hE]
  conv_rhs => rw [hr2]
  rw [Dot_add_left]
  have hzero : Dot (fun k => mesh.getPoint nd.2.p2 k - mesh.getPoint nd.2.p1 k)
      (Multiply3x3 nd.2.E (displacement mesh fieldPoint nd.2.p1)) = 0 := by
    rw [e3]
    apply Dot_sum_eq_zero
    intro M hM
    obtain ⟨s, hs, rfl⟩ := List.mem_map.mp hM
    have hsk : canonical s = nd.1 := by simpa using (List.mem_filter.mp hs).2
    rw [Dot_halfDyad, hperp s (List.mem_filter.mp hs).1 (by rw [hk]; exact hsk), zero_mul]
  rw [hzero, add_zero]

/-- C18: for every plate whose normal is perpendicular to the differences of
the positions of its vertices, and every field point, the entry of the face
list built for the plate gives the same `F r` and the same `r . F r` for the
displacements of its three vertices. -/
theorem face_vertex_independent (lm : LibM K)
    (iterate : EdgeDataMap K → EdgeDataMap K) (mesh : Platemodel K) (st st' : State K)
    (h : initializeGravityWerner lm iterate mesh st = some st')
    (i : Nat) (hi : i < mesh.getNumberOfPlates) (fieldPoint : Vec3 K)
    (h12 : Dot (mesh.getNormal i) (fun k => mesh.getPoint (mesh.getPlatePoints i 1) k
      - mesh.getPoint (mesh.getPlatePoints i 0) k) = 0)
    (h13 : Dot (mesh.getNormal i) (fun k => mesh.getPoint (mesh.getPlatePoints i 2) k
      - mesh.getPoint (mesh.getPlatePoints i 0) k) = 0) :
    ∃ fd, st'.faceData[i]? = some fd ∧
      Multiply3x3 fd.F (displacement mesh fieldPoint fd.p1) =
        Multiply3x3 fd.F (displacement mesh fieldPoint fd.p2) ∧
      Multiply3x3 fd.F (displacement mesh fieldPoint fd.p1) =
        Multiply3x3 fd.F (displacement mesh fieldPoint fd.p3) ∧
      Dot (displacement mesh fieldPoint fd.p1)
          (Multiply3x3 fd.F (displacement mesh fieldPoint fd.p1)) =
        Dot (displacement mesh fieldPoint fd.p2)
          (Multiply3x3 fd.F (displacement mesh fieldPoint fd.p2)) ∧
      Dot (displacement mesh fieldPoint fd.p1)
          (Multiply3x3 fd.F (displacement mesh fieldPoint fd.p1)) =
        Dot (displacement mesh fieldPoint fd.p3)
          (Multiply3x3 fd.F (displacement mesh fieldPoint fd.p3)) := by
  obtain ⟨_, hst⟩ := initializeGravityWerner_some lm iterate mesh st st' h
  refine ⟨makeFace mesh i, ?_, ?_⟩
  · rw [hst]
    simp only [List.getElem?_map, List.getElem?_range hi, Option.map_some']
  · have hF : ∀ r : Vec3 K, Multiply3x3 (makeFace mesh i).F r
        = fun k => mesh.getNormal i k * Dot (mesh.getNormal i) r := by
      intro r
      funext k
      fin_cases k <;> simp [makeFace, Multiply3x3, Outer, Dot] <;> ring
    have hD : ∀ r : Vec3 K, Dot r (Multiply3x3 (makeFace mesh i).F r)
        = Dot (mesh.getNormal i) r * Dot (mesh.getNormal i) r := by
      intro r
      simp [makeFace, Multiply3x3, Outer, Dot]
      ring
    have e2 : Dot (mesh.getNormal i) (displacement mesh fieldPoint (makeFace mesh i).p2)
        = Dot (mesh.getNormal i) (displacement mesh fieldPoint (makeFace mesh i).p1) := by
      have : Dot (mesh.getNormal i) (displacement mesh fieldPoint (makeFace mesh i).p2)
          - Dot (mesh.getNormal i) (displacement mesh fieldPoint (makeFace mesh i).p1)
          = Dot (mesh.getNormal i) (fun k => mesh.getPoint (mesh.getPlatePoints i 1) k
            - mesh.getPoint (mesh.getPlatePoints i 0) k) := by
        simp [Dot, displacement, makeFace]
        ring
      rw [h12] at this
      exact sub_eq_zero.mp this
    have e3 : Dot (mesh.getNormal i) (displacement mesh fieldPoint (makeFace mesh i).p3)
        = Dot (mesh.getNormal i) (displacement mesh fieldPoint (makeFace mesh i).p1) := by
      have : Dot (mesh.getNormal i) (displacement mesh fieldPoint (makeFace mesh i).p3)
          - Dot (mesh.getNormal i) (displacement mesh fieldPoint (makeFace mesh i).p1)
          = Dot (mesh.getNormal i) (fun k => mesh.getPoint (mesh.getPlatePoints i 2) k
            - mesh.getPoint (mesh.getPlatePoints i 0) k) := by
        simp [Dot, displacement, makeFace]
        ring
      rw [h13] at this
      exact sub_eq_zero.mp this
    refine ⟨?_, ?_, ?_, ?_⟩
    · rw [hF, hF, e2]
    · rw [hF, hF, e3]
    · rw [hD, hD, e2]
    · rw [hD, hD, e3]

end Vertex

section VertexWitness

theorem edge_endpoint_independent_witness :
    initializeGravityWerner lmQ id tetraQ st0 = some tetraBuilt ∧
    0 < (buildEdgeMap lmQ tetraQ).length ∧
    ∃ ed, tetraBuilt.edgeData[0]? = some ed ∧
      Multiply3x3 ed.E (displacement tetraQ ![10, 10, 10] ed.p1) =
        Multiply3x3 ed.E (displacement tetraQ ![10, 10, 10] ed.p2) ∧
      ((∀ s ∈ directedSides tetraQ, canonical s = ⟨ed.p1, ed.p2⟩ →
          Dot (tetraQ.getNormal s.1)
            (fun k => tetraQ.getPoint ed.p2 k - tetraQ.getPoint ed.p1 k) = 0) →
        Dot (displacement tetraQ ![10, 10, 10] ed.p1)
            (Multiply3x3 ed.E (displacement tetraQ ![10, 10, 10] ed.p1)) =
          Dot (displacement tetraQ ![10, 10, 10] ed.p2)
            (Multiply3x3 ed.E (displacement tetraQ ![10, 10, 10] ed.p2))) :=
  ⟨initialize_tetraQ, by rw [length_buildEdgeMap_tetraQ]; decide,
    edge_endpoint_independent lmQ id tetraQ st0 tetraBuilt (fun m => List.Perm.refl m)
      initialize_tetraQ 0 (by rw [length_buildEdgeMap_tetraQ]; decide) ![10, 10, 10]⟩

theorem normal_tetraQ :
    Dot (tetraQ.getNormal 0) (fun k => tetraQ.getPoint (tetraQ.getPlatePoints 0 1) k
      - tetraQ.getPoint (tetraQ.getPlatePoints 0 0) k) = 0 ∧
    Dot (tetraQ.getNormal 0) (fun k => tetraQ.getPoint (tetraQ.getPlatePoints 0 2) k
      - tetraQ.getPoint (tetraQ.getPlatePoints 0 0) k) = 0 := by
  constructor <;> simp [Dot, tetraQ]

theorem face_vertex_independent_witness :
    initializeGravityWerner lmQ id tetraQ st0 = some tetraBuilt ∧
    0 < tetraQ.getNumberOfPlates ∧
    ∃ fd, tetraBuilt.faceData[0]? = some fd ∧
      Multiply3x3 fd.F (displacement tetraQ ![10, 10, 10] fd.p1) =
        Multiply3x3 fd.F (displacement tetraQ ![10, 10, 10] fd.p2) ∧
      Multiply3x3 fd.F (displacement tetraQ ![10, 10, 10] fd.p1) =
        Multiply3x3 fd.F (displacement tetraQ ![10, 10, 10] fd.p3) ∧
      Dot (displacement tetraQ ![10, 10, 10] fd.p1)
          (Multiply3x3 fd.F (displacement tetraQ ![10, 10, 10] fd.p1)) =
        Dot (displacement tetraQ ![10, 10, 10] fd.p2)
          (Multiply3x3 fd.F (displacement tetraQ ![10, 10, 10] fd.p2)) ∧
      Dot (displacement tetraQ ![10, 10, 10] fd.p1)
          (Multiply3x3 fd.F (displacement tetraQ ![10, 10, 10] fd.p1)) =
        Dot (displacement tetraQ ![10, 10, 10] fd.p3)
          (Multiply3x3 fd.F (displacement tetraQ ![10, 10, 10] fd.p3)) :=
  ⟨initialize_tetraQ, by decide,
    face_vertex_independent lmQ id tetraQ st0 tetraBuilt initialize_tetraQ 0 (by decide)
      ![10, 10, 10] normal_tetraQ.1 normal_tetraQ.2⟩

end VertexWitness


/-! ## The logarithm term on the line of an edge (real arithmetic) -/

section EdgeLine

/-- The cache entry of a vertex: its displacement and the norm of it. -/
theorem readAt_displacements_eq {K : Type} [LinearOrderedField K] (lm : LibM K)
    (mesh : Platemodel K) (fieldPoint : Vec3 K) (p : Int) (pd : PointData K)
    (h : readAt (displacements lm mesh fieldPoint) p = some pd) :
    pd = ⟨displacement mesh fieldPoint p, Norm lm (displacement mesh fieldPoint p)⟩ := by
  unfold readAt at h
  split_ifs at h with hp
  unfold displacements at h
  rw [List.getElem?_map] at h
  cases hr : (List.range mesh.getNumberOfPoints)[p.toNat]? with
  | none => rw [hr] at h; simp at h
  | some i =>
    rw [hr] at h
    have hi : i = p.toNat := by
      obtain ⟨hlt, heq⟩ := List.getElem?_eq_some_iff.mp hr
      simp at heq
      exact heq.symm
    simp only [Option.map_some', Option.some.injEq] at h
    rw [← h, hi, Int.toNat_of_nonneg hp]
    rfl

/-- With the real square root, the norm of a multiple of a vector. -/
theorem Norm_smul_real (lm : LibM ℝ) (hsqrt : lm.sqrt = Real.sqrt) (c : ℝ) (d : Vec3 ℝ) :
    Norm lm (fun k => c * d k) = |c| * Norm lm d := by
  simp only [Norm, hsqrt]
  have h : c * d 0 * (c * d 0) + c * d 1 * (c * d 1) + c * d 2 * (c * d 2)
      = c ^ 2 * (d 0 * d 0 + d 1 * d 1 + d 2 * d 2) := by ring
  rw [h, Real.sqrt_mul (sq_nonneg c), Real.sqrt_sq_eq_abs]

theorem Norm_nonneg_real (lm : LibM ℝ) (hsqrt : lm.sqrt = Real.sqrt) (d : Vec3 ℝ) :
    0 ≤ Norm lm d := by
  simp only [Norm, hsqrt]
  exact Real.sqrt_nonneg _

/-- The two cached magnitudes of the endpoints of an edge seen from the point
`P(p1) + t (P(p2) - P(p1))` of its line, in terms of the distance between the
endpoints. -/
theorem magnitudes_on_line (lm : LibM ℝ) (hsqrt : lm.sqrt = Real.sqrt) (mesh : Platemodel ℝ)
    (p1 p2 : Int) (t : ℝ) (pd1 pd2 : PointData ℝ)
    (h1 : readAt (displacements lm mesh
      (fun k => mesh.getPoint p1 k + t * (mesh.getPoint p2 k - mesh.getPoint p1 k))) p1
        = some pd1)
    (h2 : readAt (displacements lm mesh
      (fun k => mesh.getPoint p1 k + t * (mesh.getPoint p2 k - mesh.getPoint p1 k))) p2
        = some pd2) :
    pd1.r_mag = |t| * Norm lm (Subtract (mesh.getPoint p2) (mesh.getPoint p1)) ∧
    pd2.r_mag = |1 - t| * Norm lm (Subtract (mesh.getPoint p2) (mesh.getPoint p1)) := by
  rw [readAt_displacements_eq lm mesh _ p1 pd1 h1, readAt_displacements_eq lm mesh _ p2 pd2 h2]
  simp only
  have e1 : displacement mesh
      (fun k => mesh.getPoint p1 k + t * (mesh.getPoint p2 k - mesh.getPoint p1 k)) p1
      = fun k => (-t) * Subtract (mesh.getPoint p2) (mesh.getPoint p1) k := by
    funext k; simp only [displacement, Subtract]; ring
  have e2 : displacement mesh
      (fun k => mesh.getPoint p1 k + t * (mesh.getPoint p2 k - mesh.getPoint p1 k)) p2
      = fun k => (1 - t) * Subtract (mesh.getPoint p2) (mesh.getPoint p1) k := by
    funext k; simp only [displacement, Subtract]; ring
  rw [e1, e2, Norm_smul_real lm hsqrt, Norm_smul_real lm hsqrt, abs_neg]
  exact ⟨rfl, rfl⟩

/-- The value of `compute_Le` on two cached endpoints. -/
theorem compute_Le_eq {K : Type} [LinearOrderedField K] (lm : LibM K)
    (pointData : List (PointData K)) (ed : EdgeData K) (pd1 pd2 : PointData K)
    (h1 : readAt pointData ed.p1 = some pd1) (h2 : readAt pointData ed.p2 = some pd2) :
    compute_Le lm pointData ed =
      some (if |pd1.r_mag + pd2.r_mag - ed.edgeLength| < 1 / 1000000000 then 0
        else lm.log ((pd1.r_mag + pd2.r_mag + ed.edgeLength) /
          (pd1.r_mag + pd2.r_mag - ed.edgeLength))) := by
  simp only [compute_Le, h1, h2, Abs_eq_abs, tol_eq, Option.bind_eq_bind, Option.some_bind]
  split_ifs <;> rfl

/-- C19 as amended: in exact real arithmetic (the square root is the real
square root), for an edge whose stored length is the distance between its
endpoints and a field point `P(p1) + t (P(p2) - P(p1))`, `0 ≤ t ≤ 1`, of the
closed segment between them (the endpoints included), `compute_Le` returns
`0` and the body of the edge loop leaves the potential and the acceleration
as they were. -/
theorem compute_Le_on_segment (lm : LibM ℝ) (hsqrt : lm.sqrt = Real.sqrt)
    (mesh : Platemodel ℝ) (ed : EdgeData ℝ) (t : ℝ) (s : ℝ × Option (Vec3 ℝ))
    (hp1 : 0 ≤ ed.p1 ∧ ed.p1 < (mesh.getNumberOfPoints : Int))
    (hp2 : 0 ≤ ed.p2 ∧ ed.p2 < (mesh.getNumberOfPoints : Int))
    (hL : ed.edgeLength = Norm lm (Subtract (mesh.getPoint ed.p2) (mesh.getPoint ed.p1)))
    (ht0 : 0 ≤ t) (ht1 : t ≤ 1) :
    compute_Le lm (displacements lm mesh
      (fun k => mesh.getPoint ed.p1 k + t * (mesh.getPoint ed.p2 k - mesh.getPoint ed.p1 k)))
      ed = some 0 ∧
    edgeBody lm (displacements lm mesh
      (fun k => mesh.getPoint ed.p1 k + t * (mesh.getPoint ed.p2 k - mesh.getPoint ed.p1 k)))
      s ed = some s := by
  obtain ⟨pd1, h1⟩ := readAt_displacements_some lm mesh
    (fun k => mesh.getPoint ed.p1 k + t * (mesh.getPoint ed.p2 k - mesh.getPoint ed.p1 k))
    ed.p1 hp1.1 hp1.2
  obtain ⟨pd2, h2⟩ := readAt_displacements_some lm mesh
    (fun k => mesh.getPoint ed.p1 k + t * (mesh.getPoint ed.p2 k - mesh.getPoint ed.p1 k))
    ed.p2 hp2.1 hp2.2
  obtain ⟨m1, m2⟩ := magnitudes_on_line lm hsqrt mesh ed.p1 ed.p2 t pd1 pd2 h1 h2
  have hzero : pd1.r_mag + pd2.r_mag - ed.edgeLength = 0 := by
    rw [m1, m2, hL, abs_of_nonneg ht0, abs_of_nonneg (by linarith : (0 : ℝ) ≤ 1 - t)]
    ring
  have hLe : compute_Le lm (displacements lm mesh
      (fun k => mesh.getPoint ed.p1 k + t * (mesh.getPoint ed.p2 k - mesh.getPoint ed.p1 k)))
      ed = some 0 := by
    rw [compute_Le_eq lm _ ed pd1 pd2 h1 h2, hzero, abs_zero, if_pos (by norm_num)]
  refine ⟨hLe, ?_⟩
  simp only [edgeBody, h1, hLe, Option.bind_eq_bind, Option.some_bind, Option.pure_def,
    mul_zero, sub_zero]
  obtain ⟨s1, s2⟩ := s
  cases s2 with
  | none => rfl
  | some a =>
    simp only [Option.map_some']
    have ha : ![a 0, a 1, a 2] = a := by
      funext k
      fin_cases k <;> rfl
    rw [ha]

/-- C16: for an edge whose stored length is the distance between its
endpoints and a field point `P(p1) + t (P(p2) - P(p1))` of its line outside
the segment (`t < 0` or `1 < t`), `compute_Le` returns a value, with
`r1 + r2 - L = 2 * min r1 r2`: the value is `0` when this is below `1e-9`, and
otherwise the logarithm of `(r1 + r2 + L) / (r1 + r2 - L)`, whose divisor is
at least `1e-9` and whose argument is at least `1`. -/
theorem compute_Le_on_line (lm : LibM ℝ) (hsqrt : lm.sqrt = Real.sqrt)
    (mesh : Platemodel ℝ) (ed : EdgeData ℝ) (t : ℝ)
    (hp1 : 0 ≤ ed.p1 ∧ ed.p1 < (mesh.getNumberOfPoints : Int))
    (hp2 : 0 ≤ ed.p2 ∧ ed.p2 < (mesh.getNumberOfPoints : Int))
    (hL : ed.edgeLength = Norm lm (Subtract (mesh.getPoint ed.p2) (mesh.getPoint ed.p1)))
    (ht : t < 0 ∨ 1 < t) :
    ∃ r1 r2 v : ℝ,
      r1 = Norm lm (displacement mesh
        (fun k => mesh.getPoint ed.p1 k + t * (mesh.getPoint ed.p2 k - mesh.getPoint ed.p1 k))
        ed.p1) ∧
      r2 = Norm lm (displacement mesh
        (fun k => mesh.getPoint ed.p1 k + t * (mesh.getPoint ed.p2 k - mesh.getPoint ed.p1 k))
        ed.p2) ∧
      compute_Le lm (displacements lm mesh
        (fun k => mesh.getPoint ed.p1 k + t * (mesh.getPoint ed.p2 k - mesh.getPoint ed.p1 k)))
        ed = some v ∧
      r1 + r2 - ed.edgeLength = 2 * min r1 r2 ∧
      (2 * min r1 r2 < 1 / 1000000000 → v = 0) ∧
      (1 / 1000000000 ≤ 2 * min r1 r2 →
        v = lm.log ((r1 + r2 + ed.edgeLength) / (r1 + r2 - ed.edgeLength)) ∧
        1 / 1000000000 ≤ r1 + r2 - ed.edgeLength ∧
        1 ≤ (r1 + r2 + ed.edgeLength) / (r1 + r2 - ed.edgeLength)) := by
  obtain ⟨pd1, h1⟩ := readAt_displacements_some lm mesh
    (fun k => mesh.getPoint ed.p1 k + t * (mesh.getPoint ed.p2 k - mesh.getPoint ed.p1 k))
    ed.p1 hp1.1 hp1.2
  obtain ⟨pd2, h2⟩ := readAt_displacements_some lm mesh
    (fun k => mesh.getPoint ed.p1 k + t * (mesh.getPoint ed.p2 k - mesh.getPoint ed.p1 k))
    ed.p2 hp2.1 hp2.2
  obtain ⟨m1, m2⟩ := magnitudes_on_line lm hsqrt mesh ed.p1 ed.p2 t pd1 pd2 h1 h2
  have hr1 : pd1.r_mag = Norm lm (displacement mesh
      (fun k => mesh.getPoint ed.p1 k + t * (mesh.getPoint ed.p2 k - mesh.getPoint ed.p1 k))
      ed.p1) := by rw [readAt_displacements_eq lm mesh _ ed.p1 pd1 h1]
  have hr2 : pd2.r_mag = Norm lm (displacement mesh
      (fun k => mesh.getPoint ed.p1 k + t * (mesh.getPoint ed.p2 k - mesh.getPoint ed.p1 k))
      ed.p2) := by rw [readAt_displacements_eq lm mesh _ ed.p2 pd2 h2]
  have hL0 : 0 ≤ ed.edgeLength := by rw [hL]; exact Norm_nonneg_real lm hsqrt _
  rw [← hL] at m1 m2
  have hmin : pd1.r_mag + pd2.r_mag - ed.edgeLength = 2 * min pd1.r_mag pd2.r_mag := by
    rcases ht with ht | ht
    · rw [abs_of_neg ht] at m1
      rw [abs_of_pos (by linarith : (0 : ℝ) < 1 - t)] at m2
      have hle : pd1.r_mag ≤ pd2.r_mag := by
        rw [m1, m2]; nlinarith
      rw [min_eq_left hle, m1, m2]
      ring
    · rw [abs_of_pos (by linarith : (0 : ℝ) < t)] at m1
      rw [abs_of_neg (by linarith : 1 - t < 0)] at m2
      have hle : pd2.r_mag ≤ pd1.r_mag := by
        rw [m1, m2]; nlinarith
      rw [min_eq_right hle, m1, m2]
      ring
  have hmin0 : 0 ≤ 2 * min pd1.r_mag pd2.r_mag := by
    have a1 : 0 ≤ pd1.r_mag := by rw [hr1]; exact Norm_nonneg_real lm hsqrt _
    have a2 : 0 ≤ pd2.r_mag := by rw [hr2]; exact Norm_nonneg_real lm hsqrt _
    have := le_min a1 a2
    linarith
  refine ⟨pd1.r_mag, pd2.r_mag, _, hr1, hr2, compute_Le_eq lm _ ed pd1 pd2 h1 h2, hmin, ?_, ?_⟩
  · intro hlt
    rw [hmin, abs_of_nonneg hmin0, if_pos hlt]
  · intro hge
    rw [hmin, abs_of_nonneg hmin0, if_neg (not_lt.mpr hge)]
    refine ⟨rfl, hge, ?_⟩
    rw [← hmin, le_div_iff₀ (by rw [hmin]; linarith)]
    linarith

end EdgeLine

section EdgeLineWitness

theorem compute_Le_on_segment_witness :
    ∃ lm : LibM ℝ, lm.sqrt = Real.sqrt ∧
      compute_Le lm (displacements lm (tetra ℝ 1 ![1, 1, 1])
        (fun k => (tetra ℝ 1 ![1, 1, 1]).getPoint (edge01 lm (tetra ℝ 1 ![1, 1, 1])).p1 k
          + 1 / 2 * ((tetra ℝ 1 ![1, 1, 1]).getPoint (edge01 lm (tetra ℝ 1 ![1, 1, 1])).p2 k
            - (tetra ℝ 1 ![1, 1, 1]).getPoint (edge01 lm (tetra ℝ 1 ![1, 1, 1])).p1 k)))
        (edge01 lm (tetra ℝ 1 ![1, 1, 1])) = some 0 ∧
      edgeBody lm (displacements lm (tetra ℝ 1 ![1, 1, 1])
        (fun k => (tetra ℝ 1 ![1, 1, 1]).getPoint (edge01 lm (tetra ℝ 1 ![1, 1, 1])).p1 k
          + 1 / 2 * ((tetra ℝ 1 ![1, 1, 1]).getPoint (edge01 lm (tetra ℝ 1 ![1, 1, 1])).p2 k
            - (tetra ℝ 1 ![1, 1, 1]).getPoint (edge01 lm (tetra ℝ 1 ![1, 1, 1])).p1 k)))
        (5, none) (edge01 lm (tetra ℝ 1 ![1, 1, 1])) = some (5, none) :=
  ⟨⟨Real.sqrt, Real.log, fun y x => Complex.arg ⟨x, y⟩,
      fun x => if x < 0 then -Real.pi else 0, Real.pi⟩, rfl,
    compute_Le_on_segment _ rfl (tetra ℝ 1 ![1, 1, 1]) _ (1 / 2) (5, none)
      ⟨le_refl _, by decide⟩ ⟨by decide, by decide⟩ rfl (by norm_num) (by norm_num)⟩

theorem compute_Le_on_line_witness :
    ∃ lm : LibM ℝ, lm.sqrt = Real.sqrt ∧
      ∃ r1 r2 v : ℝ,
        r1 = Norm lm (displacement (tetra ℝ 1 ![1, 1, 1])
          (fun k => (tetra ℝ 1 ![1, 1, 1]).getPoint (edge01 lm (tetra ℝ 1 ![1, 1, 1])).p1 k
            + 2 * ((tetra ℝ 1 ![1, 1, 1]).getPoint (edge01 lm (tetra ℝ 1 ![1, 1, 1])).p2 k
              - (tetra ℝ 1 ![1, 1, 1]).getPoint (edge01 lm (tetra ℝ 1 ![1, 1, 1])).p1 k))
          (edge01 lm (tetra ℝ 1 ![1, 1, 1])).p1) ∧
        r2 = Norm lm (displacement (tetra ℝ 1 ![1, 1, 1])
          (fun k => (tetra ℝ 1 ![1, 1, 1]).getPoint (edge01 lm (tetra ℝ 1 ![1, 1, 1])).p1 k
            + 2 * ((tetra ℝ 1 ![1, 1, 1]).getPoint (edge01 lm (tetra ℝ 1 ![1, 1, 1])).p2 k
              - (tetra ℝ 1 ![1, 1, 1]).getPoint (edge01 lm (tetra ℝ 1 ![1, 1, 1])).p1 k))
          (edge01 lm (tetra ℝ 1 ![1, 1, 1])).p2) ∧
        compute_Le lm (displacements lm (tetra ℝ 1 ![1, 1, 1])
          (fun k => (tetra ℝ 1 ![1, 1, 1]).getPoint (edge01 lm (tetra ℝ 1 ![1, 1, 1])).p1 k
            + 2 * ((tetra ℝ 1 ![1, 1, 1]).getPoint (edge01 lm (tetra ℝ 1 ![1, 1, 1])).p2 k
              - (tetra ℝ 1 ![1, 1, 1]).getPoint (edge01 lm (tetra ℝ 1 ![1, 1, 1])).p1 k)))
          (edge01 lm (tetra ℝ 1 ![1, 1, 1])) = some v ∧
        r1 + r2 - (edge01 lm (tetra ℝ 1 ![1, 1, 1])).edgeLength = 2 * min r1 r2 ∧
        (2 * min r1 r2 < 1 / 1000000000 → v = 0) ∧
        (1 / 1000000000 ≤ 2 * min r1 r2 →
          v = lm.log ((r1 + r2 + (edge01 lm (tetra ℝ 1 ![1, 1, 1])).edgeLength) /
            (r1 + r2 - (edge01 lm (tetra ℝ 1 ![1, 1, 1])).edgeLength)) ∧
          1 / 1000000000 ≤ r1 + r2 - (edge01 lm (tetra ℝ 1 ![1, 1, 1])).edgeLength ∧
          1 ≤ (r1 + r2 + (edge01 lm (tetra ℝ 1 ![1, 1, 1])).edgeLength) /
            (r1 + r2 - (edge01 lm (tetra ℝ 1 ![1, 1, 1])).edgeLength)) :=
  ⟨⟨Real.sqrt, Real.log, fun y x => Complex.arg ⟨x, y⟩,
      fun x => if x < 0 then -Real.pi else 0, Real.pi⟩, rfl,
    compute_Le_on_line _ rfl (tetra ℝ 1 ![1, 1, 1]) _ 2
      ⟨le_refl _, by decide⟩ ⟨by decide, by decide⟩ rfl (Or.inr (by norm_num))⟩

end EdgeLineWitness

/-! ## The numerator replaced by negative zero -/

section NegativeZero

variable {K : Type} [LinearOrderedField K]

/-- C20: when `|r1 . (r2 x r3)| < 1e-9`, `compute_wf` returns
`2 * atan2(-0.0, denominator)`; with the values the C library gives `atan2`
at a negative zero (`-0.0` for a denominator that is not negative, `-M_PI` for
a negative one) this is `0` when the denominator is positive and `-2 M_PI`
when it is negative, and it is never `+2 M_PI`. -/
theorem compute_wf_negative_zero (lm : LibM K) (pointData : List (PointData K))
    (fd : FaceData K) (pd1 pd2 pd3 : PointData K)
    (h1 : readAt pointData fd.p1 = some pd1) (h2 : readAt pointData fd.p2 = some pd2)
    (h3 : readAt pointData fd.p3 = some pd3)
    (hneg : ∀ x, lm.atan2NegZero x = if x < 0 then -lm.M_PI else 0)
    (hpi : 0 < lm.M_PI)
    (hsmall : |Matrix.dotProduct pd1.r (crossProduct pd2.r pd3.r)| < 1 / 1000000000) :
    compute_wf lm pointData fd =
      some (2 * lm.atan2NegZero
        (pd1.r_mag * pd2.r_mag * pd3.r_mag + pd1.r_mag * Matrix.dotProduct pd2.r pd3.r
          + pd2.r_mag * Matrix.dotProduct pd3.r pd1.r
          + pd3.r_mag * Matrix.dotProduct pd1.r pd2.r)) ∧
    (0 < pd1.r_mag * pd2.r_mag * pd3.r_mag + pd1.r_mag * Matrix.dotProduct pd2.r pd3.r
        + pd2.r_mag * Matrix.dotProduct pd3.r pd1.r
        + pd3.r_mag * Matrix.dotProduct pd1.r pd2.r →
      compute_wf lm pointData fd = some 0) ∧
    (pd1.r_mag * pd2.r_mag * pd3.r_mag + pd1.r_mag * Matrix.dotProduct pd2.r pd3.r
        + pd2.r_mag * Matrix.dotProduct pd3.r pd1.r
        + pd3.r_mag * Matrix.dotProduct pd1.r pd2.r < 0 →
      compute_wf lm pointData fd = some (-(2 * lm.M_PI))) ∧
    compute_wf lm pointData fd ≠ some (2 * lm.M_PI) := by
  have h := compute_wf_eq lm pointData fd pd1 pd2 pd3 h1 h2 h3
  rw [if_pos hsmall] at h
  refine ⟨h, fun hpos => ?_, fun hlt => ?_, ?_⟩
  · rw [h, hneg, if_neg (not_lt.mpr hpos.le), mul_zero]
  · rw [h, hneg, if_pos hlt, mul_neg]
  · rw [h, hneg]
    intro hc
    have hc2 := Option.some.inj hc
    split_ifs at hc2 <;> linarith

theorem compute_wf_negative_zero_witness :
    readAt ptsQ fdFlatQ.p1 = some ⟨![3, 0, 0], 3⟩ ∧
    readAt ptsQ fdFlatQ.p2 = some ⟨![3, 0, 0], 3⟩ ∧
    readAt ptsQ fdFlatQ.p3 = some ⟨![0, 4, 0], 4⟩ ∧
    (∀ x, lmQ.atan2NegZero x = if x < 0 then -lmQ.M_PI else 0) ∧ 0 < lmQ.M_PI ∧
    |Matrix.dotProduct ![(3 : ℚ), 0, 0] (crossProduct ![3, 0, 0] ![0, 4, 0])|
      < 1 / 1000000000 ∧
    compute_wf lmQ ptsQ fdFlatQ = some 0 := by
  have hsmall : |Matrix.dotProduct ![(3 : ℚ), 0, 0] (crossProduct ![3, 0, 0] ![0, 4, 0])|
      < 1 / 1000000000 := by
    norm_num [cross_apply, Matrix.dotProduct, Fin.sum_univ_three]
  refine ⟨rfl, rfl, rfl, fun x => rfl, by norm_num [lmQ], hsmall, ?_⟩
  exact (compute_wf_negative_zero lmQ ptsQ fdFlatQ ⟨![3, 0, 0], 3⟩ ⟨![3, 0, 0], 3⟩
    ⟨![0, 4, 0], 4⟩ rfl rfl rfl (fun x => rfl) (by norm_num [lmQ]) hsmall).2.1
    (by norm_num [Matrix.dotProduct, Fin.sum_univ_three])

end NegativeZero


/-! ## The unit tetrahedron (real arithmetic) -/

section RealArg

/-- For a positive real part the argument is the arc tangent of the quotient. -/
theorem arg_eq_arctan (x y : ℝ) (hx : 0 < x) :
    Complex.arg ⟨x, y⟩ = Real.arctan (y / x) := by
  have habs : |Complex.arg ⟨x, y⟩| < Real.pi / 2 :=
    Complex.abs_arg_lt_pi_div_two_iff.mpr (Or.inl hx)
  have h := Real.arctan_tan (abs_lt.mp habs).1 (abs_lt.mp habs).2
  rw [Complex.tan_arg] at h
  exact h.symm

theorem arg_ge_quarter (x y : ℝ) (hx : 0 < x) (hxy : x ≤ y) :
    Real.pi / 4 ≤ Complex.arg ⟨x, y⟩ := by
  rw [arg_eq_arctan x y hx, ← Real.arctan_one]
  exact Real.arctan_strictMono.monotone ((one_le_div hx).mpr hxy)

theorem arg_le_quarter (x y : ℝ) (hx : 0 < x) (hxy : y ≤ x) :
    Complex.arg ⟨x, y⟩ ≤ Real.pi / 4 := by
  rw [arg_eq_arctan x y hx, ← Real.arctan_one]
  exact Real.arctan_strictMono.monotone ((div_le_one hx).mpr hxy)

theorem arg_gt_half (x y : ℝ) (hx : x < 0) (hy : 0 < y) :
    Real.pi / 2 < Complex.arg ⟨x, y⟩ := by
  by_contra hc
  rcases Complex.arg_le_pi_div_two_iff.mp (not_lt.mp hc) with h | h
  · exact absurd hx (not_lt.mpr h)
  · exact absurd hy (not_lt.mpr h.le)

theorem arg_neg_of_im_neg (x y : ℝ) (hy : y < 0) : Complex.arg ⟨x, y⟩ < 0 :=
  Complex.arg_neg_iff.mpr hy

end RealArg

section UnitTetra

theorem displacements_tetra_centroid (lm : LibM ℝ) (n : Vec3 ℝ) :
    displacements lm (tetra ℝ 1 n) ![1 / 4, 1 / 4, 1 / 4] =
      [⟨![-1 / 4, -1 / 4, -1 / 4], lm.sqrt (3 / 16)⟩,
        ⟨![3 / 4, -1 / 4, -1 / 4], lm.sqrt (11 / 16)⟩,
        ⟨![-1 / 4, 3 / 4, -1 / 4], lm.sqrt (11 / 16)⟩,
        ⟨![-1 / 4, -1 / 4, 3 / 4], lm.sqrt (11 / 16)⟩] := by
  simp only [displacements, tetra, List.range_succ, List.range_zero, List.nil_append,
    List.cons_append, List.map_cons, List.map_nil]
  simp only [List.cons.injEq, PointData.mk.injEq, and_true]
  refine ⟨⟨?_, ?_⟩, ⟨?_, ?_⟩, ⟨?_, ?_⟩, ⟨?_, ?_⟩⟩
  all_goals first
    | (funext c; fin_cases c <;> simp <;> norm_num)
    | (congr 1; simp; norm_num)

theorem displacements_tetra_far (lm : LibM ℝ) (n : Vec3 ℝ) :
    displacements lm (tetra ℝ 1 n) ![10, 10, 10] =
      [⟨![-10, -10, -10], lm.sqrt 300⟩, ⟨![-9, -10, -10], lm.sqrt 281⟩,
        ⟨![-10, -9, -10], lm.sqrt 281⟩, ⟨![-10, -10, -9], lm.sqrt 281⟩] := by
  simp only [displacements, tetra, List.range_succ, List.range_zero, List.nil_append,
    List.cons_append, List.map_cons, List.map_nil]
  simp only [List.cons.injEq, PointData.mk.injEq, and_true]
  refine ⟨⟨?_, ?_⟩, ⟨?_, ?_⟩, ⟨?_, ?_⟩, ⟨?_, ?_⟩⟩
  all_goals first
    | (funext c; fin_cases c <;> simp <;> norm_num)
    | (congr 1; simp; norm_num)


theorem faces_tetra (a : ℝ) (n : Vec3 ℝ) :
    (List.range 4).map (makeFace (tetra ℝ a n)) =
      [⟨Outer ![0, 0, -1] ![0, 0, -1], 0, 2, 1⟩, ⟨Outer ![0, -1, 0] ![0, -1, 0], 0, 1, 3⟩,
        ⟨Outer ![-1, 0, 0] ![-1, 0, 0], 0, 3, 2⟩, ⟨Outer n n, 1, 2, 3⟩] := by
  simp only [List.range_succ, List.range_zero, List.nil_append, List.cons_append,
    List.map_cons, List.map_nil]
  rfl

theorem wf_centroid_0 (lm : LibM ℝ) (F : Mat3 ℝ) :
    compute_wf lm [⟨![-1 / 4, -1 / 4, -1 / 4], lm.sqrt (3 / 16)⟩,
        ⟨![3 / 4, -1 / 4, -1 / 4], lm.sqrt (11 / 16)⟩,
        ⟨![-1 / 4, 3 / 4, -1 / 4], lm.sqrt (11 / 16)⟩,
        ⟨![-1 / 4, -1 / 4, 3 / 4], lm.sqrt (11 / 16)⟩] ⟨F, 0, 2, 1⟩ =
      some (2 * lm.atan2 (1 / 4) (lm.sqrt (3 / 16) * (lm.sqrt (11 / 16) * lm.sqrt (11 / 16))
          - 5 / 16 * lm.sqrt (3 / 16) - 1 / 8 * lm.sqrt (11 / 16))) := by
  rw [compute_wf_eq lm [⟨![-1 / 4, -1 / 4, -1 / 4], lm.sqrt (3 / 16)⟩,
        ⟨![3 / 4, -1 / 4, -1 / 4], lm.sqrt (11 / 16)⟩,
        ⟨![-1 / 4, 3 / 4, -1 / 4], lm.sqrt (11 / 16)⟩,
        ⟨![-1 / 4, -1 / 4, 3 / 4], lm.sqrt (11 / 16)⟩]
    ⟨F, 0, 2, 1⟩ ⟨![-1 / 4, -1 / 4, -1 / 4], lm.sqrt (3 / 16)⟩
    ⟨![-1 / 4, 3 / 4, -1 / 4], lm.sqrt (11 / 16)⟩ ⟨![3 / 4, -1 / 4, -1 / 4], lm.sqrt (11 / 16)⟩ rfl rfl rfl]
  norm_num [cross_apply, Matrix.dotProduct, Fin.sum_univ_three, abs_lt]
  congr 1
  ring

theorem wf_centroid_1 (lm : LibM ℝ) (F : Mat3 ℝ) :
    compute_wf lm [⟨![-1 / 4, -1 / 4, -1 / 4], lm.sqrt (3 / 16)⟩,
        ⟨![3 / 4, -1 / 4, -1 / 4], lm.sqrt (11 / 16)⟩,
        ⟨![-1 / 4, 3 / 4, -1 / 4], lm.sqrt (11 / 16)⟩,
        ⟨![-1 / 4, -1 / 4, 3 / 4], lm.sqrt (11 / 16)⟩] ⟨F, 0, 1, 3⟩ =
      some (2 * lm.atan2 (1 / 4) (lm.sqrt (3 / 16) * (lm.sqrt (11 / 16) * lm.sqrt (11 / 16))
          - 5 / 16 * lm.sqrt (3 / 16) - 1 / 8 * lm.sqrt (11 / 16))) := by
  rw [compute_wf_eq lm [⟨![-1 / 4, -1 / 4, -1 / 4], lm.sqrt (3 / 16)⟩,
        ⟨![3 / 4, -1 / 4, -1 / 4], lm.sqrt (11 / 16)⟩,
        ⟨![-1 / 4, 3 / 4, -1 / 4], lm.sqrt (11 / 16)⟩,
        ⟨![-1 / 4, -1 / 4, 3 / 4], lm.sqrt (11 / 16)⟩]
    ⟨F, 0, 1, 3⟩ ⟨![-1 / 4, -1 / 4, -1 / 4], lm.sqrt (3 / 16)⟩
    ⟨![3 / 4, -1 / 4, -1 / 4], lm.sqrt (11 / 16)⟩ ⟨![-1 / 4, -1 / 4, 3 / 4], lm.sqrt (11 / 16)⟩ rfl rfl rfl]
  norm_num [cross_apply, Matrix.dotProduct, Fin.sum_univ_three, abs_lt]
  congr 1
  ring

theorem wf_centroid_2 (lm : LibM ℝ) (F : Mat3 ℝ) :
    compute_wf lm [⟨![-1 / 4, -1 / 4, -1 / 4], lm.sqrt (3 / 16)⟩,
        ⟨![3 / 4, -1 / 4, -1 / 4], lm.sqrt (11 / 16)⟩,
        ⟨![-1 / 4, 3 / 4, -1 / 4], lm.sqrt (11 / 16)⟩,
        ⟨![-1 / 4, -1 / 4, 3 / 4], lm.sqrt (11 / 16)⟩] ⟨F, 0, 3, 2⟩ =
      some (2 * lm.atan2 (1 / 4) (lm.sqrt (3 / 16) * (lm.sqrt (11 / 16) * lm.sqrt (11 / 16))
          - 5 / 16 * lm.sqrt (3 / 16) - 1 / 8 * lm.sqrt (11 / 16))) := by
  rw [compute_wf_eq lm [⟨![-1 / 4, -1 / 4, -1 / 4], lm.sqrt (3 / 16)⟩,
        ⟨![3 / 4, -1 / 4, -1 / 4], lm.sqrt (11 / 16)⟩,
        ⟨![-1 / 4, 3 / 4, -1 / 4], lm.sqrt (11 / 16)⟩,
        ⟨![-1 / 4, -1 / 4, 3 / 4], lm.sqrt (11 / 16)⟩]
    ⟨F, 0, 3, 2⟩ ⟨![-1 / 4, -1 / 4, -1 / 4], lm.sqrt (3 / 16)⟩
    ⟨![-1 / 4, -1 / 4, 3 / 4], lm.sqrt (11 / 16)⟩ ⟨![-1 / 4, 3 / 4, -1 / 4], lm.sqrt (11 / 16)⟩ rfl rfl rfl]
  norm_num [cross_apply, Matrix.dotProduct, Fin.sum_univ_three, abs_lt]
  congr 1
  ring

theorem wf_centroid_3 (lm : LibM ℝ) (F : Mat3 ℝ) :
    compute_wf lm [⟨![-1 / 4, -1 / 4, -1 / 4], lm.sqrt (3 / 16)⟩,
        ⟨![3 / 4, -1 / 4, -1 / 4], lm.sqrt (11 / 16)⟩,
        ⟨![-1 / 4, 3 / 4, -1 / 4], lm.sqrt (11 / 16)⟩,
        ⟨![-1 / 4, -1 / 4, 3 / 4], lm.sqrt (11 / 16)⟩] ⟨F, 1, 2, 3⟩ =
      some (2 * lm.atan2 (1 / 4) (lm.sqrt (11 / 16) * (lm.sqrt (11 / 16) * lm.sqrt (11 / 16))
          - 15 / 16 * lm.sqrt (11 / 16))) := by
  rw [compute_wf_eq lm [⟨![-1 / 4, -1 / 4, -1 / 4], lm.sqrt (3 / 16)⟩,
        ⟨![3 / 4, -1 / 4, -1 / 4], lm.sqrt (11 / 16)⟩,
        ⟨![-1 / 4, 3 / 4, -1 / 4], lm.sqrt (11 / 16)⟩,
        ⟨![-1 / 4, -1 / 4, 3 / 4], lm.sqrt (11 / 16)⟩]
    ⟨F, 1, 2, 3⟩ ⟨![3 / 4, -1 / 4, -1 / 4], lm.sqrt (11 / 16)⟩
    ⟨![-1 / 4, 3 / 4, -1 / 4], lm.sqrt (11 / 16)⟩ ⟨![-1 / 4, -1 / 4, 3 / 4], lm.sqrt (11 / 16)⟩ rfl rfl rfl]
  norm_num [cross_apply, Matrix.dotProduct, Fin.sum_univ_three, abs_lt]
  congr 1
  ring

theorem wf_far_0 (lm : LibM ℝ) (F : Mat3 ℝ) :
    compute_wf lm [⟨![-10, -10, -10], lm.sqrt 300⟩,
        ⟨![-9, -10, -10], lm.sqrt 281⟩,
        ⟨![-10, -9, -10], lm.sqrt 281⟩,
        ⟨![-10, -10, -9], lm.sqrt 281⟩] ⟨F, 0, 2, 1⟩ =
      some (2 * lm.atan2 10 (lm.sqrt 300 * (lm.sqrt 281 * lm.sqrt 281)
          + 280 * lm.sqrt 300 + 580 * lm.sqrt 281)) := by
  rw [compute_wf_eq lm [⟨![-10, -10, -10], lm.sqrt 300⟩,
        ⟨![-9, -10, -10], lm.sqrt 281⟩,
        ⟨![-10, -9, -10], lm.sqrt 281⟩,
        ⟨![-10, -10, -9], lm.sqrt 281⟩]
    ⟨F, 0, 2, 1⟩ ⟨![-10, -10, -10], lm.sqrt 300⟩
    ⟨![-10, -9, -10], lm.sqrt 281⟩ ⟨![-9, -10, -10], lm.sqrt 281⟩ rfl rfl rfl]
  norm_num [cross_apply, Matrix.dotProduct, Fin.sum_univ_three, abs_lt]
  congr 1
  ring

theorem wf_far_1 (lm : LibM ℝ) (F : Mat3 ℝ) :
    compute_wf lm [⟨![-10, -10, -10], lm.sqrt 300⟩,
        ⟨![-9, -10, -10], lm.sqrt 281⟩,
        ⟨![-10, -9, -10], lm.sqrt 281⟩,
        ⟨![-10, -10, -9], lm.sqrt 281⟩] ⟨F, 0, 1, 3⟩ =
      some (2 * lm.atan2 10 (lm.sqrt 300 * (lm.sqrt 281 * lm.sqrt 281)
          + 280 * lm.sqrt 300 + 580 * lm.sqrt 281)) := by
  rw [compute_wf_eq lm [⟨![-10, -10, -10], lm.sqrt 300⟩,
        ⟨![-9, -10, -10], lm.sqrt 281⟩,
        ⟨![-10, -9, -10], lm.sqrt 281⟩,
        ⟨![-10, -10, -9], lm.sqrt 281⟩]
    ⟨F, 0, 1, 3⟩ ⟨![-10, -10, -10], lm.sqrt 300⟩
    ⟨![-9, -10, -10], lm.sqrt 281⟩ ⟨![-10, -10, -9], lm.sqrt 281⟩ rfl rfl rfl]
  norm_num [cross_apply, Matrix.dotProduct, Fin.sum_univ_three, abs_lt]
  congr 1
  ring

theorem wf_far_2 (lm : LibM ℝ) (F : Mat3 ℝ) :
    compute_wf lm [⟨![-10, -10, -10], lm.sqrt 300⟩,
        ⟨![-9, -10, -10], lm.sqrt 281⟩,
        ⟨![-10, -9, -10], lm.sqrt 281⟩,
        ⟨![-10, -10, -9], lm.sqrt 281⟩] ⟨F, 0, 3, 2⟩ =
      some (2 * lm.atan2 10 (lm.sqrt 300 * (lm.sqrt 281 * lm.sqrt 281)
          + 280 * lm.sqrt 300 + 580 * lm.sqrt 281)) := by
  rw [compute_wf_eq lm [⟨![-10, -10, -10], lm.sqrt 300⟩,
        ⟨![-9, -10, -10], lm.sqrt 281⟩,
        ⟨![-10, -9, -10], lm.sqrt 281⟩,
        ⟨![-10, -10, -9], lm.sqrt 281⟩]
    ⟨F, 0, 3, 2⟩ ⟨![-10, -10, -10], lm.sqrt 300⟩
    ⟨![-10, -10, -9], lm.sqrt 281⟩ ⟨![-10, -9, -10], lm.sqrt 281⟩ rfl rfl rfl]
  norm_num [cross_apply, Matrix.dotProduct, Fin.sum_univ_three, abs_lt]
  congr 1
  ring

theorem wf_far_3 (lm : LibM ℝ) (F : Mat3 ℝ) :
    compute_wf lm [⟨![-10, -10, -10], lm.sqrt 300⟩,
        ⟨![-9, -10, -10], lm.sqrt 281⟩,
        ⟨![-10, -9, -10], lm.sqrt 281⟩,
        ⟨![-10, -10, -9], lm.sqrt 281⟩] ⟨F, 1, 2, 3⟩ =
      some (2 * lm.atan2 (-29) (lm.sqrt 281 * (lm.sqrt 281 * lm.sqrt 281)
          + 840 * lm.sqrt 281)) := by
  rw [compute_wf_eq lm [⟨![-10, -10, -10], lm.sqrt 300⟩,
        ⟨![-9, -10, -10], lm.sqrt 281⟩,
        ⟨![-10, -9, -10], lm.sqrt 281⟩,
        ⟨![-10, -10, -9], lm.sqrt 281⟩]
    ⟨F, 1, 2, 3⟩ ⟨![-9, -10, -10], lm.sqrt 281⟩
    ⟨![-10, -9, -10], lm.sqrt 281⟩ ⟨![-10, -10, -9], lm.sqrt 281⟩ rfl rfl rfl]
  norm_num [cross_apply, Matrix.dotProduct, Fin.sum_univ_three, abs_lt]
  congr 1
  ring

/-- The solid angles of the four faces seen from the centroid. -/
theorem wfs_tetra_centroid (lm : LibM ℝ) (n : Vec3 ℝ) :
    ((List.range 4).map (makeFace (tetra ℝ 1 n))).map
        (compute_wf lm (displacements lm (tetra ℝ 1 n) ![1 / 4, 1 / 4, 1 / 4])) =
      [2 * lm.atan2 (1 / 4) (lm.sqrt (3 / 16) * (lm.sqrt (11 / 16) * lm.sqrt (11 / 16))
          - 5 / 16 * lm.sqrt (3 / 16) - 1 / 8 * lm.sqrt (11 / 16)),
        2 * lm.atan2 (1 / 4) (lm.sqrt (3 / 16) * (lm.sqrt (11 / 16) * lm.sqrt (11 / 16))
          - 5 / 16 * lm.sqrt (3 / 16) - 1 / 8 * lm.sqrt (11 / 16)),
        2 * lm.atan2 (1 / 4) (lm.sqrt (3 / 16) * (lm.sqrt (11 / 16) * lm.sqrt (11 / 16))
          - 5 / 16 * lm.sqrt (3 / 16) - 1 / 8 * lm.sqrt (11 / 16)),
        2 * lm.atan2 (1 / 4) (lm.sqrt (11 / 16) * (lm.sqrt (11 / 16) * lm.sqrt (11 / 16))
          - 15 / 16 * lm.sqrt (11 / 16))].map some := by
  rw [faces_tetra, displacements_tetra_centroid]
  simp only [List.map_cons, List.map_nil, wf_centroid_0, wf_centroid_1, wf_centroid_2,
    wf_centroid_3]

/-- The solid angles of the four faces seen from `(10, 10, 10)`. -/
theorem wfs_tetra_far (lm : LibM ℝ) (n : Vec3 ℝ) :
    ((List.range 4).map (makeFace (tetra ℝ 1 n))).map
        (compute_wf lm (displacements lm (tetra ℝ 1 n) ![10, 10, 10])) =
      [2 * lm.atan2 10 (lm.sqrt 300 * (lm.sqrt 281 * lm.sqrt 281)
          + 280 * lm.sqrt 300 + 580 * lm.sqrt 281),
        2 * lm.atan2 10 (lm.sqrt 300 * (lm.sqrt 281 * lm.sqrt 281)
          + 280 * lm.sqrt 300 + 580 * lm.sqrt 281),
        2 * lm.atan2 10 (lm.sqrt 300 * (lm.sqrt 281 * lm.sqrt 281)
          + 280 * lm.sqrt 300 + 580 * lm.sqrt 281),
        2 * lm.atan2 (-29) (lm.sqrt 281 * (lm.sqrt 281 * lm.sqrt 281)
          + 840 * lm.sqrt 281)].map some := by
  rw [faces_tetra, displacements_tetra_far]
  simp only [List.map_cons, List.map_nil, wf_far_0, wf_far_1, wf_far_2, wf_far_3]

/-- C13: for the tetrahedron on `(0,0,0)`, `(1,0,0)`, `(0,1,0)`, `(0,0,1)` with
outward winding, with the real square root, the real `atan2` and `M_PI = π`,
`isInsidePolyhedron` returns true at the centroid `(1/4, 1/4, 1/4)` and false
at `(10, 10, 10)`. -/
theorem isInsidePolyhedron_tetra (lm : LibM ℝ) (hsqrt : lm.sqrt = Real.sqrt)
    (hatan : ∀ y x, lm.atan2 y x = Complex.arg ⟨x, y⟩) (hpi : lm.M_PI = Real.pi)
    (n : Vec3 ℝ) (st : State ℝ)
    (hpoly : st.polyData = some (tetra ℝ 1 n))
    (hfaces : st.faceData = (List.range 4).map (makeFace (tetra ℝ 1 n))) :
    (isInsidePolyhedron lm ![1 / 4, 1 / 4, 1 / 4] st).map Prod.fst = some true ∧
    (isInsidePolyhedron lm ![10, 10, 10] st).map Prod.fst = some false := by
  have hlen : st.faceData.length = (tetra ℝ 1 n).getNumberOfPlates := by
    rw [hfaces]; rfl
  have hA : (0 : ℝ) < Real.sqrt (11 / 16) := Real.sqrt_pos.mpr (by norm_num)
  have hA2 : Real.sqrt (11 / 16) * Real.sqrt (11 / 16) = 11 / 16 :=
    Real.mul_self_sqrt (by norm_num)
  have hB : (0 : ℝ) < Real.sqrt (3 / 16) := Real.sqrt_pos.mpr (by norm_num)
  have hB2 : Real.sqrt (3 / 16) * Real.sqrt (3 / 16) = 3 / 16 :=
    Real.mul_self_sqrt (by norm_num)
  have hC : (0 : ℝ) ≤ Real.sqrt 300 := Real.sqrt_nonneg _
  have hD : (1 : ℝ) ≤ Real.sqrt 281 := Real.one_le_sqrt.mpr (by norm_num)
  have hD2 : Real.sqrt 281 * Real.sqrt 281 = 281 := Real.mul_self_sqrt (by norm_num)
  constructor
  · have hwf := wfs_tetra_centroid lm n
    rw [← hfaces] at hwf
    rw [isInsidePolyhedron_eq lm _ st _ _ hpoly hlen hwf]
    simp only [Option.map_some', Option.some.injEq, decide_eq_true_eq, List.sum_cons,
      List.sum_nil, hatan, hsqrt, hpi, hA2]
    have hsmall_pos : 0 < Real.sqrt (3 / 16) * (11 / 16) - 5 / 16 * Real.sqrt (3 / 16)
        - 1 / 8 * Real.sqrt (11 / 16) := by
      nlinarith [mul_pos hA hB]
    have hsmall_le : Real.sqrt (3 / 16) * (11 / 16) - 5 / 16 * Real.sqrt (3 / 16)
        - 1 / 8 * Real.sqrt (11 / 16) ≤ 1 / 4 := by
      nlinarith [mul_pos hA hB]
    have hbig : Real.sqrt (11 / 16) * (11 / 16) - 15 / 16 * Real.sqrt (11 / 16) < 0 := by
      nlinarith
    have h1 := arg_ge_quarter _ _ hsmall_pos hsmall_le
    have h2 := arg_gt_half _ (1 / 4) hbig (by norm_num)
    linarith [Real.pi_pos]
  · have hwf := wfs_tetra_far lm n
    rw [← hfaces] at hwf
    rw [isInsidePolyhedron_eq lm _ st _ _ hpoly hlen hwf]
    simp only [Option.map_some', Option.some.injEq, decide_eq_false_iff_not, List.sum_cons,
      List.sum_nil, hatan, hsqrt, hpi, hD2, not_le, ge_iff_le]
    have hden_pos : 0 < Real.sqrt 300 * 281 + 280 * Real.sqrt 300 + 580 * Real.sqrt 281 := by
      nlinarith
    have hden_ge : (10 : ℝ) ≤ Real.sqrt 300 * 281 + 280 * Real.sqrt 300
        + 580 * Real.sqrt 281 := by
      nlinarith
    have h1 := arg_le_quarter _ _ hden_pos hden_ge
    have h2 := arg_neg_of_im_neg (Real.sqrt 281 * 281 + 840 * Real.sqrt 281) (-29)
      (by norm_num)
    linarith [Real.pi_pos]

theorem isInsidePolyhedron_tetra_witness :
    ∃ lm : LibM ℝ, lm.sqrt = Real.sqrt ∧ (∀ y x, lm.atan2 y x = Complex.arg ⟨x, y⟩) ∧
      lm.M_PI = Real.pi ∧
      (isInsidePolyhedron lm ![1 / 4, 1 / 4, 1 / 4]
        ⟨[], (List.range 4).map (makeFace (tetra ℝ 1 ![1, 1, 1])),
          some (tetra ℝ 1 ![1, 1, 1]), []⟩).map Prod.fst = some true ∧
      (isInsidePolyhedron lm ![10, 10, 10]
        ⟨[], (List.range 4).map (makeFace (tetra ℝ 1 ![1, 1, 1])),
          some (tetra ℝ 1 ![1, 1, 1]), []⟩).map Prod.fst = some false :=
  ⟨⟨Real.sqrt, Real.log, fun y x => Complex.arg ⟨x, y⟩,
      fun x => if x < 0 then -Real.pi else 0, Real.pi⟩, rfl, fun _ _ => rfl, rfl,
    isInsidePolyhedron_tetra _ rfl (fun _ _ => rfl) rfl ![1, 1, 1] _ rfl rfl⟩

end UnitTetra

/-! ## A small tetrahedron (real arithmetic) -/

section SmallTetra

theorem displacements_small_tetra (lm : LibM ℝ) (n : Vec3 ℝ) :
    displacements lm (tetra ℝ (1 / 1000) n) ![1 / 4000, 1 / 4000, 1 / 4000] =
      [⟨![-1 / 4000, -1 / 4000, -1 / 4000], lm.sqrt (3 / 16000000)⟩,
        ⟨![3 / 4000, -1 / 4000, -1 / 4000], lm.sqrt (11 / 16000000)⟩,
        ⟨![-1 / 4000, 3 / 4000, -1 / 4000], lm.sqrt (11 / 16000000)⟩,
        ⟨![-1 / 4000, -1 / 4000, 3 / 4000], lm.sqrt (11 / 16000000)⟩] := by
  simp only [displacements, tetra, List.range_succ, List.range_zero, List.nil_append,
    List.cons_append, List.map_cons, List.map_nil]
  simp only [List.cons.injEq, PointData.mk.injEq, and_true]
  refine ⟨⟨?_, ?_⟩, ⟨?_, ?_⟩, ⟨?_, ?_⟩, ⟨?_, ?_⟩⟩
  all_goals first
    | (funext c; fin_cases c <;> simp <;> norm_num)
    | (congr 1; simp; norm_num)

theorem wf_small_0 (lm : LibM ℝ) (F : Mat3 ℝ) :
    compute_wf lm [⟨![-1 / 4000, -1 / 4000, -1 / 4000], lm.sqrt (3 / 16000000)⟩,
        ⟨![3 / 4000, -1 / 4000, -1 / 4000], lm.sqrt (11 / 16000000)⟩,
        ⟨![-1 / 4000, 3 / 4000, -1 / 4000], lm.sqrt (11 / 16000000)⟩,
        ⟨![-1 / 4000, -1 / 4000, 3 / 4000], lm.sqrt (11 / 16000000)⟩] ⟨F, 0, 2, 1⟩ =
      some (2 * lm.atan2NegZero (lm.sqrt (3 / 16000000) * (lm.sqrt (11 / 16000000) * lm.sqrt (11 / 16000000))
          - 5 / 16000000 * lm.sqrt (3 / 16000000) - 1 / 8000000 * lm.sqrt (11 / 16000000))) := by
  rw [compute_wf_eq lm [⟨![-1 / 4000, -1 / 4000, -1 / 4000], lm.sqrt (3 / 16000000)⟩,
        ⟨![3 / 4000, -1 / 4000, -1 / 4000], lm.sqrt (11 / 16000000)⟩,
        ⟨![-1 / 4000, 3 / 4000, -1 / 4000], lm.sqrt (11 / 16000000)⟩,
        ⟨![-1 / 4000, -1 / 4000, 3 / 4000], lm.sqrt (11 / 16000000)⟩]
    ⟨F, 0, 2, 1⟩ ⟨![-1 / 4000, -1 / 4000, -1 / 4000], lm.sqrt (3 / 16000000)⟩
    ⟨![-1 / 4000, 3 / 4000, -1 / 4000], lm.sqrt (11 / 16000000)⟩ ⟨![3 / 4000, -1 / 4000, -1 / 4000], lm.sqrt (11 / 16000000)⟩ rfl rfl rfl]
  norm_num [cross_apply, Matrix.dotProduct, Fin.sum_univ_three, abs_lt]
  congr 1
  ring

theorem wf_small_1 (lm : LibM ℝ) (F : Mat3 ℝ) :
    compute_wf lm [⟨![-1 / 4000, -1 / 4000, -1 / 4000], lm.sqrt (3 / 16000000)⟩,
        ⟨![3 / 4000, -1 / 4000, -1 / 4000], lm.sqrt (11 / 16000000)⟩,
        ⟨![-1 / 4000, 3 / 4000, -1 / 4000], lm.sqrt (11 / 16000000)⟩,
        ⟨![-1 / 4000, -1 / 4000, 3 / 4000], lm.sqrt (11 / 16000000)⟩] ⟨F, 0, 1, 3⟩ =
      some (2 * lm.atan2NegZero (lm.sqrt (3 / 16000000) * (lm.sqrt (11 / 16000000) * lm.sqrt (11 / 16000000))
          - 5 / 16000000 * lm.sqrt (3 / 16000000) - 1 / 8000000 * lm.sqrt (11 / 16000000))) := by
  rw [compute_wf_eq lm [⟨![-1 / 4000, -1 / 4000, -1 / 4000], lm.sqrt (3 / 16000000)⟩,
        ⟨![3 / 4000, -1 / 4000, -1 / 4000], lm.sqrt (11 / 16000000)⟩,
        ⟨![-1 / 4000, 3 / 4000, -1 / 4000], lm.sqrt (11 / 16000000)⟩,
        ⟨![-1 / 4000, -1 / 4000, 3 / 4000], lm.sqrt (11 / 16000000)⟩]
    ⟨F, 0, 1, 3⟩ ⟨![-1 / 4000, -1 / 4000, -1 / 4000], lm.sqrt (3 / 16000000)⟩
    ⟨![3 / 4000, -1 / 4000, -1 / 4000], lm.sqrt (11 / 16000000)⟩ ⟨![-1 / 4000, -1 / 4000, 3 / 4000], lm.sqrt (11 / 16000000)⟩ rfl rfl rfl]
  norm_num [cross_apply, Matrix.dotProduct, Fin.sum_univ_three, abs_lt]
  congr 1
  ring

theorem wf_small_2 (lm : LibM ℝ) (F : Mat3 ℝ) :
    compute_wf lm [⟨![-1 / 4000, -1 / 4000, -1 / 4000], lm.sqrt (3 / 16000000)⟩,
        ⟨![3 / 4000, -1 / 4000, -1 / 4000], lm.sqrt (11 / 16000000)⟩,
        ⟨![-1 / 4000, 3 / 4000, -1 / 4000], lm.sqrt (11 / 16000000)⟩,
        ⟨![-1 / 4000, -1 / 4000, 3 / 4000], lm.sqrt (11 / 16000000)⟩] ⟨F, 0, 3, 2⟩ =
      some (2 * lm.atan2NegZero (lm.sqrt (3 / 16000000) * (lm.sqrt (11 / 16000000) * lm.sqrt (11 / 16000000))
          - 5 / 16000000 * lm.sqrt (3 / 16000000) - 1 / 8000000 * lm.sqrt (11 / 16000000))) := by
  rw [compute_wf_eq lm [⟨![-1 / 4000, -1 / 4000, -1 / 4000], lm.sqrt (3 / 16000000)⟩,
        ⟨![3 / 4000, -1 / 4000, -1 / 4000], lm.sqrt (11 / 16000000)⟩,
        ⟨![-1 / 4000, 3 / 4000, -1 / 4000], lm.sqrt (11 / 16000000)⟩,
        ⟨![-1 / 4000, -1 / 4000, 3 / 4000], lm.sqrt (11 / 16000000)⟩]
    ⟨F, 0, 3, 2⟩ ⟨![-1 / 4000, -1 / 4000, -1 / 4000], lm.sqrt (3 / 16000000)⟩
    ⟨![-1 / 4000, -1 / 4000, 3 / 4000], lm.sqrt (11 / 16000000)⟩ ⟨![-1 / 4000, 3 / 4000, -1 / 4000], lm.sqrt (11 / 16000000)⟩ rfl rfl rfl]
  norm_num [cross_apply, Matrix.dotProduct, Fin.sum_univ_three, abs_lt]
  congr 1
  ring

theorem wf_small_3 (lm : LibM ℝ) (F : Mat3 ℝ) :
    compute_wf lm [⟨![-1 / 4000, -1 / 4000, -1 / 4000], lm.sqrt (3 / 16000000)⟩,
        ⟨![3 / 4000, -1 / 4000, -1 / 4000], lm.sqrt (11 / 16000000)⟩,
        ⟨![-1 / 4000, 3 / 4000, -1 / 4000], lm.sqrt (11 / 16000000)⟩,
        ⟨![-1 / 4000, -1 / 4000, 3 / 4000], lm.sqrt (11 / 16000000)⟩] ⟨F, 1, 2, 3⟩ =
      some (2 * lm.atan2NegZero (lm.sqrt (11 / 16000000) * (lm.sqrt (11 / 16000000) * lm.sqrt (11 / 16000000))
          - 15 / 16000000 * lm.sqrt (11 / 16000000))) := by
  rw [compute_wf_eq lm [⟨![-1 / 4000, -1 / 4000, -1 / 4000], lm.sqrt (3 / 16000000)⟩,
        ⟨![3 / 4000, -1 / 4000, -1 / 4000], lm.sqrt (11 / 16000000)⟩,
        ⟨![-1 / 4000, 3 / 4000, -1 / 4000], lm.sqrt (11 / 16000000)⟩,
        ⟨![-1 / 4000, -1 / 4000, 3 / 4000], lm.sqrt (11 / 16000000)⟩]
    ⟨F, 1, 2, 3⟩ ⟨![3 / 4000, -1 / 4000, -1 / 4000], lm.sqrt (11 / 16000000)⟩
    ⟨![-1 / 4000, 3 / 4000, -1 / 4000], lm.sqrt (11 / 16000000)⟩ ⟨![-1 / 4000, -1 / 4000, 3 / 4000], lm.sqrt (11 / 16000000)⟩ rfl rfl rfl]
  norm_num [cross_apply, Matrix.dotProduct, Fin.sum_univ_three, abs_lt]
  congr 1
  ring

/-- The solid angles of the four faces of the small tetrahedron seen from its
centroid: every numerator is `1/4000000000`, below the threshold. -/
theorem wfs_small_tetra (lm : LibM ℝ) (n : Vec3 ℝ) :
    ((List.range 4).map (makeFace (tetra ℝ (1 / 1000) n))).map
        (compute_wf lm (displacements lm (tetra ℝ (1 / 1000) n)
          ![1 / 4000, 1 / 4000, 1 / 4000])) =
      [2 * lm.atan2NegZero (lm.sqrt (3 / 16000000) * (lm.sqrt (11 / 16000000) * lm.sqrt (11 / 16000000))
          - 5 / 16000000 * lm.sqrt (3 / 16000000) - 1 / 8000000 * lm.sqrt (11 / 16000000)),
        2 * lm.atan2NegZero (lm.sqrt (3 / 16000000) * (lm.sqrt (11 / 16000000) * lm.sqrt (11 / 16000000))
          - 5 / 16000000 * lm.sqrt (3 / 16000000) - 1 / 8000000 * lm.sqrt (11 / 16000000)),
        2 * lm.atan2NegZero (lm.sqrt (3 / 16000000) * (lm.sqrt (11 / 16000000) * lm.sqrt (11 / 16000000))
          - 5 / 16000000 * lm.sqrt (3 / 16000000) - 1 / 8000000 * lm.sqrt (11 / 16000000)),
        2 * lm.atan2NegZero (lm.sqrt (11 / 16000000) * (lm.sqrt (11 / 16000000) * lm.sqrt (11 / 16000000))
          - 15 / 16000000 * lm.sqrt (11 / 16000000))].map some := by
  rw [faces_tetra, displacements_small_tetra]
  simp only [List.map_cons, List.map_nil, wf_small_0, wf_small_1, wf_small_2, wf_small_3]

/-- C14, the code at the failing input: for the tetrahedron on `(0,0,0)`,
`(1/1000,0,0)`, `(0,1/1000,0)`, `(0,0,1/1000)` and its centroid, a point
strictly inside, every numerator is `2.5e-10` and is replaced by `-0.0`; the
solid angles that `compute_wf` returns sum to `-2π`, not to `4π`, and
`isInsidePolyhedron` returns false. -/
theorem solid_angle_sum_small_tetra (lm : LibM ℝ) (hsqrt : lm.sqrt = Real.sqrt)
    (hneg : ∀ x, lm.atan2NegZero x = if x < 0 then -Real.pi else 0)
    (hpi : lm.M_PI = Real.pi) (n : Vec3 ℝ) (st : State ℝ)
    (hpoly : st.polyData = some (tetra ℝ (1 / 1000) n))
    (hfaces : st.faceData = (List.range 4).map (makeFace (tetra ℝ (1 / 1000) n))) :
    (∃ wfs : List ℝ,
      st.faceData.map (compute_wf lm (displacements lm (tetra ℝ (1 / 1000) n)
        ![1 / 4000, 1 / 4000, 1 / 4000])) = wfs.map some ∧
      wfs.sum = -(2 * Real.pi)) ∧
    (isInsidePolyhedron lm ![1 / 4000, 1 / 4000, 1 / 4000] st).map Prod.fst = some false := by
  have hlen : st.faceData.length = (tetra ℝ (1 / 1000) n).getNumberOfPlates := by
    rw [hfaces]; rfl
  have hA : (0 : ℝ) < Real.sqrt (11 / 16000000) := Real.sqrt_pos.mpr (by norm_num)
  have hA2 : Real.sqrt (11 / 16000000) * Real.sqrt (11 / 16000000) = 11 / 16000000 :=
    Real.mul_self_sqrt (by norm_num)
  have hB : (0 : ℝ) < Real.sqrt (3 / 16000000) := Real.sqrt_pos.mpr (by norm_num)
  have hB2 : Real.sqrt (3 / 16000000) * Real.sqrt (3 / 16000000) = 3 / 16000000 :=
    Real.mul_self_sqrt (by norm_num)
  have hsmall_pos : ¬ Real.sqrt (3 / 16000000) * (11 / 16000000)
      - 5 / 16000000 * Real.sqrt (3 / 16000000)
      - 1 / 8000000 * Real.sqrt (11 / 16000000) < 0 := by
    rw [not_lt]
    nlinarith [mul_pos hA hB]
  have hbig : Real.sqrt (11 / 16000000) * (11 / 16000000)
      - 15 / 16000000 * Real.sqrt (11 / 16000000) < 0 := by
    nlinarith
  have hwf := wfs_small_tetra lm n
  rw [← hfaces] at hwf
  have hsum : ([2 * lm.atan2NegZero (lm.sqrt (3 / 16000000) * (lm.sqrt (11 / 16000000) * lm.sqrt (11 / 16000000))
          - 5 / 16000000 * lm.sqrt (3 / 16000000) - 1 / 8000000 * lm.sqrt (11 / 16000000)),
        2 * lm.atan2NegZero (lm.sqrt (3 / 16000000) * (lm.sqrt (11 / 16000000) * lm.sqrt (11 / 16000000))
          - 5 / 16000000 * lm.sqrt (3 / 16000000) - 1 / 8000000 * lm.sqrt (11 / 16000000)),
        2 * lm.atan2NegZero (lm.sqrt (3 / 16000000) * (lm.sqrt (11 / 16000000) * lm.sqrt (11 / 16000000))
          - 5 / 16000000 * lm.sqrt (3 / 16000000) - 1 / 8000000 * lm.sqrt (11 / 16000000)),
        2 * lm.atan2NegZero (lm.sqrt (11 / 16000000) * (lm.sqrt (11 / 16000000) * lm.sqrt (11 / 16000000))
          - 15 / 16000000 * lm.sqrt (11 / 16000000))] : List ℝ).sum = -(2 * Real.pi) := by
    simp only [List.sum_cons, List.sum_nil, hneg, hsqrt, hA2, if_neg hsmall_pos, if_pos hbig]
    ring
  refine ⟨⟨_, hwf, hsum⟩, ?_⟩
  rw [isInsidePolyhedron_eq lm _ st _ _ hpoly hlen hwf, hsum]
  simp only [Option.map_some', Option.some.injEq, decide_eq_false_iff_not, hpi, not_le,
    ge_iff_le]
  linarith [Real.pi_pos]

theorem solid_angle_sum_small_tetra_witness :
    ∃ lm : LibM ℝ, lm.sqrt = Real.sqrt ∧
      (∀ x, lm.atan2NegZero x = if x < 0 then -Real.pi else 0) ∧ lm.M_PI = Real.pi ∧
      (∃ wfs : List ℝ,
        ((List.range 4).map (makeFace (tetra ℝ (1 / 1000) ![1, 1, 1]))).map
          (compute_wf lm (displacements lm (tetra ℝ (1 / 1000) ![1, 1, 1])
            ![1 / 4000, 1 / 4000, 1 / 4000])) = wfs.map some ∧
        wfs.sum = -(2 * Real.pi)) ∧
      (isInsidePolyhedron lm ![1 / 4000, 1 / 4000, 1 / 4000]
        ⟨[], (List.range 4).map (makeFace (tetra ℝ (1 / 1000) ![1, 1, 1])),
          some (tetra ℝ (1 / 1000) ![1, 1, 1]), []⟩).map Prod.fst = some false :=
  ⟨⟨Real.sqrt, Real.log, fun y x => Complex.arg ⟨x, y⟩,
      fun x => if x < 0 then -Real.pi else 0, Real.pi⟩, rfl, fun _ => rfl, rfl,
    solid_angle_sum_small_tetra _ rfl (fun _ => rfl) rfl ![1, 1, 1]
      ⟨[], (List.range 4).map (makeFace (tetra ℝ (1 / 1000) ![1, 1, 1])),
        some (tetra ℝ (1 / 1000) ![1, 1, 1]), []⟩ rfl rfl⟩

end SmallTetra


/-! ## The potential with and without an acceleration buffer -/

section Buffer

variable {K : Type} [LinearOrderedField K]

/-- Two runs of a loop whose bodies agree on the first component of the
accumulator, and on whether they fault, agree on the first component of the
result. -/
theorem foldlM_fst {α β σ τ : Type} (f : α × σ → β → Option (α × σ))
    (g : α × τ → β → Option (α × τ))
    (hfg : ∀ s s' b, s.1 = s'.1 → (f s b).map Prod.fst = (g s' b).map Prod.fst)
    (l : List β) (s : α × σ) (s' : α × τ) (h : s.1 = s'.1) :
    (l.foldlM f s).map Prod.fst = (l.foldlM g s').map Prod.fst := by
  induction l generalizing s s' with
  | nil => simpa using h
  | cons b l ih =>
    simp only [List.foldlM_cons]
    have hb := hfg s s' b h
    cases hf : f s b with
    | none =>
      cases hg : g s' b with
      | none => rfl
      | some y => rw [hf, hg] at hb; simp at hb
    | some x =>
      cases hg : g s' b with
      | none => rw [hf, hg] at hb; simp at hb
      | some y =>
        rw [hf, hg] at hb
        simp only [Option.map_some', Option.some.injEq] at hb
        simp only [Option.bind_eq_bind, Option.some_bind]
        exact ih x y hb

theorem edgeStep_fst (lm : LibM K) (edgeData : List (EdgeData K))
    (pointData : List (PointData K)) (s s' : K × Option (Vec3 K)) (i : Nat) (h : s.1 = s'.1) :
    (edgeStep lm edgeData pointData s i).map Prod.fst =
      (edgeStep lm edgeData pointData s' i).map Prod.fst := by
  unfold edgeStep
  cases edgeData[i]? with
  | none => rfl
  | some ed =>
    simp only [Option.some_bind, edgeBody, Option.bind_eq_bind, Option.pure_def]
    cases readAt pointData ed.p1 with
    | none => rfl
    | some pd =>
      cases compute_Le lm pointData ed with
      | none => rfl
      | some Le => simp [h]

theorem faceStep_fst (lm : LibM K) (faceData : List (FaceData K))
    (pointData : List (PointData K)) (s s' : K × Option (Vec3 K)) (i : Nat) (h : s.1 = s'.1) :
    (faceStep lm faceData pointData s i).map Prod.fst =
      (faceStep lm faceData pointData s' i).map Prod.fst := by
  unfold faceStep
  cases faceData[i]? with
  | none => rfl
  | some fd =>
    simp only [Option.some_bind, faceBody, Option.bind_eq_bind, Option.pure_def]
    cases readAt pointData fd.p1 with
    | none => rfl
    | some pd =>
      cases compute_wf lm pointData fd with
      | none => rfl
      | some wf => simp [h]

/-- The potential and the file-level variables that `getGravityWerner` leaves
are those of the two loops run from any accumulator for the acceleration. -/
theorem getGravityWerner_fst (lm : LibM K) (fieldPoint : Vec3 K) (acc acc' : Option (Vec3 K))
    (st : State K) :
    (getGravityWerner lm fieldPoint acc st).map (fun res => (res.potential, res.state)) =
      (getGravityWerner lm fieldPoint acc' st).map (fun res => (res.potential, res.state)) := by
  unfold getGravityWerner
  cases st.polyData with
  | none => rfl
  | some mesh =>
    simp only [cachePoints_eq, Option.bind_eq_bind, Option.some_bind]
    have he := foldlM_fst (edgeStep lm st.edgeData (displacements lm mesh fieldPoint))
      (edgeStep lm st.edgeData (displacements lm mesh fieldPoint))
      (fun s s' i h => edgeStep_fst lm _ _ s s' i h) (List.range st.edgeData.length)
      ((0 : K), acc.map fun _ => ![0, 0, 0]) ((0 : K), acc'.map fun _ => ![0, 0, 0]) rfl
    cases h1 : List.foldlM (edgeStep lm st.edgeData (displacements lm mesh fieldPoint))
        ((0 : K), acc.map fun _ => ![0, 0, 0]) (List.range st.edgeData.length) with
    | none =>
      cases h2 : List.foldlM (edgeStep lm st.edgeData (displacements lm mesh fieldPoint))
          ((0 : K), acc'.map fun _ => ![0, 0, 0]) (List.range st.edgeData.length) with
      | none => rfl
      | some y => rw [h1, h2] at he; simp at he
    | some x =>
      cases h2 : List.foldlM (edgeStep lm st.edgeData (displacements lm mesh fieldPoint))
          ((0 : K), acc'.map fun _ => ![0, 0, 0]) (List.range st.edgeData.length) with
      | none => rw [h1, h2] at he; simp at he
      | some y =>
        rw [h1, h2] at he
        simp only [Option.map_some', Option.some.injEq] at he
        simp only [Option.some_bind]
        have hf := foldlM_fst (faceStep lm st.faceData (displacements lm mesh fieldPoint))
          (faceStep lm st.faceData (displacements lm mesh fieldPoint))
          (fun s s' i h => faceStep_fst lm _ _ s s' i h) (List.range mesh.getNumberOfPlates)
          x y he
        cases h3 : List.foldlM (faceStep lm st.faceData (displacements lm mesh fieldPoint))
            x (List.range mesh.getNumberOfPlates) with
        | none =>
          cases h4 : List.foldlM (faceStep lm st.faceData (displacements lm mesh fieldPoint))
              y (List.range mesh.getNumberOfPlates) with
          | none => rfl
          | some w => rw [h3, h4] at hf; simp at hf
        | some z =>
          cases h4 : List.foldlM (faceStep lm st.faceData (displacements lm mesh fieldPoint))
              y (List.range mesh.getNumberOfPlates) with
          | none => rw [h3, h4] at hf; simp at hf
          | some w =>
            rw [h3, h4] at hf
            simp only [Option.map_some', Option.some.injEq] at hf
            simp only [Option.some_bind, Option.pure_def, Option.map_some', hf]

/-- C21: for every state of the file-level variables (every topology and
plate model) and every field point, `getGravityWerner` called with a buffer
for the acceleration, whatever the buffer holds, and called with a null
pointer either both fault or both return, with the same potential and the same
file-level variables afterwards. -/
theorem getGravityWerner_potential_independent_of_buffer (lm : LibM K) (fieldPoint : Vec3 K)
    (buffer : Vec3 K) (st : State K) :
    (getGravityWerner lm fieldPoint (some buffer) st).map GravityResult.potential =
      (getGravityWerner lm fieldPoint none st).map GravityResult.potential ∧
    (getGravityWerner lm fieldPoint (some buffer) st).map GravityResult.state =
      (getGravityWerner lm fieldPoint none st).map GravityResult.state ∧
    (getGravityWerner lm fieldPoint (some buffer) st).isSome =
      (getGravityWerner lm fieldPoint none st).isSome := by
  have h := getGravityWerner_fst lm fieldPoint (some buffer) none st
  cases h1 : getGravityWerner lm fieldPoint (some buffer) st with
  | none =>
    cases h2 : getGravityWerner lm fieldPoint none st with
    | none => exact ⟨rfl, rfl, rfl⟩
    | some y => rw [h1, h2] at h; simp at h
  | some x =>
    cases h2 : getGravityWerner lm fieldPoint none st with
    | none => rw [h1, h2] at h; simp at h
    | some y =>
      rw [h1, h2] at h
      simp only [Option.map_some', Option.some.injEq, Prod.mk.injEq] at h
      simp only [Option.map_some', h.1, h.2, Option.isSome_some, and_self]

end Buffer

/-! ## Cyclic rotation of the vertices of a face -/

section Rotation

variable {K : Type} [LinearOrderedField K]

theorem triple_product_rotate (a b c : Vec3 K) : Dot b (Cross c a) = Dot a (Cross b c) := by
  simp [Dot, Cross]
  ring

/-- C25: for every cache and every face, `compute_wf` gives the same result
(the same value, or a fault in the same cases) for the vertex triple
`(p1, p2, p3)` and for its cyclic rotations `(p2, p3, p1)` and `(p3, p1, p2)`:
the numerator `r1 . (r2 x r3)` and the denominator are unchanged. -/
theorem compute_wf_cyclic (lm : LibM K) (pointData : List (PointData K)) (fd : FaceData K) :
    compute_wf lm pointData { fd with p1 := fd.p2, p2 := fd.p3, p3 := fd.p1 } =
      compute_wf lm pointData fd ∧
    compute_wf lm pointData { fd with p1 := fd.p3, p2 := fd.p1, p3 := fd.p2 } =
      compute_wf lm pointData fd ∧
    ∀ pd1 pd2 pd3 : PointData K,
      Dot pd2.r (Cross pd3.r pd1.r) = Dot pd1.r (Cross pd2.r pd3.r) ∧
      Dot pd3.r (Cross pd1.r pd2.r) = Dot pd1.r (Cross pd2.r pd3.r) ∧
      pd2.r_mag * pd3.r_mag * pd1.r_mag + pd2.r_mag * Dot pd3.r pd1.r
          + pd3.r_mag * Dot pd1.r pd2.r + pd1.r_mag * Dot pd2.r pd3.r =
        pd1.r_mag * pd2.r_mag * pd3.r_mag + pd1.r_mag * Dot pd2.r pd3.r
          + pd2.r_mag * Dot pd3.r pd1.r + pd3.r_mag * Dot pd1.r pd2.r ∧
      pd3.r_mag * pd1.r_mag * pd2.r_mag + pd3.r_mag * Dot pd1.r pd2.r
          + pd1.r_mag * Dot pd2.r pd3.r + pd2.r_mag * Dot pd3.r pd1.r =
        pd1.r_mag * pd2.r_mag * pd3.r_mag + pd1.r_mag * Dot pd2.r pd3.r
          + pd2.r_mag * Dot pd3.r pd1.r + pd3.r_mag * Dot pd1.r pd2.r := by
  have hnum1 := fun a b c : Vec3 K => triple_product_rotate a b c
  have hnum2 : ∀ a b c : Vec3 K, Dot c (Cross a b) = Dot a (Cross b c) := fun a b c => by
    rw [triple_product_rotate b c a, triple_product_rotate a b c]
  have hden1 : ∀ pd1 pd2 pd3 : PointData K,
      pd2.r_mag * pd3.r_mag * pd1.r_mag + pd2.r_mag * Dot pd3.r pd1.r
          + pd3.r_mag * Dot pd1.r pd2.r + pd1.r_mag * Dot pd2.r pd3.r =
        pd1.r_mag * pd2.r_mag * pd3.r_mag + pd1.r_mag * Dot pd2.r pd3.r
          + pd2.r_mag * Dot pd3.r pd1.r + pd3.r_mag * Dot pd1.r pd2.r := fun _ _ _ => by ring
  have hden2 : ∀ pd1 pd2 pd3 : PointData K,
      pd3.r_mag * pd1.r_mag * pd2.r_mag + pd3.r_mag * Dot pd1.r pd2.r
          + pd1.r_mag * Dot pd2.r pd3.r + pd2.r_mag * Dot pd3.r pd1.r =
        pd1.r_mag * pd2.r_mag * pd3.r_mag + pd1.r_mag * Dot pd2.r pd3.r
          + pd2.r_mag * Dot pd3.r pd1.r + pd3.r_mag * Dot pd1.r pd2.r := fun _ _ _ => by ring
  refine ⟨?_, ?_, fun pd1 pd2 pd3 => ⟨hnum1 _ _ _, hnum2 _ _ _, hden1 _ _ _, hden2 _ _ _⟩⟩
  · unfold compute_wf
    cases readAt pointData fd.p1 with
    | none =>
      cases readAt pointData fd.p2 with
      | none => rfl
      | some pd2 =>
        cases readAt pointData fd.p3 with
        | none => rfl
        | some pd3 => rfl
    | some pd1 =>
      cases readAt pointData fd.p2 with
      | none => rfl
      | some pd2 =>
        cases readAt pointData fd.p3 with
        | none => rfl
        | some pd3 =>
          simp only [Option.bind_eq_bind, Option.some_bind]
          rw [hnum1 pd1.r pd2.r pd3.r, hden1 pd1 pd2 pd3]
  · unfold compute_wf
    cases readAt pointData fd.p1 with
    | none =>
      cases readAt pointData fd.p3 with
      | none => rfl
      | some pd3 => rfl
    | some pd1 =>
      cases readAt pointData fd.p2 with
      | none =>
        cases readAt pointData fd.p3 with
        | none => rfl
        | some pd3 => rfl
      | some pd2 =>
        cases readAt pointData fd.p3 with
        | none => rfl
        | some pd3 =>
          simp only [Option.bind_eq_bind, Option.some_bind]
          rw [hnum2 pd1.r pd2.r pd3.r, hden2 pd1 pd2 pd3]

end Rotation


/-! ## Translation of the plate model and of the field point -/

section Translation

variable {K : Type} [LinearOrderedField K]

theorem Subtract_translate (mesh : Platemodel K) (t : Vec3 K) (a b : Int) :
    Subtract ((translate mesh t).getPoint b) ((translate mesh t).getPoint a) =
      Subtract (mesh.getPoint b) (mesh.getPoint a) := by
  funext c
  simp only [Subtract, translate]
  ring

theorem halfDyad_translate (lm : LibM K) (mesh : Platemodel K) (t : Vec3 K) (i : Nat)
    (a b : Int) : halfDyad lm (translate mesh t) i a b = halfDyad lm mesh i a b := by
  simp only [halfDyad, Subtract_translate]
  rfl

theorem sideLength_translate (lm : LibM K) (mesh : Platemodel K) (t : Vec3 K) (a b : Int) :
    sideLength lm (translate mesh t) a b = sideLength lm mesh a b := by
  simp only [sideLength, Subtract_translate]

theorem accumulate_translate (lm : LibM K) (mesh : Platemodel K) (t : Vec3 K) :
    accumulate lm (translate mesh t) = accumulate lm mesh := by
  funext i a b m
  simp only [accumulate, touch, halfDyad_translate, sideLength_translate]

theorem buildEdgeMap_translate (lm : LibM K) (mesh : Platemodel K) (t : Vec3 K) :
    buildEdgeMap lm (translate mesh t) = buildEdgeMap lm mesh := by
  rw [buildEdgeMap_eq, buildEdgeMap_eq, accumulate_translate]
  rfl

theorem displacements_translate (lm : LibM K) (mesh : Platemodel K) (t fieldPoint : Vec3 K) :
    displacements lm (translate mesh t) (fun c => fieldPoint c + t c) =
      displacements lm mesh fieldPoint := by
  have h : ∀ (p : Int) (c : Fin 3),
      (translate mesh t).getPoint p c - (fieldPoint c + t c) = mesh.getPoint p c - fieldPoint c := by
    intro p c
    simp only [translate]
    ring
  unfold displacements
  simp only [h]
  rfl

/-- The result of `initializeGravityWerner` on the shifted plate model. -/
theorem initializeGravityWerner_translate (lm : LibM K)
    (iterate : EdgeDataMap K → EdgeDataMap K) (mesh : Platemodel K) (t : Vec3 K) (st : State K) :
    initializeGravityWerner lm iterate (translate mesh t) st =
      (initializeGravityWerner lm iterate mesh st).map
        (fun s => { s with polyData := some (translate mesh t) }) := by
  rw [initializeGravityWerner_eq, initializeGravityWerner_eq, buildEdgeMap_translate]
  have hn : (translate mesh t).getNumberOfPlates = mesh.getNumberOfPlates := rfl
  rw [hn]
  split_ifs
  · rfl
  · rfl

/-- Both evaluations on file-level variables that hold the shifted plate
model, at the shifted field point. -/
theorem evaluation_translate (lm : LibM K) (mesh : Platemodel K) (t fieldPoint : Vec3 K)
    (acc : Option (Vec3 K)) (s : State K) (hs : s.polyData = some mesh) :
    (getGravityWerner lm (fun c => fieldPoint c + t c) acc
        { s with polyData := some (translate mesh t) }).map (fun r => (r.potential, r.acc)) =
      (getGravityWerner lm fieldPoint acc s).map (fun r => (r.potential, r.acc)) ∧
    (isInsidePolyhedron lm (fun c => fieldPoint c + t c)
        { s with polyData := some (translate mesh t) }).map Prod.fst =
      (isInsidePolyhedron lm fieldPoint s).map Prod.fst := by
  have hn : (translate mesh t).getNumberOfPlates = mesh.getNumberOfPlates := rfl
  constructor
  · unfold getGravityWerner
    simp only [hs, cachePoints_eq, displacements_translate, hn, Option.bind_eq_bind,
      Option.some_bind, Option.map_bind]
    congr 1
    funext a
    simp only [Function.comp]
    cases List.foldlM (faceStep lm s.faceData (displacements lm mesh fieldPoint)) a
        (List.range mesh.getNumberOfPlates) with
    | none => rfl
    | some b => rfl
  · unfold isInsidePolyhedron
    simp only [hs, cachePoints_eq, displacements_translate, hn, Option.bind_eq_bind,
      Option.some_bind, Option.map_bind]
    cases List.foldlM (insideStep lm s.faceData (displacements lm mesh fieldPoint)) (0 : K)
        (List.range mesh.getNumberOfPlates) with
    | none => rfl
    | some b => rfl

/-- C22: for every plate model, field point and vector `t`, in exact
arithmetic, `initializeGravityWerner` on the plate model with every vertex
position shifted by `t` faults or returns as on the unshifted one and leaves
the same edge list (dyads, lengths, endpoints) and the same face list; the
evaluations of the shifted topology at `fieldPoint + t` give the potential,
the acceleration and the answer of `isInsidePolyhedron` that the unshifted
topology gives at `fieldPoint`. -/
theorem translation_invariance (lm : LibM K) (iterate : EdgeDataMap K → EdgeDataMap K)
    (mesh : Platemodel K) (st : State K) (t fieldPoint : Vec3 K) (acc : Option (Vec3 K)) :
    buildEdgeMap lm (translate mesh t) = buildEdgeMap lm mesh ∧
    (initializeGravityWerner lm iterate (translate mesh t) st).map
        (fun s => (s.edgeData, s.faceData)) =
      (initializeGravityWerner lm iterate mesh st).map (fun s => (s.edgeData, s.faceData)) ∧
    ((initializeGravityWerner lm iterate (translate mesh t) st).bind fun s =>
        (getGravityWerner lm (fun c => fieldPoint c + t c) acc s).map
          (fun r => (r.potential, r.acc))) =
      ((initializeGravityWerner lm iterate mesh st).bind fun s =>
        (getGravityWerner lm fieldPoint acc s).map (fun r => (r.potential, r.acc))) ∧
    ((initializeGravityWerner lm iterate (translate mesh t) st).bind fun s =>
        (isInsidePolyhedron lm (fun c => fieldPoint c + t c) s).map Prod.fst) =
      ((initializeGravityWerner lm iterate mesh st).bind fun s =>
        (isInsidePolyhedron lm fieldPoint s).map Prod.fst) := by
  rw [initializeGravityWerner_translate]
  refine ⟨buildEdgeMap_translate lm mesh t, ?_, ?_, ?_⟩
  · cases initializeGravityWerner lm iterate mesh st with
    | none => rfl
    | some s => rfl
  · cases h : initializeGravityWerner lm iterate mesh st with
    | none => rfl
    | some s =>
      have hs : s.polyData = some mesh := by
        rw [(initializeGravityWerner_some lm iterate mesh st s h).2]
      exact (evaluation_translate lm mesh t fieldPoint acc s hs).1
  · cases h : initializeGravityWerner lm iterate mesh st with
    | none => rfl
    | some s =>
      have hs : s.polyData = some mesh := by
        rw [(initializeGravityWerner_some lm iterate mesh st s h).2]
      exact (evaluation_translate lm mesh t fieldPoint acc s hs).2

end Translation


/-! ## The dyad of an edge shared by two plates -/

section Shared

variable {K : Type} [LinearOrderedField K]

/-- `Normalize` leaves a multiple of its argument. -/
theorem Normalize_smul (lm : LibM K) (d : Vec3 K) :
    ∃ t : K, (Normalize lm d).1 = fun k => t * d k := by
  simp only [Normalize]
  split_ifs
  · exact ⟨(Norm lm d)⁻¹, by funext k; exact div_eq_inv_mul _ _⟩
  · exact ⟨1, by funext k; rw [one_mul]⟩

/-- The unit vector of a side traversed in the opposite direction is the
opposite vector. -/
theorem Normalize_reverse (lm : LibM K) (x y : Vec3 K) :
    (Normalize lm (Subtract x y)).1 = fun k => -(Normalize lm (Subtract y x)).1 k := by
  have hn : Norm lm (Subtract x y) = Norm lm (Subtract y x) := by
    unfold Norm Subtract
    congr 1
    ring
  simp only [Normalize, hn]
  split_ifs
  · funext k
    simp only [Subtract]
    ring
  · funext k
    simp only [Subtract]
    ring

/-- What the entries of the edge list hold after the build: the sum of the
half dyads of the sides with their key, and the distance between their
endpoints. -/
theorem entry_data (lm : LibM K) (iterate : EdgeDataMap K → EdgeDataMap K)
    (mesh : Platemodel K) (st st' : State K)
    (hperm : ∀ m, (iterate m).Perm m)
    (h : initializeGravityWerner lm iterate mesh st = some st')
    (i : Nat) (hi : i < (buildEdgeMap lm mesh).length) (ed : EdgeData K)
    (hed : st'.edgeData[i]? = some ed) :
    ed.E = (((directedSides mesh).filter (fun s => canonical s = ⟨ed.p1, ed.p2⟩)).map
      (fun s => halfDyad lm mesh s.1 s.2.1 s.2.2)).sum ∧
    ed.edgeLength = Norm lm (Subtract (mesh.getPoint ed.p2) (mesh.getPoint ed.p1)) := by
  obtain ⟨nd, hnd, hget⟩ := built_entry lm iterate mesh st st' hperm h i hi
  rw [hed, Option.some.injEq] at hget
  subst hget
  rw [buildEdgeMap_eq] at hnd
  obtain ⟨e1, e2, e3, e4⟩ := (edgePass_inv lm mesh (directedSides mesh)).2.2 nd hnd
  have hk : (⟨nd.2.p1, nd.2.p2⟩ : EdgeKey) = nd.1 := by rw [e1, e2]
  rw [hk, e1, e2]
  exact ⟨e3, e4⟩

/-- The key of every directed side has an entry in the edge list after the
build. -/
theorem key_copied (lm : LibM K) (iterate : EdgeDataMap K → EdgeDataMap K)
    (mesh : Platemodel K) (st st' : State K)
    (hperm : ∀ m, (iterate m).Perm m)
    (h : initializeGravityWerner lm iterate mesh st = some st')
    (s : Nat × Int × Int) (hs : s ∈ directedSides mesh) :
    ∃ i < (buildEdgeMap lm mesh).length, ∃ ed, st'.edgeData[i]? = some ed ∧
      ed.p1 = min s.2.1 s.2.2 ∧ ed.p2 = max s.2.1 s.2.2 := by
  obtain ⟨_, hmem, hdata⟩ := edgePass_inv lm mesh (directedSides mesh)
  rw [← buildEdgeMap_eq] at hmem hdata
  have hk : canonical s ∈ (buildEdgeMap lm mesh).map Prod.fst :=
    (hmem _).mpr (List.mem_map.mpr ⟨s, hs, rfl⟩)
  obtain ⟨nd, hnd, hkey⟩ := List.mem_map.mp hk
  obtain ⟨e1, e2, _, _⟩ := hdata nd hnd
  obtain ⟨_, hst⟩ := initializeGravityWerner_some lm iterate mesh st st' h
  obtain ⟨i, hi, hget⟩ := List.getElem_of_mem ((hperm _).mem_iff.mpr hnd)
  refine ⟨i, by rw [← (hperm _).length_eq]; exact hi, nd.2, ?_, ?_, ?_⟩
  · rw [hst]
    simp only
    rw [List.getElem?_append_left (by simpa using hi), List.getElem?_map,
      List.getElem?_eq_getElem hi, hget]
    rfl
  · rw [e1, hkey]; rfl
  · rw [e2, hkey]; rfl

/-- The antisymmetric part of `Outer n (Cross u n)`. -/
theorem Outer_Cross_antisymm (n u : Vec3 K) (hn : Dot n n = 1) (hu : Dot n u = 0) :
    Outer n (Cross u n) 0 1 - Outer n (Cross u n) 1 0 = u 2 ∧
    Outer n (Cross u n) 1 2 - Outer n (Cross u n) 2 1 = u 0 ∧
    Outer n (Cross u n) 2 0 - Outer n (Cross u n) 0 2 = u 1 := by
  simp only [Dot] at hn hu
  refine ⟨?_, ?_, ?_⟩
  · simp [Outer, Cross]
    linear_combination u 2 * hn - n 2 * hu
  · simp [Outer, Cross]
    linear_combination u 0 * hn - n 0 * hu
  · simp [Outer, Cross]
    linear_combination u 1 * hn - n 1 * hu

/-- C23: when the directed sides with the canonical pair of `(a, b)` are two,
`(a, b)` on plate `f` and `(b, a)` on plate `g`, and the normals of both plates
are unit vectors perpendicular to the difference of the positions of `a` and
`b`, the edge list built by `initializeGravityWerner` has an entry with that
pair, and the dyad `E` of every such entry is symmetric.  The length of the
edge plays no part. -/
theorem edge_dyad_symmetric (lm : LibM K)
    (iterate : EdgeDataMap K → EdgeDataMap K) (mesh : Platemodel K) (st st' : State K)
    (f g : Nat) (a b : Int)
    (hperm : ∀ m, (iterate m).Perm m)
    (h : initializeGravityWerner lm iterate mesh st = some st')
    (hsides : (directedSides mesh).filter (fun s => canonical s = canonical (f, a, b))
      = [(f, a, b), (g, b, a)])
    (hnf : Dot (mesh.getNormal f) (mesh.getNormal f) = 1)
    (hng : Dot (mesh.getNormal g) (mesh.getNormal g) = 1)
    (hpf : Dot (mesh.getNormal f) (fun k => mesh.getPoint b k - mesh.getPoint a k) = 0)
    (hpg : Dot (mesh.getNormal g) (fun k => mesh.getPoint b k - mesh.getPoint a k) = 0) :
    (∃ i < (buildEdgeMap lm mesh).length, ∃ ed, st'.edgeData[i]? = some ed ∧
      ed.p1 = min a b ∧ ed.p2 = max a b) ∧
    ∀ i < (buildEdgeMap lm mesh).length, ∀ ed, st'.edgeData[i]? = some ed →
      ed.p1 = min a b → ed.p2 = max a b → ∀ j k : Fin 3, ed.E j k = ed.E k j := by
  have hmem : (f, a, b) ∈ directedSides mesh := by
    have : (f, a, b) ∈ (directedSides mesh).filter
        (fun s => canonical s = canonical (f, a, b)) := by
      rw [hsides]; exact List.mem_cons_self _ _
    exact (List.mem_filter.mp this).1
  refine ⟨key_copied lm iterate mesh st st' hperm h (f, a, b) hmem, ?_⟩
  intro i hi ed hed h1 h2 j k
  obtain ⟨hE, _⟩ := entry_data lm iterate mesh st st' hperm h i hi ed hed
  have hkey : (⟨ed.p1, ed.p2⟩ : EdgeKey) = canonical (f, a, b) := by rw [h1, h2]; rfl
  rw [hkey, hsides] at hE
  obtain ⟨t, ht⟩ := Normalize_smul lm (Subtract (mesh.getPoint b) (mesh.getPoint a))
  have hu : ∀ n : Vec3 K, Dot n (fun k => mesh.getPoint b k - mesh.getPoint a k) = 0 →
      Dot n (Normalize lm (Subtract (mesh.getPoint b) (mesh.getPoint a))).1 = 0 := by
    intro n hn
    rw [ht]
    simp only [Dot, Subtract] at hn ⊢
    linear_combination t * hn
  have hrev : ∀ n : Vec3 K,
      Dot n (Normalize lm (Subtract (mesh.getPoint a) (mesh.getPoint b))).1 =
        -Dot n (Normalize lm (Subtract (mesh.getPoint b) (mesh.getPoint a))).1 := by
    intro n
    rw [Normalize_reverse lm (mesh.getPoint a) (mesh.getPoint b)]
    simp only [Dot]
    ring
  obtain ⟨f1, f2, f3⟩ := Outer_Cross_antisymm (mesh.getNormal f)
    (Normalize lm (Subtract (mesh.getPoint b) (mesh.getPoint a))).1 hnf (hu _ hpf)
  obtain ⟨g1, g2, g3⟩ := Outer_Cross_antisymm (mesh.getNormal g)
    (Normalize lm (Subtract (mesh.getPoint a) (mesh.getPoint b))).1 hng
    (by rw [hrev, hu _ hpg, neg_zero])
  have hr := Normalize_reverse lm (mesh.getPoint a) (mesh.getPoint b)
  have hr0 := congrFun hr 0
  have hr1 := congrFun hr 1
  have hr2 := congrFun hr 2
  simp only at hr0 hr1 hr2
  have hval : ∀ j k : Fin 3, ed.E j k =
      Outer (mesh.getNormal f)
        (Cross (Normalize lm (Subtract (mesh.getPoint b) (mesh.getPoint a))).1
          (mesh.getNormal f)) j k +
      Outer (mesh.getNormal g)
        (Cross (Normalize lm (Subtract (mesh.getPoint a) (mesh.getPoint b))).1
          (mesh.getNormal g)) j k := by
    intro j k
    rw [hE]
    simp [halfDyad]
  have h01 : ed.E 0 1 = ed.E 1 0 := by
    rw [hval, hval]
    linear_combination f1 + g1 + hr2
  have h12 : ed.E 1 2 = ed.E 2 1 := by
    rw [hval, hval]
    linear_combination f2 + g2 + hr0
  have h20 : ed.E 2 0 = ed.E 0 2 := by
    rw [hval, hval]
    linear_combination f3 + g3 + hr1
  fin_cases j <;> fin_cases k <;>
    first
    | rfl
    | exact h01
    | exact h01.symm
    | exact h12
    | exact h12.symm
    | exact h20
    | exact h20.symm

end Shared

section SharedWitness

set_option maxRecDepth 100000 in
theorem sides01_tetraQ :
    (directedSides tetraQ).filter (fun s => canonical s = canonical (0, 1, 0))
      = [(0, 1, 0), (1, 0, 1)] := by
  decide

theorem edge_dyad_symmetric_witness :
    initializeGravityWerner lmQ id tetraQ st0 = some tetraBuilt ∧
    (directedSides tetraQ).filter (fun s => canonical s = canonical (0, 1, 0))
      = [(0, 1, 0), (1, 0, 1)] ∧
    Dot (tetraQ.getNormal 0) (tetraQ.getNormal 0) = 1 ∧
    Dot (tetraQ.getNormal 1) (tetraQ.getNormal 1) = 1 ∧
    (∃ i < (buildEdgeMap lmQ tetraQ).length, ∃ ed, tetraBuilt.edgeData[i]? = some ed ∧
      ed.p1 = min 1 0 ∧ ed.p2 = max 1 0) ∧
    ∀ i < (buildEdgeMap lmQ tetraQ).length, ∀ ed, tetraBuilt.edgeData[i]? = some ed →
      ed.p1 = min 1 0 → ed.p2 = max 1 0 → ∀ j k : Fin 3, ed.E j k = ed.E k j :=
  ⟨initialize_tetraQ, sides01_tetraQ, by simp [Dot, tetraQ], by simp [Dot, tetraQ],
    edge_dyad_symmetric lmQ id tetraQ st0 tetraBuilt 0 1 1 0
      (fun m => List.Perm.refl m) initialize_tetraQ sides01_tetraQ
      (by simp [Dot, tetraQ]) (by simp [Dot, tetraQ]) (by simp [Dot, tetraQ])
      (by simp [Dot, tetraQ])⟩

end SharedWitness


/-! ## The sign of the logarithm term (real arithmetic) -/

section LogSign

/-- The triangle inequality for `Norm` with the real square root. -/
theorem Norm_sub_le_real (lm : LibM ℝ) (hsqrt : lm.sqrt = Real.sqrt) (x y : Vec3 ℝ) :
    Norm lm (fun k => y k - x k) ≤ Norm lm x + Norm lm y := by
  simp only [Norm, hsqrt]
  have hA : 0 ≤ x 0 * x 0 + x 1 * x 1 + x 2 * x 2 :=
    add_nonneg (add_nonneg (mul_self_nonneg _) (mul_self_nonneg _)) (mul_self_nonneg _)
  have hB : 0 ≤ y 0 * y 0 + y 1 * y 1 + y 2 * y 2 :=
    add_nonneg (add_nonneg (mul_self_nonneg _) (mul_self_nonneg _)) (mul_self_nonneg _)
  have hcs : (x 0 * y 0 + x 1 * y 1 + x 2 * y 2) ^ 2 ≤
      (x 0 * x 0 + x 1 * x 1 + x 2 * x 2) * (y 0 * y 0 + y 1 * y 1 + y 2 * y 2) := by
    nlinarith [sq_nonneg (x 0 * y 1 - x 1 * y 0), sq_nonneg (x 1 * y 2 - x 2 * y 1),
      sq_nonneg (x 2 * y 0 - x 0 * y 2)]
  have habs := Real.abs_le_sqrt hcs
  rw [Real.sqrt_mul hA] at habs
  have hdot : -(x 0 * y 0 + x 1 * y 1 + x 2 * y 2) ≤
      Real.sqrt (x 0 * x 0 + x 1 * x 1 + x 2 * x 2) *
        Real.sqrt (y 0 * y 0 + y 1 * y 1 + y 2 * y 2) :=
    le_trans (neg_le_abs _) habs
  rw [Real.sqrt_le_iff]
  refine ⟨add_nonneg (Real.sqrt_nonneg _) (Real.sqrt_nonneg _), ?_⟩
  have h1 := Real.sq_sqrt hA
  have h2 := Real.sq_sqrt hB
  nlinarith

/-- C26: for an edge whose endpoints are vertices of the plate model and whose
stored length `L` is the distance between them, and for every field point,
with the real square root and logarithm, `compute_Le` returns a value that is
not negative; `r1 + r2 - L` is not negative (triangle inequality), so outside
the singular branch the divisor `r1 + r2 - L` is at least `1e-9` and the
argument of the logarithm is at least `1`. -/
theorem compute_Le_nonneg (lm : LibM ℝ) (hsqrt : lm.sqrt = Real.sqrt)
    (hlog : lm.log = Real.log) (mesh : Platemodel ℝ) (ed : EdgeData ℝ) (fieldPoint : Vec3 ℝ)
    (hp1 : 0 ≤ ed.p1 ∧ ed.p1 < (mesh.getNumberOfPoints : Int))
    (hp2 : 0 ≤ ed.p2 ∧ ed.p2 < (mesh.getNumberOfPoints : Int))
    (hL : ed.edgeLength = Norm lm (Subtract (mesh.getPoint ed.p2) (mesh.getPoint ed.p1))) :
    ∃ r1 r2 v : ℝ,
      r1 = Norm lm (displacement mesh fieldPoint ed.p1) ∧
      r2 = Norm lm (displacement mesh fieldPoint ed.p2) ∧
      compute_Le lm (displacements lm mesh fieldPoint) ed = some v ∧
      0 ≤ v ∧ 0 ≤ r1 + r2 - ed.edgeLength ∧
      (|r1 + r2 - ed.edgeLength| < 1 / 1000000000 → v = 0) ∧
      (¬ |r1 + r2 - ed.edgeLength| < 1 / 1000000000 →
        v = lm.log ((r1 + r2 + ed.edgeLength) / (r1 + r2 - ed.edgeLength)) ∧
        1 / 1000000000 ≤ r1 + r2 - ed.edgeLength ∧
        1 ≤ (r1 + r2 + ed.edgeLength) / (r1 + r2 - ed.edgeLength)) := by
  obtain ⟨pd1, h1⟩ := readAt_displacements_some lm mesh fieldPoint ed.p1 hp1.1 hp1.2
  obtain ⟨pd2, h2⟩ := readAt_displacements_some lm mesh fieldPoint ed.p2 hp2.1 hp2.2
  have hr1 : pd1.r_mag = Norm lm (displacement mesh fieldPoint ed.p1) := by
    rw [readAt_displacements_eq lm mesh _ ed.p1 pd1 h1]
  have hr2 : pd2.r_mag = Norm lm (displacement mesh fieldPoint ed.p2) := by
    rw [readAt_displacements_eq lm mesh _ ed.p2 pd2 h2]
  have hL0 : 0 ≤ ed.edgeLength := by rw [hL]; exact Norm_nonneg_real lm hsqrt _
  have hdiff : Subtract (mesh.getPoint ed.p2) (mesh.getPoint ed.p1) =
      fun k => displacement mesh fieldPoint ed.p2 k - displacement mesh fieldPoint ed.p1 k := by
    funext k
    simp only [Subtract, displacement]
    ring
  have htri : 0 ≤ pd1.r_mag + pd2.r_mag - ed.edgeLength := by
    rw [hr1, hr2, hL, hdiff]
    have := Norm_sub_le_real lm hsqrt (displacement mesh fieldPoint ed.p1)
      (displacement mesh fieldPoint ed.p2)
    linarith
  have hval := compute_Le_eq lm _ ed pd1 pd2 h1 h2
  have hbranch : ¬ |pd1.r_mag + pd2.r_mag - ed.edgeLength| < 1 / 1000000000 →
      1 / 1000000000 ≤ pd1.r_mag + pd2.r_mag - ed.edgeLength ∧
      1 ≤ (pd1.r_mag + pd2.r_mag + ed.edgeLength) / (pd1.r_mag + pd2.r_mag - ed.edgeLength) := by
    intro hns
    rw [abs_of_nonneg htri, not_lt] at hns
    refine ⟨hns, ?_⟩
    rw [le_div_iff₀ (by linarith)]
    linarith
  refine ⟨pd1.r_mag, pd2.r_mag, _, hr1, hr2, hval, ?_, htri, ?_, ?_⟩
  · split_ifs with hs
    · exact le_refl _
    · rw [hlog]
      exact Real.log_nonneg (hbranch hs).2
  · intro hs
    rw [if_pos hs]
  · intro hs
    rw [if_neg hs]
    exact ⟨rfl, hbranch hs⟩

theorem compute_Le_nonneg_witness :
    ∃ lm : LibM ℝ, lm.sqrt = Real.sqrt ∧ lm.log = Real.log ∧
      ∃ r1 r2 v : ℝ,
        r1 = Norm lm (displacement (tetra ℝ 1 ![1, 1, 1]) ![10, 10, 10]
          (edge01 lm (tetra ℝ 1 ![1, 1, 1])).p1) ∧
        r2 = Norm lm (displacement (tetra ℝ 1 ![1, 1, 1]) ![10, 10, 10]
          (edge01 lm (tetra ℝ 1 ![1, 1, 1])).p2) ∧
        compute_Le lm (displacements lm (tetra ℝ 1 ![1, 1, 1]) ![10, 10, 10])
          (edge01 lm (tetra ℝ 1 ![1, 1, 1])) = some v ∧
        0 ≤ v ∧ 0 ≤ r1 + r2 - (edge01 lm (tetra ℝ 1 ![1, 1, 1])).edgeLength ∧
        (|r1 + r2 - (edge01 lm (tetra ℝ 1 ![1, 1, 1])).edgeLength| < 1 / 1000000000 → v = 0) ∧
        (¬ |r1 + r2 - (edge01 lm (tetra ℝ 1 ![1, 1, 1])).edgeLength| < 1 / 1000000000 →
          v = lm.log ((r1 + r2 + (edge01 lm (tetra ℝ 1 ![1, 1, 1])).edgeLength) /
            (r1 + r2 - (edge01 lm (tetra ℝ 1 ![1, 1, 1])).edgeLength)) ∧
          1 / 1000000000 ≤ r1 + r2 - (edge01 lm (tetra ℝ 1 ![1, 1, 1])).edgeLength ∧
          1 ≤ (r1 + r2 + (edge01 lm (tetra ℝ 1 ![1, 1, 1])).edgeLength) /
            (r1 + r2 - (edge01 lm (tetra ℝ 1 ![1, 1, 1])).edgeLength)) :=
  ⟨⟨Real.sqrt, Real.log, fun y x => Complex.arg ⟨x, y⟩,
      fun x => if x < 0 then -Real.pi else 0, Real.pi⟩, rfl, rfl,
    compute_Le_nonneg _ rfl rfl (tetra ℝ 1 ![1, 1, 1]) _ ![10, 10, 10]
      ⟨le_refl _, by decide⟩ ⟨by decide, by decide⟩ rfl⟩

end LogSign

/-! ## A side of length zero -/

section ZeroLength

variable {K : Type} [LinearOrderedField K]

/-- C28: for a directed side whose two endpoints have the same position, with
`sqrt 0 = 0`: the difference of the positions is the zero vector and its norm
is `0`, so the test `den != 0.0` of `Normalize` fails, no division is
made, the vector is left as it is and `0` is returned; the length written to
the edge is `0`, the contribution `Outer(cellNormal, edgeNormal)` is the zero
matrix and the dyad of the edge is left as it was; every node of the edge map
with the key of the side ends with length `0`. -/
theorem zero_length_side (lm : LibM K) (hsqrt0 : lm.sqrt 0 = 0) (mesh : Platemodel K)
    (i : Nat) (a b : Int) (hab : mesh.getPoint a = mesh.getPoint b) :
    Subtract (mesh.getPoint b) (mesh.getPoint a) = (fun _ => 0) ∧
    Norm lm (Subtract (mesh.getPoint b) (mesh.getPoint a)) = 0 ∧
    ¬ (Norm lm (Subtract (mesh.getPoint b) (mesh.getPoint a)) ≠ 0) ∧
    Normalize lm (Subtract (mesh.getPoint b) (mesh.getPoint a)) =
      (Subtract (mesh.getPoint b) (mesh.getPoint a), 0) ∧
    sideLength lm mesh a b = 0 ∧
    (∀ j k : Fin 3, halfDyad lm mesh i a b j k = 0) ∧
    (∀ ed : EdgeData K, touch lm mesh i a b ed = { ed with edgeLength := 0 }) ∧
    ∀ nd ∈ buildEdgeMap lm mesh, nd.1 = makeKey a b → nd.2.edgeLength = 0 := by
  have hsub : Subtract (mesh.getPoint b) (mesh.getPoint a) = (fun _ => 0) := by
    funext k
    simp only [Subtract, hab, sub_self]
  have hnorm : Norm lm (Subtract (mesh.getPoint b) (mesh.getPoint a)) = 0 := by
    rw [hsub]
    simp only [Norm, mul_zero, add_zero, hsqrt0]
  have hNormalize : Normalize lm (Subtract (mesh.getPoint b) (mesh.getPoint a)) =
      (Subtract (mesh.getPoint b) (mesh.getPoint a), 0) := by
    simp only [Normalize, hnorm, ne_eq, not_true_eq_false, if_false]
  have hlen : sideLength lm mesh a b = 0 := by
    simp only [sideLength, hNormalize]
  have hdyad : ∀ j k : Fin 3, halfDyad lm mesh i a b j k = 0 := by
    intro j k
    have hfst : (Normalize lm (Subtract (mesh.getPoint b) (mesh.getPoint a))).1 = fun _ => 0 := by
      rw [hNormalize, hsub]
    simp only [halfDyad, hfst]
    fin_cases k <;> simp [Outer, Cross]
  refine ⟨hsub, hnorm, not_not.mpr hnorm, hNormalize, hlen, hdyad, ?_, ?_⟩
  · intro ed
    have hE : addMatrices ed.E (halfDyad lm mesh i a b) = ed.E := by
      funext j k
      simp only [addMatrices, hdyad, add_zero]
    simp only [touch, hlen, hE]
  · intro nd hnd hkey
    rw [buildEdgeMap_eq] at hnd
    obtain ⟨_, _, _, e4⟩ := (edgePass_inv lm mesh (directedSides mesh)).2.2 nd hnd
    rw [e4, hkey, makeKey_eq]
    simp only
    have hpos : mesh.getPoint (max a b) = mesh.getPoint (min a b) := by
      rcases le_total a b with hle | hle
      · rw [max_eq_right hle, min_eq_left hle, hab]
      · rw [max_eq_left hle, min_eq_right hle, hab]
    have hz : Subtract (mesh.getPoint (max a b)) (mesh.getPoint (min a b)) = (fun _ => 0) := by
      funext k
      simp only [Subtract, hpos, sub_self]
    rw [hz]
    simp only [Norm, mul_zero, add_zero, hsqrt0]

theorem zero_length_side_witness :
    lmQ.sqrt 0 = 0 ∧ (tetra ℚ 0 ![1, 1, 1]).getPoint 0 = (tetra ℚ 0 ![1, 1, 1]).getPoint 1 ∧
    Normalize lmQ (Subtract ((tetra ℚ 0 ![1, 1, 1]).getPoint 1)
        ((tetra ℚ 0 ![1, 1, 1]).getPoint 0)) =
      (Subtract ((tetra ℚ 0 ![1, 1, 1]).getPoint 1) ((tetra ℚ 0 ![1, 1, 1]).getPoint 0), 0) ∧
    sideLength lmQ (tetra ℚ 0 ![1, 1, 1]) 0 1 = 0 ∧
    (∀ j k : Fin 3, halfDyad lmQ (tetra ℚ 0 ![1, 1, 1]) 1 0 1 j k = 0) :=
  ⟨rfl, rfl,
    (zero_length_side lmQ rfl (tetra ℚ 0 ![1, 1, 1]) 1 0 1 rfl).2.2.2.1,
    (zero_length_side lmQ rfl (tetra ℚ 0 ![1, 1, 1]) 1 0 1 rfl).2.2.2.2.1,
    (zero_length_side lmQ rfl (tetra ℚ 0 ![1, 1, 1]) 1 0 1 rfl).2.2.2.2.2.1⟩

end ZeroLength


/-! ## Lookups of the evaluation -/

section Lookups

variable {K : Type} [LinearOrderedField K]

/-- A loop faults when the body faults at one of its iterations, whatever
the accumulator. -/
theorem foldlM_eq_none {β σ : Type} (f : σ → β → Option σ) (l : List β) (b : β)
    (hb : b ∈ l) (hf : ∀ s, f s b = none) (s : σ) : l.foldlM f s = none := by
  induction l generalizing s with
  | nil => simp at hb
  | cons a l ih =>
    simp only [List.foldlM_cons]
    cases hfa : f s a with
    | none => rfl
    | some s1 =>
      simp only [Option.bind_eq_bind, Option.some_bind]
      rcases List.mem_cons.mp hb with h | h
      · rw [← h, hf] at hfa
        simp at hfa
      · exact ih h s1

/-- An entry of the edge list with an endpoint outside the cache makes
`getGravityWerner` fault. -/
theorem getGravityWerner_fault (lm : LibM K) (fieldPoint : Vec3 K) (acc : Option (Vec3 K))
    (st : State K) (mesh : Platemodel K) (hpoly : st.polyData = some mesh)
    (i : Nat) (ed : EdgeData K) (hed : st.edgeData[i]? = some ed)
    (hread : readAt (displacements lm mesh fieldPoint) ed.p1 = none ∨
      readAt (displacements lm mesh fieldPoint) ed.p2 = none) :
    compute_Le lm (displacements lm mesh fieldPoint) ed = none ∧
    getGravityWerner lm fieldPoint acc st = none := by
  have hLe : compute_Le lm (displacements lm mesh fieldPoint) ed = none := by
    unfold compute_Le
    rcases hread with h | h
    · rw [h]; rfl
    · rw [h]
      cases readAt (displacements lm mesh fieldPoint) ed.p1 <;> rfl
  refine ⟨hLe, ?_⟩
  have hi : i < st.edgeData.length := (List.getElem?_eq_some_iff.mp hed).1
  have hstep : ∀ s, edgeStep lm st.edgeData (displacements lm mesh fieldPoint) s i = none := by
    intro s
    simp only [edgeStep, hed, Option.some_bind, edgeBody, hLe, Option.bind_eq_bind]
    cases readAt (displacements lm mesh fieldPoint) ed.p1 <;> rfl
  unfold getGravityWerner
  simp only [hpoly, cachePoints_eq, Option.bind_eq_bind, Option.some_bind]
  rw [foldlM_eq_none _ _ i (List.mem_range.mpr hi) hstep]
  rfl

/-- The vertex ids carried by the edge list after the build, when the build
fills the list or the list was empty before. -/
theorem built_edge_ids (lm : LibM K) (iterate : EdgeDataMap K → EdgeDataMap K)
    (mesh : Platemodel K) (st st' : State K)
    (hperm : ∀ m, (iterate m).Perm m)
    (h : initializeGravityWerner lm iterate mesh st = some st')
    (hids : ∀ f < mesh.getNumberOfPlates, ∀ j : Fin 3,
      0 ≤ mesh.getPlatePoints f j ∧ mesh.getPlatePoints f j < (mesh.getNumberOfPoints : Int))
    (hfill : (buildEdgeMap lm mesh).length = mesh.getNumberOfPlates * 3 / 2 ∨ st.edgeData = []) :
    ∀ ed ∈ st'.edgeData, (0 ≤ ed.p1 ∧ ed.p1 < (mesh.getNumberOfPoints : Int)) ∧
      (0 ≤ ed.p2 ∧ ed.p2 < (mesh.getNumberOfPoints : Int)) := by
  obtain ⟨hle, hst⟩ := initializeGravityWerner_some lm iterate mesh st st' h
  have hl : (iterate (buildEdgeMap lm mesh)).length = (buildEdgeMap lm mesh).length :=
    (hperm _).length_eq
  intro ed hed
  rw [hst] at hed
  simp only [List.mem_append] at hed
  rcases hed with hed | hed
  · obtain ⟨nd, hnd, rfl⟩ := List.mem_map.mp hed
    exact buildEdgeMap_ids lm mesh _ hids nd ((hperm _).mem_iff.mp hnd)
  · rcases hfill with hfill | hfill
    · have hdrop : (resize st.edgeData (mesh.getNumberOfPlates * 3 / 2) EdgeData.zero).drop
          (iterate (buildEdgeMap lm mesh)).length = [] := by
        rw [List.drop_eq_nil_iff, length_resize, hl, hfill]
      rw [hdrop] at hed
      simp at hed
    · have hpad := List.mem_of_mem_drop hed
      rw [hfill] at hpad
      simp only [resize, List.take_nil, List.nil_append, List.length_nil, Nat.sub_zero] at hpad
      have hz : ed = EdgeData.zero := (List.mem_replicate.mp hpad).2
      have hpos : 0 < mesh.getNumberOfPlates := by
        have := (List.mem_replicate.mp hpad).1
        omega
      have h0 := hids 0 hpos 0
      rw [hz]
      simp only [EdgeData.zero]
      omega

/-- C27 as amended: when every vertex id of every plate is in `[0, numPoints)`,
the file-level variables were left by `initializeGravityWerner` on that plate
model, and the build filled the edge list (the edge map has `numFaces*3/2`
nodes) or the edge list was empty before the build, then at every field
point: the cache has exactly `numPoints` entries; every index `i` below the
length of the edge list holds an entry whose endpoints `p1`, `p2` are found in
the cache, and `compute_Le` returns on it; every index `i < numFaces` holds an
entry of the face list whose vertices `p1`, `p2`, `p3` are found in the cache,
and `compute_wf` returns on it; `getGravityWerner` and `isInsidePolyhedron`
return. -/
theorem evaluation_lookups_inRange (lm : LibM K) (iterate : EdgeDataMap K → EdgeDataMap K)
    (mesh : Platemodel K) (st st' : State K)
    (hperm : ∀ m, (iterate m).Perm m)
    (h : initializeGravityWerner lm iterate mesh st = some st')
    (hids : ∀ f < mesh.getNumberOfPlates, ∀ j : Fin 3,
      0 ≤ mesh.getPlatePoints f j ∧ mesh.getPlatePoints f j < (mesh.getNumberOfPoints : Int))
    (hfill : (buildEdgeMap lm mesh).length = mesh.getNumberOfPlates * 3 / 2 ∨ st.edgeData = [])
    (fieldPoint : Vec3 K) (acc : Option (Vec3 K)) :
    cachePoints lm mesh fieldPoint st'.pointData = some (displacements lm mesh fieldPoint) ∧
    (displacements lm mesh fieldPoint).length = mesh.getNumberOfPoints ∧
    st'.edgeData.length = mesh.getNumberOfPlates * 3 / 2 ∧
    st'.faceData.length = mesh.getNumberOfPlates ∧
    (∀ i < st'.edgeData.length, ∃ ed, st'.edgeData[i]? = some ed ∧
      (readAt (displacements lm mesh fieldPoint) ed.p1).isSome = true ∧
      (readAt (displacements lm mesh fieldPoint) ed.p2).isSome = true ∧
      (compute_Le lm (displacements lm mesh fieldPoint) ed).isSome = true) ∧
    (∀ i < mesh.getNumberOfPlates, ∃ fd, st'.faceData[i]? = some fd ∧
      (readAt (displacements lm mesh fieldPoint) fd.p1).isSome = true ∧
      (readAt (displacements lm mesh fieldPoint) fd.p2).isSome = true ∧
      (readAt (displacements lm mesh fieldPoint) fd.p3).isSome = true ∧
      (compute_wf lm (displacements lm mesh fieldPoint) fd).isSome = true) ∧
    (getGravityWerner lm fieldPoint acc st').isSome = true ∧
    (isInsidePolyhedron lm fieldPoint st').isSome = true := by
  have hE := built_edge_ids lm iterate mesh st st' hperm h hids hfill
  obtain ⟨hle, hst⟩ := initializeGravityWerner_some lm iterate mesh st st' h
  have hpoly : st'.polyData = some mesh := by rw [hst]
  have hfaces : st'.faceData = (List.range mesh.getNumberOfPlates).map (makeFace mesh) := by
    rw [hst]
  have hflen : st'.faceData.length = mesh.getNumberOfPlates := by
    rw [hfaces]; simp
  have helen : st'.edgeData.length = mesh.getNumberOfPlates * 3 / 2 := by
    rw [hst]
    simp only [List.length_append, List.length_map, List.length_drop, length_resize]
    omega
  have hF : ∀ fd ∈ st'.faceData, (0 ≤ fd.p1 ∧ fd.p1 < (mesh.getNumberOfPoints : Int)) ∧
      (0 ≤ fd.p2 ∧ fd.p2 < (mesh.getNumberOfPoints : Int)) ∧
      (0 ≤ fd.p3 ∧ fd.p3 < (mesh.getNumberOfPoints : Int)) := by
    intro fd hfd
    rw [hfaces] at hfd
    obtain ⟨i, hi, rfl⟩ := List.mem_map.mp hfd
    have hi' := List.mem_range.mp hi
    exact ⟨hids i hi' 0, hids i hi' 1, hids i hi' 2⟩
  have hsome : ∀ {α : Type} {o : Option α}, (∃ x, o = some x) → o.isSome = true := by
    intro α o hx
    obtain ⟨x, hx⟩ := hx
    rw [hx]
    rfl
  refine ⟨cachePoints_eq lm mesh fieldPoint _, length_displacements lm mesh fieldPoint,
    helen, hflen, ?_, ?_, evaluation_isSome lm fieldPoint acc st' mesh hpoly hflen hE hF⟩
  · intro i hi
    refine ⟨st'.edgeData[i], List.getElem?_eq_getElem hi, ?_⟩
    have hin := hE _ (List.getElem_mem hi)
    have r1 := readAt_displacements_some lm mesh fieldPoint _ hin.1.1 hin.1.2
    have r2 := readAt_displacements_some lm mesh fieldPoint _ hin.2.1 hin.2.2
    exact ⟨hsome r1, hsome r2, hsome (compute_Le_some lm _ _ r1 r2)⟩
  · intro i hi
    have hi' : i < st'.faceData.length := by rw [hflen]; exact hi
    refine ⟨st'.faceData[i], List.getElem?_eq_getElem hi', ?_⟩
    have hin := hF _ (List.getElem_mem hi')
    have r1 := readAt_displacements_some lm mesh fieldPoint _ hin.1.1 hin.1.2
    have r2 := readAt_displacements_some lm mesh fieldPoint _ hin.2.1.1 hin.2.1.2
    have r3 := readAt_displacements_some lm mesh fieldPoint _ hin.2.2.1 hin.2.2.2
    exact ⟨hsome r1, hsome r2, hsome r3, hsome (compute_wf_some lm _ _ r1 r2 r3)⟩

end Lookups

section StaleEdge

set_option maxRecDepth 100000 in
theorem length_buildEdgeMap_tripleQ : (buildEdgeMap lmQ tripleQ).length = 3 := by decide

set_option maxRecDepth 100000 in
theorem ids_tripleQ : ∀ f < tripleQ.getNumberOfPlates, ∀ j : Fin 3,
    0 ≤ tripleQ.getPlatePoints f j ∧
      tripleQ.getPlatePoints f j < (tripleQ.getNumberOfPoints : Int) := by
  decide

/-- The endpoints stored in the nodes of the edge map are vertex ids of a
plate. -/
theorem buildEdgeMap_endpoints {K : Type} [LinearOrderedField K] (lm : LibM K)
    (mesh : Platemodel K) (nd : EdgeKey × EdgeData K) (hnd : nd ∈ buildEdgeMap lm mesh) :
    ∃ f < mesh.getNumberOfPlates, ∃ j j' : Fin 3,
      nd.2.p1 = mesh.getPlatePoints f j ∧ nd.2.p2 = mesh.getPlatePoints f j' := by
  obtain ⟨_, hmem, hdata⟩ := edgePass_inv lm mesh (directedSides mesh)
  rw [← buildEdgeMap_eq] at hmem hdata
  obtain ⟨e1, e2, _, _⟩ := hdata nd hnd
  have hk : nd.1 ∈ (directedSides mesh).map canonical :=
    (hmem nd.1).mp (List.mem_map.mpr ⟨nd, hnd, rfl⟩)
  obtain ⟨s, hs, hsk⟩ := List.mem_map.mp hk
  obtain ⟨f, hf, j, j', ha, hb⟩ := directedSides_mem hs
  have hp1 : nd.1.p1 = min s.2.1 s.2.2 := by rw [← hsk]; rfl
  have hp2 : nd.1.p2 = max s.2.1 s.2.2 := by rw [← hsk]; rfl
  rw [e1, e2, hp1, hp2]
  rcases le_total s.2.1 s.2.2 with hle | hle
  · rw [min_eq_left hle, max_eq_right hle]
    exact ⟨f, hf, j, j', ha, hb⟩
  · rw [min_eq_right hle, max_eq_left hle]
    exact ⟨f, hf, j', j, hb, ha⟩

set_option maxRecDepth 100000 in
theorem length_buildEdgeMap_tetraHighQ : (buildEdgeMap lmQ tetraHighQ).length = 6 := by decide

set_option maxRecDepth 100000 in
theorem ids_tetraHighQ : ∀ f < tetraHighQ.getNumberOfPlates, ∀ j : Fin 3,
    3 ≤ tetraHighQ.getPlatePoints f j ∧
      tetraHighQ.getPlatePoints f j < (tetraHighQ.getNumberOfPoints : Int) := by
  decide

/-- In whatever order the two edge maps are traversed: after a build on
`tetraHighQ`, the build on `tripleQ` returns and leaves, at index `3` of the
edge list, an entry of the first build; its first endpoint is at least `3` and
`getGravityWerner` faults on it. -/
theorem stale_edge_any_order (it1 it2 : EdgeDataMap ℚ → EdgeDataMap ℚ)
    (h1 : ∀ m, (it1 m).Perm m) (h2 : ∀ m, (it2 m).Perm m) (fieldPoint : Vec3 ℚ) :
    ∃ st1 st2, initializeGravityWerner lmQ it1 tetraHighQ st0 = some st1 ∧
      initializeGravityWerner lmQ it2 tripleQ st1 = some st2 ∧
      st2.edgeData.length = 4 ∧ (displacements lmQ tripleQ fieldPoint).length = 3 ∧
      ∃ ed, st2.edgeData[3]? = some ed ∧ 3 ≤ ed.p1 ∧
        readAt (displacements lmQ tripleQ fieldPoint) ed.p1 = none ∧
        compute_Le lmQ (displacements lmQ tripleQ fieldPoint) ed = none ∧
        getGravityWerner lmQ fieldPoint none st2 = none := by
  have hl1 : (it1 (buildEdgeMap lmQ tetraHighQ)).length = 6 := by
    rw [(h1 _).length_eq, length_buildEdgeMap_tetraHighQ]
  have hl2 : (it2 (buildEdgeMap lmQ tripleQ)).length = 3 := by
    rw [(h2 _).length_eq, length_buildEdgeMap_tripleQ]
  have hinit1 := initializeGravityWerner_eq lmQ it1 tetraHighQ st0
  rw [if_pos (by rw [hl1]; decide)] at hinit1
  have hdrop : (resize st0.edgeData (tetraHighQ.getNumberOfPlates * 3 / 2) EdgeData.zero).drop
      (it1 (buildEdgeMap lmQ tetraHighQ)).length = [] := by
    rw [List.drop_eq_nil_iff, length_resize, hl1]
    decide
  rw [hdrop, List.append_nil] at hinit1
  have hinit2 := initializeGravityWerner_eq lmQ it2 tripleQ
    { edgeData := (it1 (buildEdgeMap lmQ tetraHighQ)).map Prod.snd
      faceData := (List.range tetraHighQ.getNumberOfPlates).map (makeFace tetraHighQ)
      polyData := some tetraHighQ
      pointData := st0.pointData }
  rw [if_pos (by rw [hl2]; decide)] at hinit2
  have key : ∀ st2 : State ℚ, st2.polyData = some tripleQ →
      st2.edgeData = List.map Prod.snd (it2 (buildEdgeMap lmQ tripleQ)) ++
        List.drop (it2 (buildEdgeMap lmQ tripleQ)).length
          (resize ((it1 (buildEdgeMap lmQ tetraHighQ)).map Prod.snd)
            (tripleQ.getNumberOfPlates * 3 / 2) EdgeData.zero) →
      st2.edgeData.length = 4 ∧ (displacements lmQ tripleQ fieldPoint).length = 3 ∧
      ∃ ed, st2.edgeData[3]? = some ed ∧ 3 ≤ ed.p1 ∧
        readAt (displacements lmQ tripleQ fieldPoint) ed.p1 = none ∧
        compute_Le lmQ (displacements lmQ tripleQ fieldPoint) ed = none ∧
        getGravityWerner lmQ fieldPoint none st2 = none := by
    intro st2 hpoly hedges
    refine ⟨?_, length_displacements _ _ _, ?_⟩
    · rw [hedges]
      simp only [List.length_append, List.length_map, List.length_drop, length_resize, hl2]
      rfl
    · have h3 : 3 < ((it1 (buildEdgeMap lmQ tetraHighQ)).map Prod.snd).length := by
        rw [List.length_map, hl1]
        decide
      have hget : st2.edgeData[3]?
          = some (((it1 (buildEdgeMap lmQ tetraHighQ)).map Prod.snd)[3]) := by
        rw [hedges, List.getElem?_append_right (by simp [hl2])]
        simp only [List.length_map, hl2, Nat.sub_self, List.getElem?_drop, Nat.add_zero, resize]
        rw [List.getElem?_append_left (by simp [hl1, tripleQ]), List.getElem?_take,
          if_pos (by decide), List.getElem?_eq_getElem h3]
      have hmem := List.getElem_mem h3
      obtain ⟨nd, hnd, hnd2⟩ := List.mem_map.mp hmem
      obtain ⟨f, hf, j, _, hp1, _⟩ :=
        buildEdgeMap_endpoints lmQ tetraHighQ nd ((h1 _).mem_iff.mp hnd)
      have hge : 3 ≤ (((it1 (buildEdgeMap lmQ tetraHighQ)).map Prod.snd)[3]).p1 := by
        rw [← hnd2, hp1]
        exact (ids_tetraHighQ f hf j).1
      have hread : readAt (displacements lmQ tripleQ fieldPoint)
          (((it1 (buildEdgeMap lmQ tetraHighQ)).map Prod.snd)[3]).p1 = none := by
        rw [readAt, if_pos (by omega)]
        apply List.getElem?_eq_none
        rw [length_displacements]
        have : tripleQ.getNumberOfPoints = 3 := rfl
        omega
      obtain ⟨hLe, hfault⟩ := getGravityWerner_fault lmQ fieldPoint none st2 tripleQ hpoly 3 _
        hget (Or.inl hread)
      exact ⟨_, hget, hge, hread, hLe, hfault⟩
  exact ⟨_, _, hinit1, hinit2, key _ rfl rfl⟩

/-- Counterexample to C27: every vertex id of the three plates of `tripleQ` is
in `[0, 3)`.  After a build on `tetraHighQ`, a tetrahedron on the vertices `3`
to `6`, the build on `tripleQ` returns with an edge list of `3*3/2 = 4`
entries; the edge map of `tripleQ` has three nodes, so entry `3` is still an
edge of the tetrahedron.  The cache of `tripleQ` has three entries:
`compute_Le` reads `pointData[ed.p1]` outside it and `getGravityWerner`
faults. -/
theorem getGravityWerner_stale_edge_fault :
    (∀ f < tripleQ.getNumberOfPlates, ∀ j : Fin 3,
      0 ≤ tripleQ.getPlatePoints f j ∧
        tripleQ.getPlatePoints f j < (tripleQ.getNumberOfPoints : Int)) ∧
    ∃ st1 st2, initializeGravityWerner lmQ id tetraHighQ st0 = some st1 ∧
      initializeGravityWerner lmQ id tripleQ st1 = some st2 ∧
      st2.edgeData.length = 4 ∧ (displacements lmQ tripleQ ![10, 10, 10]).length = 3 ∧
      ∃ ed, st2.edgeData[3]? = some ed ∧ 3 ≤ ed.p1 ∧
        readAt (displacements lmQ tripleQ ![10, 10, 10]) ed.p1 = none ∧
        compute_Le lmQ (displacements lmQ tripleQ ![10, 10, 10]) ed = none ∧
        getGravityWerner lmQ ![10, 10, 10] none st2 = none :=
  ⟨ids_tripleQ, stale_edge_any_order id id (fun m => List.Perm.refl m)
    (fun m => List.Perm.refl m) ![10, 10, 10]⟩

theorem evaluation_lookups_inRange_witness :
    initializeGravityWerner lmQ id tetraQ st0 = some tetraBuilt ∧
    (buildEdgeMap lmQ tetraQ).length = tetraQ.getNumberOfPlates * 3 / 2 ∧
    cachePoints lmQ tetraQ ![10, 10, 10] tetraBuilt.pointData =
      some (displacements lmQ tetraQ ![10, 10, 10]) ∧
    (displacements lmQ tetraQ ![10, 10, 10]).length = tetraQ.getNumberOfPoints ∧
    tetraBuilt.edgeData.length = tetraQ.getNumberOfPlates * 3 / 2 ∧
    tetraBuilt.faceData.length = tetraQ.getNumberOfPlates ∧
    (∀ i < tetraBuilt.edgeData.length, ∃ ed, tetraBuilt.edgeData[i]? = some ed ∧
      (readAt (displacements lmQ tetraQ ![10, 10, 10]) ed.p1).isSome = true ∧
      (readAt (displacements lmQ tetraQ ![10, 10, 10]) ed.p2).isSome = true ∧
      (compute_Le lmQ (displacements lmQ tetraQ ![10, 10, 10]) ed).isSome = true) ∧
    (∀ i < tetraQ.getNumberOfPlates, ∃ fd, tetraBuilt.faceData[i]? = some fd ∧
      (readAt (displacements lmQ tetraQ ![10, 10, 10]) fd.p1).isSome = true ∧
      (readAt (displacements lmQ tetraQ ![10, 10, 10]) fd.p2).isSome = true ∧
      (readAt (displacements lmQ tetraQ ![10, 10, 10]) fd.p3).isSome = true ∧
      (compute_wf lmQ (displacements lmQ tetraQ ![10, 10, 10]) fd).isSome = true) ∧
    (getGravityWerner lmQ ![10, 10, 10] (some ![0, 0, 0]) tetraBuilt).isSome = true ∧
    (isInsidePolyhedron lmQ ![10, 10, 10] tetraBuilt).isSome = true :=
  ⟨initialize_tetraQ, length_buildEdgeMap_tetraQ,
    evaluation_lookups_inRange lmQ id tetraQ st0 tetraBuilt (fun m => List.Perm.refl m)
      initialize_tetraQ ids_tetraQ (Or.inl length_buildEdgeMap_tetraQ) ![10, 10, 10]
      (some ![0, 0, 0])⟩

end StaleEdge


section TranslationWitness

theorem translation_invariance_witness :
    ((initializeGravityWerner lmQ id tetraQ st0).bind fun s =>
        (getGravityWerner lmQ ![10, 10, 10] (some ![0, 0, 0]) s).map
          (fun r => (r.potential, r.acc))).isSome = true ∧
    ((initializeGravityWerner lmQ id (translate tetraQ ![1, 2, 3]) st0).bind fun s =>
        (getGravityWerner lmQ (fun c => (![10, 10, 10] : Vec3 ℚ) c + (![1, 2, 3] : Vec3 ℚ) c)
          (some ![0, 0, 0]) s).map (fun r => (r.potential, r.acc))) =
      ((initializeGravityWerner lmQ id tetraQ st0).bind fun s =>
        (getGravityWerner lmQ ![10, 10, 10] (some ![0, 0, 0]) s).map
          (fun r => (r.potential, r.acc))) := by
  refine ⟨?_, (translation_invariance lmQ id tetraQ st0 ![1, 2, 3] ![10, 10, 10]
    (some ![0, 0, 0])).2.2.1⟩
  rw [initialize_tetraQ, Option.some_bind, Option.isSome_map']
  have hF : ∀ fd ∈ tetraBuilt.faceData,
      (0 ≤ fd.p1 ∧ fd.p1 < (tetraQ.getNumberOfPoints : Int)) ∧
      (0 ≤ fd.p2 ∧ fd.p2 < (tetraQ.getNumberOfPoints : Int)) ∧
      (0 ≤ fd.p3 ∧ fd.p3 < (tetraQ.getNumberOfPoints : Int)) := by
    intro fd hfd
    obtain ⟨i, hi, rfl⟩ := List.mem_map.mp hfd
    have hi' := List.mem_range.mp hi
    exact ⟨ids_tetraQ i hi' 0, ids_tetraQ i hi' 1, ids_tetraQ i hi' 2⟩
  exact (evaluation_isSome lmQ ![10, 10, 10] (some ![0, 0, 0]) tetraBuilt tetraQ rfl rfl
    (built_edge_ids lmQ id tetraQ st0 tetraBuilt (fun m => List.Perm.refl m) initialize_tetraQ
      ids_tetraQ (Or.inr rfl)) hF).1

end TranslationWitness


/-! ## The entries of the edge list and the sides of the plates -/

section Entries

variable {K : Type} [LinearOrderedField K]

/-- The edge map has one node for every distinct canonical pair of the
directed sides of the plate model. -/
theorem length_buildEdgeMap (lm : LibM K) (mesh : Platemodel K) :
    (buildEdgeMap lm mesh).length = ((directedSides mesh).map canonical).dedup.length := by
  obtain ⟨hnd, hmem, _⟩ := edgePass_inv lm mesh (directedSides mesh)
  rw [← buildEdgeMap_eq] at hnd hmem
  have hperm : ((buildEdgeMap lm mesh).map Prod.fst).Perm
      ((directedSides mesh).map canonical).dedup :=
    (List.perm_ext_iff_of_nodup hnd (List.nodup_dedup _)).mpr
      (fun k => by rw [hmem k, List.mem_dedup])
  rw [← hperm.length_eq, List.length_map]

/-- The canonical pair stored in every entry written by the build is the pair
of a directed side of the plate model. -/
theorem entry_side (lm : LibM K) (iterate : EdgeDataMap K → EdgeDataMap K)
    (mesh : Platemodel K) (st st' : State K)
    (hperm : ∀ m, (iterate m).Perm m)
    (h : initializeGravityWerner lm iterate mesh st = some st')
    (i : Nat) (hi : i < (buildEdgeMap lm mesh).length) :
    ∃ ed, st'.edgeData[i]? = some ed ∧
      ∃ s ∈ directedSides mesh, ed.p1 = min s.2.1 s.2.2 ∧ ed.p2 = max s.2.1 s.2.2 := by
  obtain ⟨nd, hnd, hget⟩ := built_entry lm iterate mesh st st' hperm h i hi
  refine ⟨nd.2, hget, ?_⟩
  obtain ⟨_, hmem, hdata⟩ := edgePass_inv lm mesh (directedSides mesh)
  rw [← buildEdgeMap_eq] at hmem hdata
  obtain ⟨e1, e2, _, _⟩ := hdata nd hnd
  have hk : nd.1 ∈ (directedSides mesh).map canonical :=
    (hmem nd.1).mp (List.mem_map.mpr ⟨nd, hnd, rfl⟩)
  obtain ⟨s, hs, hsk⟩ := List.mem_map.mp hk
  refine ⟨s, hs, ?_, ?_⟩
  · rw [e1, ← hsk]; rfl
  · rw [e2, ← hsk]; rfl

/-- The sum of the half dyads in the vocabulary of the specification. -/
theorem sum_halfDyad_eq (lm : LibM K) (mesh : Platemodel K) (l : List (Nat × Int × Int)) :
    Matrix.of (l.map (fun s => halfDyad lm mesh s.1 s.2.1 s.2.2)).sum =
      (l.map fun s => Matrix.vecMulVec (mesh.getNormal s.1)
        (crossProduct (unitVector lm mesh s.2.1 s.2.2) (mesh.getNormal s.1))).sum := by
  simp only [halfDyad_eq]
  rfl

/-- C5: after `initializeGravityWerner`, the first `N` entries of the edge
list, `N` the number of distinct canonical pairs of the directed sides of the
plates, are the built edges.  Every directed side `(a, b)` of every plate (in
winding order) has an entry among them with `p1 = min a b`, `p2 = max a b`,
whose dyad is the sum, over the directed sides `(a', b')` of all plates with
the same canonical pair, of `outer(n, cross(u, n))`, `n` the normal of the
plate of the side and `u` the unit vector from `position(a')` to
`position(b')`; and every one of the `N` entries is the entry of such a
side. -/
theorem initializeGravityWerner_edgeDyad (lm : LibM K)
    (iterate : EdgeDataMap K → EdgeDataMap K) (mesh : Platemodel K) (st st' : State K)
    (hperm : ∀ m, (iterate m).Perm m)
    (h : initializeGravityWerner lm iterate mesh st = some st') :
    (∀ s ∈ directedSides mesh,
      ∃ i < ((directedSides mesh).map canonical).dedup.length, ∃ ed,
        st'.edgeData[i]? = some ed ∧ ed.p1 = min s.2.1 s.2.2 ∧ ed.p2 = max s.2.1 s.2.2 ∧
        Matrix.of ed.E =
          (((directedSides mesh).filter fun t => canonical t = canonical s).map fun t =>
            Matrix.vecMulVec (mesh.getNormal t.1)
              (crossProduct (unitVector lm mesh t.2.1 t.2.2) (mesh.getNormal t.1))).sum) ∧
    ∀ i < ((directedSides mesh).map canonical).dedup.length, ∃ ed,
      st'.edgeData[i]? = some ed ∧
      ∃ s ∈ directedSides mesh, ed.p1 = min s.2.1 s.2.2 ∧ ed.p2 = max s.2.1 s.2.2 ∧
        Matrix.of ed.E =
          (((directedSides mesh).filter fun t => canonical t = canonical s).map fun t =>
            Matrix.vecMulVec (mesh.getNormal t.1)
              (crossProduct (unitVector lm mesh t.2.1 t.2.2) (mesh.getNormal t.1))).sum := by
  rw [← length_buildEdgeMap lm mesh]
  constructor
  · intro s hs
    obtain ⟨i, hi, ed, hed, h1, h2⟩ := key_copied lm iterate mesh st st' hperm h s hs
    obtain ⟨hE, _⟩ := entry_data lm iterate mesh st st' hperm h i hi ed hed
    have hkey : (⟨ed.p1, ed.p2⟩ : EdgeKey) = canonical s := by rw [h1, h2]; rfl
    refine ⟨i, hi, ed, hed, h1, h2, ?_⟩
    rw [hE, hkey]
    exact sum_halfDyad_eq lm mesh _
  · intro i hi
    obtain ⟨ed, hed, s, hs, h1, h2⟩ := entry_side lm iterate mesh st st' hperm h i hi
    obtain ⟨hE, _⟩ := entry_data lm iterate mesh st st' hperm h i hi ed hed
    have hkey : (⟨ed.p1, ed.p2⟩ : EdgeKey) = canonical s := by rw [h1, h2]; rfl
    refine ⟨ed, hed, s, hs, h1, h2, ?_⟩
    rw [hE, hkey]
    exact sum_halfDyad_eq lm mesh _

/-- C8: every directed side `(a, b)` of every plate has an entry among the `N`
built entries of the edge list (`N` the number of distinct canonical pairs)
with `p1 = min a b`, `p2 = max a b`, whose length is the Euclidean distance
between the positions of `p1` and `p2`, which is the distance between the
positions of `a` and `b`; every directed side with the same canonical pair,
taken in its own or in the opposite direction, writes this same value, so the
stored length does not depend on which side wrote last; and every one of the
`N` entries is the entry of such a side. -/
theorem initializeGravityWerner_edgeLength (lm : LibM K)
    (iterate : EdgeDataMap K → EdgeDataMap K) (mesh : Platemodel K) (st st' : State K)
    (hperm : ∀ m, (iterate m).Perm m)
    (h : initializeGravityWerner lm iterate mesh st = some st') :
    (∀ s ∈ directedSides mesh,
      ∃ i < ((directedSides mesh).map canonical).dedup.length, ∃ ed,
        st'.edgeData[i]? = some ed ∧ ed.p1 = min s.2.1 s.2.2 ∧ ed.p2 = max s.2.1 s.2.2 ∧
        ed.edgeLength = lm.sqrt
          ((mesh.getPoint ed.p2 0 - mesh.getPoint ed.p1 0) ^ 2
            + (mesh.getPoint ed.p2 1 - mesh.getPoint ed.p1 1) ^ 2
            + (mesh.getPoint ed.p2 2 - mesh.getPoint ed.p1 2) ^ 2) ∧
        ed.edgeLength = lm.sqrt
          ((mesh.getPoint s.2.2 0 - mesh.getPoint s.2.1 0) ^ 2
            + (mesh.getPoint s.2.2 1 - mesh.getPoint s.2.1 1) ^ 2
            + (mesh.getPoint s.2.2 2 - mesh.getPoint s.2.1 2) ^ 2) ∧
        ∀ t ∈ directedSides mesh, canonical t = canonical s →
          sideLength lm mesh t.2.1 t.2.2 = ed.edgeLength ∧
          sideLength lm mesh t.2.2 t.2.1 = ed.edgeLength) ∧
    ∀ i < ((directedSides mesh).map canonical).dedup.length, ∃ ed,
      st'.edgeData[i]? = some ed ∧
      ∃ s ∈ directedSides mesh, ed.p1 = min s.2.1 s.2.2 ∧ ed.p2 = max s.2.1 s.2.2 ∧
        ed.edgeLength = lm.sqrt
          ((mesh.getPoint ed.p2 0 - mesh.getPoint ed.p1 0) ^ 2
            + (mesh.getPoint ed.p2 1 - mesh.getPoint ed.p1 1) ^ 2
            + (mesh.getPoint ed.p2 2 - mesh.getPoint ed.p1 2) ^ 2) := by
  rw [← length_buildEdgeMap lm mesh]
  have hside : ∀ a b : Int, sideLength lm mesh a b = lm.sqrt
      ((mesh.getPoint b 0 - mesh.getPoint a 0) ^ 2
        + (mesh.getPoint b 1 - mesh.getPoint a 1) ^ 2
        + (mesh.getPoint b 2 - mesh.getPoint a 2) ^ 2) := by
    intro a b
    have h1 : sideLength lm mesh a b = Norm lm (Subtract (mesh.getPoint b) (mesh.getPoint a)) := by
      simp only [sideLength, Normalize]
      split_ifs <;> rfl
    rw [h1]
    simp only [Norm, Subtract, sq]
  have hnorm : ∀ ed : EdgeData K,
      ed.edgeLength = Norm lm (Subtract (mesh.getPoint ed.p2) (mesh.getPoint ed.p1)) →
      ed.edgeLength = lm.sqrt
        ((mesh.getPoint ed.p2 0 - mesh.getPoint ed.p1 0) ^ 2
          + (mesh.getPoint ed.p2 1 - mesh.getPoint ed.p1 1) ^ 2
          + (mesh.getPoint ed.p2 2 - mesh.getPoint ed.p1 2) ^ 2) := by
    intro ed hL
    rw [hL]
    simp only [Norm, Subtract, sq]
  constructor
  · intro s hs
    obtain ⟨i, hi, ed, hed, h1, h2⟩ := key_copied lm iterate mesh st st' hperm h s hs
    obtain ⟨_, hL⟩ := entry_data lm iterate mesh st st' hperm h i hi ed hed
    have hboth : ∀ t : Nat × Int × Int, canonical t = canonical s →
        sideLength lm mesh t.2.1 t.2.2 = ed.edgeLength ∧
        sideLength lm mesh t.2.2 t.2.1 = ed.edgeLength := by
      intro t ht
      have e1 := sideLength_eq lm mesh t.2.1 t.2.2
      have e2 := sideLength_eq lm mesh t.2.2 t.2.1
      rw [max_comm, min_comm] at e2
      have hp1 : ed.p1 = min t.2.1 t.2.2 := by
        rw [h1]
        exact (congrArg EdgeKey.p1 ht).symm
      have hp2 : ed.p2 = max t.2.1 t.2.2 := by
        rw [h2]
        exact (congrArg EdgeKey.p2 ht).symm
      rw [e1, e2, hL, hp1, hp2]
      exact ⟨rfl, rfl⟩
    refine ⟨i, hi, ed, hed, h1, h2, hnorm ed hL, ?_, fun t _ ht => hboth t ht⟩
    rw [← (hboth s rfl).1]
    exact hside _ _
  · intro i hi
    obtain ⟨ed, hed, s, hs, h1, h2⟩ := entry_side lm iterate mesh st st' hperm h i hi
    obtain ⟨_, hL⟩ := entry_data lm iterate mesh st st' hperm h i hi ed hed
    exact ⟨ed, hed, s, hs, h1, h2, hnorm ed hL⟩

end Entries

section EntriesWitness

set_option maxRecDepth 100000 in
theorem keys_tetraQ : ((directedSides tetraQ).map canonical).dedup.length = 6 := by decide

set_option maxRecDepth 100000 in
theorem side01_mem_tetraQ : ((0, 1, 0) : Nat × Int × Int) ∈ directedSides tetraQ := by decide

theorem initializeGravityWerner_edgeDyad_witness :
    ∃ st', initializeGravityWerner lmQ id tetraQ st0 = some st' ∧
      ∃ i < 6, ∃ ed, st'.edgeData[i]? = some ed ∧ ed.p1 = 0 ∧ ed.p2 = 1 ∧
        Matrix.of ed.E = !![0, 0, 0; 0, 0, 1; 0, 1, 0] := by
  refine ⟨tetraBuilt, initialize_tetraQ, ?_⟩
  obtain ⟨i, hi, ed, hed, h1, h2, hE⟩ :=
    (initializeGravityWerner_edgeDyad lmQ id tetraQ st0 tetraBuilt (fun m => List.Perm.refl m)
      initialize_tetraQ).1 (0, 1, 0) side01_mem_tetraQ
  rw [keys_tetraQ] at hi
  refine ⟨i, hi, ed, hed, h1, h2, ?_⟩
  rw [hE, sides01_tetraQ]
  have hu10 : unitVector lmQ tetraQ 1 0 = ![-1, 0, 0] := by
    funext k
    fin_cases k <;> simp [unitVector, lmQ, tetraQ, Matrix.dotProduct, Fin.sum_univ_three]
  have hu01 : unitVector lmQ tetraQ 0 1 = ![1, 0, 0] := by
    funext k
    fin_cases k <;> simp [unitVector, lmQ, tetraQ, Matrix.dotProduct, Fin.sum_univ_three]
  simp only [List.map_cons, List.map_nil, List.sum_cons, List.sum_nil, hu10, hu01]
  ext j k
  fin_cases j <;> fin_cases k <;>
    simp [tetraQ, Matrix.vecMulVec, cross_apply, Matrix.vecHead, Matrix.vecTail]

set_option maxRecDepth 100000 in
theorem keys_tetra_real :
    ((directedSides (tetra ℝ 1 ![1, 1, 1])).map canonical).dedup.length = 6 := by decide

set_option maxRecDepth 100000 in
theorem side21_mem_tetra_real :
    ((0, 2, 1) : Nat × Int × Int) ∈ directedSides (tetra ℝ 1 ![1, 1, 1]) := by decide

set_option maxRecDepth 100000 in
theorem initializeGravityWerner_edgeLength_witness :
    ∃ lm : LibM ℝ, lm.sqrt = Real.sqrt ∧
      ∃ st', initializeGravityWerner lm id (tetra ℝ 1 ![1, 1, 1]) ⟨[], [], none, []⟩ = some st' ∧
        ∃ i < 6, ∃ ed, st'.edgeData[i]? = some ed ∧ ed.p1 = 1 ∧ ed.p2 = 2 ∧
          ed.edgeLength = Real.sqrt 2 := by
  refine ⟨⟨Real.sqrt, Real.log, fun y x => Complex.arg ⟨x, y⟩,
    fun x => if x < 0 then -Real.pi else 0, Real.pi⟩, rfl, ?_⟩
  have hinit := initializeGravityWerner_eq (⟨Real.sqrt, Real.log, fun y x => Complex.arg ⟨x, y⟩,
    fun x => if x < 0 then -Real.pi else 0, Real.pi⟩ : LibM ℝ) id (tetra ℝ 1 ![1, 1, 1])
    ⟨[], [], none, []⟩
  rw [if_pos (by rw [id, length_buildEdgeMap, keys_tetra_real]; decide)] at hinit
  refine ⟨_, hinit, ?_⟩
  obtain ⟨i, hi, ed, hed, h1, h2, hL, _⟩ :=
    (initializeGravityWerner_edgeLength _ id (tetra ℝ 1 ![1, 1, 1]) ⟨[], [], none, []⟩ _
      (fun m => List.Perm.refl m) hinit).1 (0, 2, 1) side21_mem_tetra_real
  rw [keys_tetra_real] at hi
  have hp1 : ed.p1 = 1 := h1
  have hp2 : ed.p2 = 2 := h2
  have hg1 : (tetra ℝ 1 ![1, 1, 1]).getPoint 1 = ![1, 0, 0] := rfl
  have hg2 : (tetra ℝ 1 ![1, 1, 1]).getPoint 2 = ![0, 1, 0] := rfl
  refine ⟨i, hi, ed, hed, hp1, hp2, ?_⟩
  rw [hL, hp1, hp2, hg1, hg2]
  simp only
  congr 1
  norm_num

end EntriesWitness


/-! ## A field point on a long edge, with the square root rounded to binary64 -/

section Rounded

/-- The value of `compute_Le` for the edge from the origin to
`(0, 3000000, 15000000)` at the field point one third of the way along it,
from the three values that `sqrt` returns. -/
theorem compute_Le_long_edge (lm : LibM ℝ) (r1 r2 L : ℝ)
    (h1 : lm.sqrt 26000000000000 = r1) (h2 : lm.sqrt 104000000000000 = r2)
    (h3 : lm.sqrt 234000000000000 = L) :
    (edge01 lm (segment ℝ ![0, 3000000, 15000000])).edgeLength = L ∧
    compute_Le lm
      (displacements lm (segment ℝ ![0, 3000000, 15000000])
        (fun k => (segment ℝ ![0, 3000000, 15000000]).getPoint 0 k
          + 1 / 3 * ((segment ℝ ![0, 3000000, 15000000]).getPoint 1 k
            - (segment ℝ ![0, 3000000, 15000000]).getPoint 0 k)))
      (edge01 lm (segment ℝ ![0, 3000000, 15000000])) =
      some (if |r1 + r2 - L| < 1 / 1000000000 then 0
        else lm.log ((r1 + r2 + L) / (r1 + r2 - L))) := by
  have hL : (edge01 lm (segment ℝ ![0, 3000000, 15000000])).edgeLength = L := by
    rw [← h3]
    simp only [edge01, Norm, Subtract, segment]
    congr 1
    norm_num
  obtain ⟨pd1, hp1⟩ := readAt_displacements_some lm (segment ℝ ![0, 3000000, 15000000])
    (fun k => (segment ℝ ![0, 3000000, 15000000]).getPoint 0 k
      + 1 / 3 * ((segment ℝ ![0, 3000000, 15000000]).getPoint 1 k
        - (segment ℝ ![0, 3000000, 15000000]).getPoint 0 k))
    (edge01 lm (segment ℝ ![0, 3000000, 15000000])).p1 (le_refl _)
    (by show (0 : Int) < ((2 : Nat) : Int); decide)
  obtain ⟨pd2, hp2⟩ := readAt_displacements_some lm (segment ℝ ![0, 3000000, 15000000])
    (fun k => (segment ℝ ![0, 3000000, 15000000]).getPoint 0 k
      + 1 / 3 * ((segment ℝ ![0, 3000000, 15000000]).getPoint 1 k
        - (segment ℝ ![0, 3000000, 15000000]).getPoint 0 k))
    (edge01 lm (segment ℝ ![0, 3000000, 15000000])).p2
    (by show (0 : Int) ≤ 1; decide) (by show (1 : Int) < ((2 : Nat) : Int); decide)
  have hm1 : pd1.r_mag = r1 := by
    rw [readAt_displacements_eq lm _ _ _ pd1 hp1, ← h1]
    simp only [Norm, displacement, edge01, segment]
    congr 1
    norm_num
  have hm2 : pd2.r_mag = r2 := by
    rw [readAt_displacements_eq lm _ _ _ pd2 hp2, ← h2]
    simp only [Norm, displacement, edge01, segment]
    congr 1
    norm_num
  refine ⟨hL, ?_⟩
  rw [compute_Le_eq lm _ _ pd1 pd2 hp1 hp2, hm1, hm2, hL]

/-- Counterexample to C19: the edge from `(0,0,0)` to `(0, 3000000, 15000000)`,
its stored length computed by `Norm`, and the field point `(0, 1000000,
5000000)` on the segment.  The differences, squares and sums are integers
below `2^53`; `sqrt` returns at `26000000000000`, `104000000000000` and
`234000000000000` the nearest binary64 numbers (mantissas in `[2^52, 2^53)`,
the argument within half a unit in the last place), and the real square root
elsewhere.  Then `r1 + r2` is a binary64 number, `r1 + r2 - L = 2^-29`, which is
not below `1e-9`, and `compute_Le` returns a positive logarithm, not `0`. -/
theorem compute_Le_on_segment_rounded :
    ∃ lm : LibM ℝ,
      (∀ x : ℝ, x ≠ 26000000000000 → x ≠ 104000000000000 → x ≠ 234000000000000 →
        lm.sqrt x = Real.sqrt x) ∧
      lm.log = Real.log ∧
      lm.sqrt 26000000000000 = 5475030513136710 / 2 ^ 30 ∧
      lm.sqrt 104000000000000 = 5475030513136710 / 2 ^ 29 ∧
      lm.sqrt 234000000000000 = 8212545769705064 / 2 ^ 29 ∧
      (2 ^ 52 ≤ 5475030513136710 ∧ 5475030513136710 < 2 ^ 53 ∧
        2 ^ 52 ≤ 8212545769705064 ∧ 8212545769705064 < 2 ^ 53) ∧
      (((5475030513136710 - 1 / 2) / 2 ^ 30 : ℝ) ^ 2 < 26000000000000 ∧
        (26000000000000 : ℝ) < ((5475030513136710 + 1 / 2) / 2 ^ 30) ^ 2) ∧
      (((5475030513136710 - 1 / 2) / 2 ^ 29 : ℝ) ^ 2 < 104000000000000 ∧
        (104000000000000 : ℝ) < ((5475030513136710 + 1 / 2) / 2 ^ 29) ^ 2) ∧
      (((8212545769705064 - 1 / 2) / 2 ^ 29 : ℝ) ^ 2 < 234000000000000 ∧
        (234000000000000 : ℝ) < ((8212545769705064 + 1 / 2) / 2 ^ 29) ^ 2) ∧
      (edge01 lm (segment ℝ ![0, 3000000, 15000000])).edgeLength =
        Norm lm (Subtract
          ((segment ℝ ![0, 3000000, 15000000]).getPoint
            (edge01 lm (segment ℝ ![0, 3000000, 15000000])).p2)
          ((segment ℝ ![0, 3000000, 15000000]).getPoint
            (edge01 lm (segment ℝ ![0, 3000000, 15000000])).p1)) ∧
      lm.sqrt 26000000000000 + lm.sqrt 104000000000000 = 16425091539410130 / 2 ^ 30 ∧
      lm.sqrt 26000000000000 + lm.sqrt 104000000000000 - lm.sqrt 234000000000000
        = 1 / 2 ^ 29 ∧
      ¬ |lm.sqrt 26000000000000 + lm.sqrt 104000000000000 - lm.sqrt 234000000000000|
        < 1 / 1000000000 ∧
      compute_Le lm
        (displacements lm (segment ℝ ![0, 3000000, 15000000])
          (fun k => (segment ℝ ![0, 3000000, 15000000]).getPoint 0 k
            + 1 / 3 * ((segment ℝ ![0, 3000000, 15000000]).getPoint 1 k
              - (segment ℝ ![0, 3000000, 15000000]).getPoint 0 k)))
        (edge01 lm (segment ℝ ![0, 3000000, 15000000])) =
        some (Real.log (16425091539410129)) ∧
      0 < Real.log (16425091539410129) ∧
      compute_Le lm
        (displacements lm (segment ℝ ![0, 3000000, 15000000])
          (fun k => (segment ℝ ![0, 3000000, 15000000]).getPoint 0 k
            + 1 / 3 * ((segment ℝ ![0, 3000000, 15000000]).getPoint 1 k
              - (segment ℝ ![0, 3000000, 15000000]).getPoint 0 k)))
        (edge01 lm (segment ℝ ![0, 3000000, 15000000])) ≠ some 0 := by
  obtain ⟨lm, hlm⟩ : ∃ lm : LibM ℝ, lm =
      ⟨fun x => if x = 26000000000000 then 5475030513136710 / 2 ^ 30
        else if x = 104000000000000 then 5475030513136710 / 2 ^ 29
        else if x = 234000000000000 then 8212545769705064 / 2 ^ 29
        else Real.sqrt x,
      Real.log, fun y x => Complex.arg ⟨x, y⟩,
      fun x => if x < 0 then -Real.pi else 0, Real.pi⟩ := ⟨_, rfl⟩
  have hs1 : lm.sqrt 26000000000000 = 5475030513136710 / 2 ^ 30 := by
    rw [hlm]
    exact if_pos rfl
  have hs2 : lm.sqrt 104000000000000 = 5475030513136710 / 2 ^ 29 := by
    rw [hlm]
    show (if (104000000000000 : ℝ) = 26000000000000 then (5475030513136710 / 2 ^ 30 : ℝ)
      else if (104000000000000 : ℝ) = 104000000000000 then 5475030513136710 / 2 ^ 29
      else if (104000000000000 : ℝ) = 234000000000000 then 8212545769705064 / 2 ^ 29
      else Real.sqrt 104000000000000) = 5475030513136710 / 2 ^ 29
    rw [if_neg (by norm_num), if_pos rfl]
  have hs3 : lm.sqrt 234000000000000 = 8212545769705064 / 2 ^ 29 := by
    rw [hlm]
    show (if (234000000000000 : ℝ) = 26000000000000 then (5475030513136710 / 2 ^ 30 : ℝ)
      else if (234000000000000 : ℝ) = 104000000000000 then 5475030513136710 / 2 ^ 29
      else if (234000000000000 : ℝ) = 234000000000000 then 8212545769705064 / 2 ^ 29
      else Real.sqrt 234000000000000) = 8212545769705064 / 2 ^ 29
    rw [if_neg (by norm_num), if_neg (by norm_num), if_pos rfl]
  have hlog : lm.log = Real.log := by rw [hlm]
  have hother : ∀ x : ℝ, x ≠ 26000000000000 → x ≠ 104000000000000 → x ≠ 234000000000000 →
      lm.sqrt x = Real.sqrt x := by
    intro x h1 h2 h3
    rw [hlm]
    show (if x = 26000000000000 then (5475030513136710 / 2 ^ 30 : ℝ)
      else if x = 104000000000000 then 5475030513136710 / 2 ^ 29
      else if x = 234000000000000 then 8212545769705064 / 2 ^ 29
      else Real.sqrt x) = Real.sqrt x
    rw [if_neg h1, if_neg h2, if_neg h3]
  have hpos : (0 : ℝ) < Real.log 16425091539410129 := Real.log_pos (by norm_num)
  obtain ⟨_, hval⟩ := compute_Le_long_edge lm _ _ _ hs1 hs2 hs3
  have hdiff : (5475030513136710 / 2 ^ 30 + 5475030513136710 / 2 ^ 29
      - 8212545769705064 / 2 ^ 29 : ℝ) = 1 / 2 ^ 29 := by norm_num
  have hnot : ¬ |(5475030513136710 / 2 ^ 30 + 5475030513136710 / 2 ^ 29
      - 8212545769705064 / 2 ^ 29 : ℝ)| < 1 / 1000000000 := by
    rw [hdiff]
    norm_num [abs_lt]
  have hq : ((5475030513136710 / 2 ^ 30 + 5475030513136710 / 2 ^ 29
      + 8212545769705064 / 2 ^ 29) / (5475030513136710 / 2 ^ 30 + 5475030513136710 / 2 ^ 29
      - 8212545769705064 / 2 ^ 29) : ℝ) = 16425091539410129 := by
    rw [hdiff]
    norm_num
  rw [if_neg hnot, hq, hlog] at hval
  refine ⟨lm, hother, hlog, hs1, hs2, hs3, by norm_num, by norm_num, by norm_num, by norm_num,
    rfl, ?_, ?_, ?_, hval, hpos, ?_⟩
  · rw [hs1, hs2]
    norm_num
  · rw [hs1, hs2, hs3]
    exact hdiff
  · rw [hs1, hs2, hs3]
    exact hnot
  · rw [hval]
    intro hc
    rw [Option.some.injEq] at hc
    linarith

end Rounded

end GravityWerner
